import Mathlib

/-!
# miniauth: the OAuth 2.0 authorization server core

A shallow embedding of `service/oauth.go`, `service/org.go`,
`database/models.go` and of the handlers in `handlers/oauth.go` and
`handlers/admin.go` that the properties below are about.

* A database table is the list of its rows in primary-key order, so the gorm
  query `First` (`ORDER BY id LIMIT 1`) is the first matching row of the list.
* Every model embeds `gorm.Model`; its `ID` and `DeletedAt` are kept (queries
  see only rows with `DeletedAt = none`), the bookkeeping stamps `CreatedAt`
  and `UpdatedAt` are left out.
* Text columns are compared with exact string equality (the default sqlite
  driver).
* A Go `error` is its message. The store operations that can fail in the model
  are `First` (record not found) and `Create` (unique index violation); other
  storage failures are outside the model, except in `DeleteApplication`, whose
  calls take the storage fault they meet.
* `time.Now()` and the random generators are inputs: every reading of the
  clock and every generated value a call uses is an explicit argument.
* Times are natural numbers of nanoseconds, as in the Go type `time.Duration`.
-/

set_option autoImplicit false

namespace MiniAuth

/-! ## Go standard library: time, strings -/

/-- Go `time.Second`, in nanoseconds. -/
def Second : Nat := 1000000000

/-- Go `time.Minute`. -/
def Minute : Nat := 60 * Second

/-- Go `time.Hour`. -/
def Hour : Nat := 60 * Minute

/-- Go `t.After(u)`: `t` is strictly later than `u`. -/
def After (t u : Nat) : Bool := decide (u < t)

/-- Splitting a character list at every occurrence of `sep`; a list without
`sep` gives one piece, so the empty list gives one empty piece. -/
def splitChars (sep : Char) : List Char → List (List Char)
  | [] => [[]]
  | c :: cs =>
    if c = sep then [] :: splitChars sep cs
    else
      match splitChars sep cs with
      | [] => [[c]]
      | w :: ws => (c :: w) :: ws

/-- Go `strings.Split(s, " ")`. -/
def stringsSplit (s : String) : List String :=
  (splitChars ' ' s.toList).map String.mk

/-- Go `strings.Join(elems, " ")`. -/
def stringsJoin : List String → String
  | [] => ""
  | [a] => a
  | a :: b :: rest => a ++ " " ++ stringsJoin (b :: rest)

/-! ## Go standard library: crypto/sha256 and encoding/base64

`sha256.Sum256` follows FIPS 180-4 on bytes held as natural numbers, 32-bit
words being reduced modulo `2^32`; `base64URLNoPad` is
`base64.URLEncoding.WithPadding(base64.NoPadding).EncodeToString` (RFC 4648 §5).
-/

/-- The 64 round constants of SHA-256. -/
def sha256K : List Nat := [
  0x428a2f98, 0x71374491, 0xb5c0fbcf, 0xe9b5dba5, 0x3956c25b, 0x59f111f1, 0x923f82a4, 0xab1c5ed5,
  0xd807aa98, 0x12835b01, 0x243185be, 0x550c7dc3, 0x72be5d74, 0x80deb1fe, 0x9bdc06a7, 0xc19bf174,
  0xe49b69c1, 0xefbe4786, 0x0fc19dc6, 0x240ca1cc, 0x2de92c6f, 0x4a7484aa, 0x5cb0a9dc, 0x76f988da,
  0x983e5152, 0xa831c66d, 0xb00327c8, 0xbf597fc7, 0xc6e00bf3, 0xd5a79147, 0x06ca6351, 0x14292967,
  0x27b70a85, 0x2e1b2138, 0x4d2c6dfc, 0x53380d13, 0x650a7354, 0x766a0abb, 0x81c2c92e, 0x92722c85,
  0xa2bfe8a1, 0xa81a664b, 0xc24b8b70, 0xc76c51a3, 0xd192e819, 0xd6990624, 0xf40e3585, 0x106aa070,
  0x19a4c116, 0x1e376c08, 0x2748774c, 0x34b0bcb5, 0x391c0cb3, 0x4ed8aa4a, 0x5b9cca4f, 0x682e6ff3,
  0x748f82ee, 0x78a5636f, 0x84c87814, 0x8cc70208, 0x90befffa, 0xa4506ceb, 0xbef9a3f7, 0xc67178f2]

/-- The initial hash value of SHA-256. -/
def sha256Init : List Nat := [
  0x6a09e667, 0xbb67ae85, 0x3c6ef372, 0xa54ff53a, 0x510e527f, 0x9b05688c, 0x1f83d9ab, 0x5be0cd19]

/-- Reduction to a 32-bit word. -/
def w32 (x : Nat) : Nat := x % 4294967296

/-- Rotation of a 32-bit word to the right by `n` bits. -/
def rotr (x n : Nat) : Nat := w32 ((x >>> n) ||| (x <<< (32 - n)))

def bigSigma0 (x : Nat) : Nat := rotr x 2 ^^^ rotr x 13 ^^^ rotr x 22

def bigSigma1 (x : Nat) : Nat := rotr x 6 ^^^ rotr x 11 ^^^ rotr x 25

def smallSigma0 (x : Nat) : Nat := rotr x 7 ^^^ rotr x 18 ^^^ (x >>> 3)

def smallSigma1 (x : Nat) : Nat := rotr x 17 ^^^ rotr x 19 ^^^ (x >>> 10)

def sha256Ch (x y z : Nat) : Nat := (x &&& y) ^^^ ((4294967295 ^^^ x) &&& z)

def sha256Maj (x y z : Nat) : Nat := (x &&& y) ^^^ (x &&& z) ^^^ (y &&& z)

/-- The `n` low bytes of `x`, most significant first. -/
def beBytes : Nat → Nat → List Nat
  | 0, _ => []
  | n + 1, x => (x >>> (8 * n)) % 256 :: beBytes n x

/-- Message padding: a `1` bit, zero bits up to 56 modulo 64 bytes, and the
bit length as a 64-bit big-endian number. -/
def sha256Pad (msg : List Nat) : List Nat :=
  msg ++ [128] ++ List.replicate ((119 - msg.length % 64) % 64) 0 ++ beBytes 8 (8 * msg.length)

/-- Big-endian 32-bit words of a byte list. -/
def beWords : List Nat → List Nat
  | a :: b :: c :: d :: rest => (a <<< 24 ||| b <<< 16 ||| c <<< 8 ||| d) :: beWords rest
  | _ => []

/-- The first `n` blocks of sixteen words. -/
def sha256Blocks : Nat → List Nat → List (List Nat)
  | 0, _ => []
  | n + 1, ws => ws.take 16 :: sha256Blocks n (ws.drop 16)

/-- Extension of the message schedule by `n` words; the list holds the newest
word first. -/
def sha256Schedule : Nat → List Nat → List Nat
  | 0, ws => ws
  | n + 1, ws =>
    sha256Schedule n
      (w32 (smallSigma1 (ws.getD 1 0) + ws.getD 6 0 + smallSigma0 (ws.getD 14 0) + ws.getD 15 0)
        :: ws)

/-- One round of the compression function on the working variables `a..h`. -/
def sha256Round (st : List Nat) (kw : Nat × Nat) : List Nat :=
  match st with
  | [a, b, c, d, e, f, g, h] =>
    let t1 := h + bigSigma1 e + sha256Ch e f g + kw.1 + kw.2
    let t2 := bigSigma0 a + sha256Maj a b c
    [w32 (t1 + t2), a, b, c, w32 (d + t1), e, f, g]
  | _ => st

/-- The compression function on one block of sixteen words. -/
def sha256Compress (st : List Nat) (block : List Nat) : List Nat :=
  let w := (sha256Schedule 48 block.reverse).reverse
  let st1 := (sha256K.zip w).foldl sha256Round st
  List.zipWith (fun x y => w32 (x + y)) st st1

/-- Go `sha256.Sum256`: the 32 digest bytes of a byte list. -/
def sha256Sum256 (msg : List Nat) : List Nat :=
  let p := sha256Pad msg
  ((sha256Blocks (p.length / 64) (beWords p)).foldl sha256Compress sha256Init).flatMap (beBytes 4)

/-- UTF-8 bytes of one character. -/
def utf8Char (c : Char) : List Nat :=
  let n := c.toNat
  if n < 128 then [n]
  else if n < 2048 then [192 + n / 64, 128 + n % 64]
  else if n < 65536 then [224 + n / 4096, 128 + n / 64 % 64, 128 + n % 64]
  else [240 + n / 262144, 128 + n / 4096 % 64, 128 + n / 64 % 64, 128 + n % 64]

/-- Go `[]byte(s)`. -/
def stringBytes (s : String) : List Nat := s.toList.flatMap utf8Char

/-- The URL-safe base64 alphabet. -/
def b64urlAlphabet : List Char :=
  "ABCDEFGHIJKLMNOPQRSTUVWXYZabcdefghijklmnopqrstuvwxyz0123456789-_".toList

def b64Char (i : Nat) : Char := b64urlAlphabet.getD i 'A'

/-- Unpadded URL-safe base64 of a byte list. -/
def base64URLNoPadChars : List Nat → List Char
  | a :: b :: c :: rest =>
    b64Char (a / 4) :: b64Char (a % 4 * 16 + b / 16) :: b64Char (b % 16 * 4 + c / 64)
      :: b64Char (c % 64) :: base64URLNoPadChars rest
  | [a, b] => [b64Char (a / 4), b64Char (a % 4 * 16 + b / 16), b64Char (b % 16 * 4)]
  | [a] => [b64Char (a / 4), b64Char (a % 4 * 16)]
  | [] => []

/-- Go `base64.URLEncoding.WithPadding(base64.NoPadding).EncodeToString`. -/
def base64URLNoPad (bs : List Nat) : String := String.mk (base64URLNoPadChars bs)

/-- The S256 transform of a code verifier: `base64url_nopad(sha256(verifier))`. -/
def s256 (codeVerifier : String) : String :=
  base64URLNoPad (sha256Sum256 (stringBytes codeVerifier))

/-! ## Go standard library: encoding/json on a `[]string`

`json.Marshal` and `json.Unmarshal` as the registry uses them, on a value of
type `[]string`. A Go string is modelled as the text it holds (valid UTF-8, as
every string decoded from a request body is), so the replacement of invalid
bytes by U+FFFD does not arise. A Go slice is a list, and a list does not tell
a nil slice from an empty one: the encoder of the model writes the empty list
as `[]`, where Go writes `null` for a nil slice, and the decoder reads both
texts as the empty list, as Go reads them as slices without elements. The
decoder reads its input character by character; of its errors only the fact
and two messages are modelled. -/

/-- The double quote. -/
def json.quote : Char := Char.ofNat 34

/-- The backslash. -/
def json.backslash : Char := Char.ofNat 92

/-- The replacement character U+FFFD. -/
def json.replacement : Char := Char.ofNat 65533

/-- The table `hex` of `encoding/json`. -/
def json.hexDigit (n : Nat) : Char := "0123456789abcdef".toList.getD n '0'

/-- What the encoder writes for one character of a string, with the escaping
of HTML characters that `json.Marshal` applies: a backslash before a double
quote and before a backslash, the short escapes of backspace, form feed, line feed, carriage return and tab
(Go before 1.22 writes backspace and form feed as `\u0008` and `\u000c`, which
decode to the same characters), `\u00XX` for the other control characters and
for `<`, `>`, `&`, the escapes of U+2028 and U+2029, and the character itself
otherwise. -/
def json.encodeChar (c : Char) : List Char :=
  if c = json.quote ∨ c = json.backslash then [json.backslash, c]
  else if c = Char.ofNat 8 then [json.backslash, 'b']
  else if c = Char.ofNat 12 then [json.backslash, 'f']
  else if c = Char.ofNat 10 then [json.backslash, 'n']
  else if c = Char.ofNat 13 then [json.backslash, 'r']
  else if c = Char.ofNat 9 then [json.backslash, 't']
  else if c.toNat < 32 ∨ c = '<' ∨ c = '>' ∨ c = '&' then
    [json.backslash, 'u', '0', '0', json.hexDigit (c.toNat / 16), json.hexDigit (c.toNat % 16)]
  else if c = Char.ofNat 8232 then [json.backslash, 'u', '2', '0', '2', '8']
  else if c = Char.ofNat 8233 then [json.backslash, 'u', '2', '0', '2', '9']
  else [c]

/-- The JSON string literal of a string. -/
def json.encodeString (s : String) : List Char :=
  json.quote :: s.toList.flatMap json.encodeChar ++ [json.quote]

/-- The literals of the elements, separated by commas. -/
def json.encodeStrings : List String → List Char
  | [] => []
  | [a] => json.encodeString a
  | a :: b :: rest => json.encodeString a ++ ',' :: json.encodeStrings (b :: rest)

/-- Go `json.Marshal` on a `[]string`; it returns no error on this type. -/
def json.Marshal (v : List String) : Except String String :=
  .ok (String.mk ('[' :: json.encodeStrings v ++ [']']))

/-- The value of a hexadecimal digit, of either case. -/
def json.hexValue (c : Char) : Option Nat :=
  if '0' ≤ c ∧ c ≤ '9' then some (c.toNat - 48)
  else if 'a' ≤ c ∧ c ≤ 'f' then some (c.toNat - 87)
  else if 'A' ≤ c ∧ c ≤ 'F' then some (c.toNat - 55)
  else none

/-- JSON white space. -/
def json.isSpace (c : Char) : Bool :=
  c = ' ' || c = Char.ofNat 9 || c = Char.ofNat 10 || c = Char.ofNat 13

/-- What the decoder has read of a text that is to be a `[]string`: nothing
yet; part of the literal `null` for the whole value; the opening bracket; a
comma; part of a `null` element; part of a string (the elements read so far,
the characters of the string so far, and a high surrogate escape that waits
for its low half); a backslash; `\u` and `k` hexadecimal digits of value `v`;
an element; the whole value; or an error. -/
inductive json.State where
  | start
  | topNull (seen : Nat)
  | first
  | next (done : List String)
  | elemNull (seen : Nat) (done : List String)
  | inString (done : List String) (acc : List Char) (pending : Option Nat)
  | escape (done : List String) (acc : List Char) (pending : Option Nat)
  | unicode (done : List String) (acc : List Char) (pending : Option Nat) (k v : Nat)
  | afterElem (done : List String)
  | finished (result : List String)
  | failed (message : String)
  deriving DecidableEq, Repr

/-- The message of a syntax or type error, without the detail Go adds. -/
def json.errInvalid : String := "invalid character"

/-- The characters read so far, a waiting high surrogate that found no low
half being replaced by U+FFFD. -/
def json.flush (acc : List Char) (pending : Option Nat) : List Char :=
  match pending with
  | none => acc
  | some _ => acc ++ [json.replacement]

/-- The string state after the escape `\uXXXX` of value `v`: a low surrogate
after a waiting high one gives their code point; a high surrogate waits; a
surrogate without its other half gives U+FFFD. -/
def json.unicodeDone (done : List String) (acc : List Char) (pending : Option Nat) (v : Nat) :
    json.State :=
  match pending with
  | some hi =>
    if 56320 ≤ v ∧ v < 57344 then
      .inString done (acc ++ [Char.ofNat (65536 + (hi - 55296) * 1024 + (v - 56320))]) none
    else if 55296 ≤ v ∧ v < 56320 then
      .inString done (acc ++ [json.replacement]) (some v)
    else
      .inString done (acc ++ [json.replacement, Char.ofNat v]) none
  | none =>
    if 55296 ≤ v ∧ v < 56320 then .inString done acc (some v)
    else if 56320 ≤ v ∧ v < 57344 then .inString done (acc ++ [json.replacement]) none
    else .inString done (acc ++ [Char.ofNat v]) none

/-- The letter that follows `seen` letters of `null`. -/
def json.nullLetter (seen : Nat) : Char := if seen = 1 then 'u' else 'l'

/-- One character read by the decoder. -/
def json.step : json.State → Char → json.State
  | .start, c =>
    if json.isSpace c then .start
    else if c = '[' then .first
    else if c = 'n' then .topNull 1
    else .failed json.errInvalid
  | .topNull seen, c =>
    if c = json.nullLetter seen then (if seen = 3 then .finished [] else .topNull (seen + 1))
    else .failed json.errInvalid
  | .first, c =>
    if json.isSpace c then .first
    else if c = ']' then .finished []
    else if c = json.quote then .inString [] [] none
    else if c = 'n' then .elemNull 1 []
    else .failed json.errInvalid
  | .next done, c =>
    if json.isSpace c then .next done
    else if c = json.quote then .inString done [] none
    else if c = 'n' then .elemNull 1 done
    else .failed json.errInvalid
  | .elemNull seen done, c =>
    if c = json.nullLetter seen then
      (if seen = 3 then .afterElem (done ++ [""]) else .elemNull (seen + 1) done)
    else .failed json.errInvalid
  | .inString done acc pending, c =>
    if c = json.quote then .afterElem (done ++ [String.mk (json.flush acc pending)])
    else if c = json.backslash then .escape done acc pending
    else if c.toNat < 32 then .failed json.errInvalid
    else .inString done (json.flush acc pending ++ [c]) none
  | .escape done acc pending, c =>
    if c = 'u' then .unicode done acc pending 0 0
    else if c = json.quote ∨ c = json.backslash ∨ c = '/' then
      .inString done (json.flush acc pending ++ [c]) none
    else if c = 'b' then .inString done (json.flush acc pending ++ [Char.ofNat 8]) none
    else if c = 'f' then .inString done (json.flush acc pending ++ [Char.ofNat 12]) none
    else if c = 'n' then .inString done (json.flush acc pending ++ [Char.ofNat 10]) none
    else if c = 'r' then .inString done (json.flush acc pending ++ [Char.ofNat 13]) none
    else if c = 't' then .inString done (json.flush acc pending ++ [Char.ofNat 9]) none
    else .failed json.errInvalid
  | .unicode done acc pending k v, c =>
    match json.hexValue c with
    | none => .failed json.errInvalid
    | some d =>
      if k < 3 then .unicode done acc pending (k + 1) (v * 16 + d)
      else json.unicodeDone done acc pending (v * 16 + d)
  | .afterElem done, c =>
    if json.isSpace c then .afterElem done
    else if c = ',' then .next done
    else if c = ']' then .finished done
    else .failed json.errInvalid
  | .finished result, c =>
    if json.isSpace c then .finished result else .failed json.errInvalid
  | .failed message, _ => .failed message

/-- The decoder run over a text. -/
def json.run (st : json.State) (cs : List Char) : json.State := cs.foldl json.step st

/-- Go `json.Unmarshal` into a `[]string`: the elements when the text is
`null` or an array of strings and `null`s (a `null` element is the empty
string), an error otherwise. -/
def json.Unmarshal (data : String) : Except String (List String) :=
  match json.run .start data.toList with
  | .finished result => .ok result
  | .failed message => .error message
  | _ => .error "unexpected end of JSON input"

/-- Equality of Go results (a value or an error message) is decidable. -/
instance exceptDecEq {ε α : Type} [DecidableEq ε] [DecidableEq α] : DecidableEq (Except ε α)
  | .ok a, .ok b =>
    if h : a = b then isTrue (by rw [h]) else isFalse (fun h2 => h (Except.ok.inj h2))
  | .error a, .error b =>
    if h : a = b then isTrue (by rw [h]) else isFalse (fun h2 => h (Except.error.inj h2))
  | .ok _, .error _ => isFalse (fun h => nomatch h)
  | .error _, .ok _ => isFalse (fun h => nomatch h)

/-! ## database/models.go -/

/-- The user account (`database.User`); the organizations of a user are a
separate association that no query of the OAuth service loads. -/
structure User where
  ID : Nat := 0
  DeletedAt : Option Nat := none
  Username : String := ""
  Email : String := ""
  PasswordHash : String := ""
  Role : String := ""
  deriving DecidableEq, Repr

/-- The registered client application (`database.OAuthApplication`). -/
structure OAuthApplication where
  ID : Nat
  DeletedAt : Option Nat := none
  Name : String := ""
  ClientID : String
  ClientSecret : String
  RedirectURIs : String
  Scopes : String
  Description : String := ""
  Website : String := ""
  CreatedByID : Nat := 0
  Trusted : Bool := false
  Active : Bool := true
  deriving DecidableEq, Repr

/-- The authorization code (`database.OAuthAuthorizationCode`). -/
structure OAuthAuthorizationCode where
  ID : Nat
  DeletedAt : Option Nat := none
  Code : String
  ClientID : String
  UserID : Nat
  RedirectURI : String
  Scopes : String
  ExpiresAt : Nat
  Used : Bool := false
  CodeChallenge : String := ""
  CodeChallengeMethod : String := ""
  deriving DecidableEq, Repr

/-- The access token (`database.OAuthAccessToken`). -/
structure OAuthAccessToken where
  ID : Nat
  DeletedAt : Option Nat := none
  Token : String
  ClientID : String
  UserID : Nat
  Scopes : String
  ExpiresAt : Nat
  Revoked : Bool := false
  deriving DecidableEq, Repr

/-- The refresh token (`database.OAuthRefreshToken`). -/
structure OAuthRefreshToken where
  ID : Nat
  DeletedAt : Option Nat := none
  Token : String
  ClientID : String
  UserID : Nat
  AccessToken : String
  ExpiresAt : Nat
  Revoked : Bool := false
  deriving DecidableEq, Repr

/-- The organization (`database.Org`). -/
structure Org where
  ID : Nat := 0
  DeletedAt : Option Nat := none
  Name : String := ""
  Slug : String := ""
  deriving DecidableEq, Repr

/-- The membership of a user in an organization (`database.OrgMember`), with
the primary key (`OrgID`, `UserID`) and without the stamp `CreatedAt`. -/
structure OrgMember where
  OrgID : Nat
  UserID : Nat
  DeletedAt : Option Nat := none
  Role : String := "member"
  deriving DecidableEq, Repr

/-- The tables the services read and write. -/
structure Store where
  apps : List OAuthApplication := []
  codes : List OAuthAuthorizationCode := []
  accessTokens : List OAuthAccessToken := []
  refreshTokens : List OAuthRefreshToken := []
  users : List User := []
  orgs : List Org := []
  orgMembers : List OrgMember := []
  deriving DecidableEq, Repr

/-- The primary key an insert receives: one more than the largest key in use. -/
def nextID (ids : List Nat) : Nat := ids.foldl max 0 + 1

/-- Message of `gorm.ErrRecordNotFound`. -/
def errRecordNotFound : String := "record not found"

/-- Message of the driver error for an insert that breaks a `uniqueIndex`. -/
def errUniqueViolation : String := "UNIQUE constraint failed"

/-- The `uniqueIndex` on `oauth_applications.client_id`. -/
def Store.clientIDsUnique (s : Store) : Prop := (s.apps.map (·.ClientID)).Nodup

/-- The `uniqueIndex` on `oauth_authorization_codes.code`. -/
def Store.codesUnique (s : Store) : Prop := (s.codes.map (·.Code)).Nodup

/-- The `uniqueIndex` on `oauth_access_tokens.token`. -/
def Store.accessTokensUnique (s : Store) : Prop := (s.accessTokens.map (·.Token)).Nodup

/-- The `uniqueIndex` on `oauth_refresh_tokens.token`. -/
def Store.refreshTokensUnique (s : Store) : Prop := (s.refreshTokens.map (·.Token)).Nodup

/-- The primary key of the user table. -/
def Store.userIDsUnique (s : Store) : Prop := (s.users.map (·.ID)).Nodup

instance (s : Store) : Decidable s.userIDsUnique := by
  unfold Store.userIDsUnique; infer_instance

instance (s : Store) : Decidable s.accessTokensUnique := by
  unfold Store.accessTokensUnique; infer_instance

instance (s : Store) : Decidable s.refreshTokensUnique := by
  unfold Store.refreshTokensUnique; infer_instance

instance (s : Store) : Decidable s.clientIDsUnique := by
  unfold Store.clientIDsUnique; infer_instance

instance (s : Store) : Decidable s.codesUnique := by
  unfold Store.codesUnique; infer_instance

/-! ## service/oauth.go: requests and responses -/

structure AuthorizeRequest where
  ResponseType : String
  ClientID : String
  RedirectURI : String
  Scope : String := ""
  State : String := ""
  CodeChallenge : String := ""
  CodeChallengeMethod : String := ""
  deriving DecidableEq, Repr

structure TokenRequest where
  GrantType : String
  Code : String := ""
  RedirectURI : String := ""
  ClientID : String
  ClientSecret : String := ""
  CodeVerifier : String := ""
  RefreshToken : String := ""
  deriving DecidableEq, Repr

structure TokenResponse where
  AccessToken : String
  TokenType : String
  ExpiresIn : Nat
  RefreshToken : String
  Scope : String
  deriving DecidableEq, Repr

/-! ## service/oauth.go: helpers -/

/-- The value of `allowedMap` after the loop over `allowed`: a Go
`map[string]bool`, read as `false` at a missing key. -/
def allowedMap (allowed : List String) : String → Bool :=
  allowed.foldl (fun m scope => fun k => if k = scope then true else m k) (fun _ => false)

/-- The method `intersectScopes`: the requested scopes that are keys of the
map built from `allowed`, appended in the order of the loop over `requested`. -/
def intersectScopes (requested allowed : List String) : List String :=
  requested.foldl
    (fun result scope => if allowedMap allowed scope then result ++ [scope] else result) []

/-- The method `validatePKCE`. -/
def validatePKCE (codeChallenge codeChallengeMethod codeVerifier : String) : Bool :=
  if codeChallengeMethod = "" ∨ codeChallengeMethod = "plain" then
    codeChallenge == codeVerifier
  else if codeChallengeMethod = "S256" then
    codeChallenge == s256 codeVerifier
  else
    false

/-- The `requestedScopes` of `CreateAuthorizationCode`: the scope parameter
split at spaces, replaced by the default scope when the split is the single
empty name. -/
def requestedScopes (scope : String) : List String :=
  let requested := stringsSplit scope
  if requested.length = 1 ∧ requested.head? = some "" then ["read"] else requested

/-- The `grantedScopes` of `CreateAuthorizationCode`. -/
def grantedScopes (scope appScopes : String) : List String :=
  intersectScopes (requestedScopes scope) (stringsSplit appScopes)

/-- The redirect URI loop of `ValidateAuthorizationRequest`. -/
def isValidRedirectURI : List String → String → Bool
  | [], _ => false
  | uri :: rest, redirectURI => if uri = redirectURI then true else isValidRedirectURI rest redirectURI

/-! ## service/oauth.go: the authorization endpoint -/

/-- The method `ValidateAuthorizationRequest`. `jsonUnmarshal` is Go's
`json.Unmarshal` into a `[]string`, with the message of its error. -/
def ValidateAuthorizationRequest (jsonUnmarshal : String → Except String (List String))
    (s : Store) (req : AuthorizeRequest) : Except String OAuthApplication × Store :=
  if req.ResponseType ≠ "code" then
    (.error ("unsupported response_type: " ++ req.ResponseType), s)
  else
    match s.apps.find? (fun a => a.DeletedAt.isNone && a.ClientID == req.ClientID && a.Active) with
    | none => (.error "invalid or inactive client_id", s)
    | some app =>
      match jsonUnmarshal app.RedirectURIs with
      | .error e => (.error ("failed to parse redirect URIs: " ++ e), s)
      | .ok redirectURIs =>
        if !isValidRedirectURI redirectURIs req.RedirectURI then
          (.error "invalid redirect_uri", s)
        else if req.CodeChallenge ≠ "" ∧ req.CodeChallengeMethod ≠ ""
            ∧ req.CodeChallengeMethod ≠ "plain" ∧ req.CodeChallengeMethod ≠ "S256" then
          (.error ("unsupported code_challenge_method: " ++ req.CodeChallengeMethod), s)
        else
          (.ok app, s)

/-- The method `CreateAuthorizationCode`. `code` is the value
`generateAuthorizationCode` returned and `now` the reading of `time.Now()`. -/
def CreateAuthorizationCode (s : Store) (code : String) (now : Nat) (userID : Nat)
    (app : OAuthApplication) (req : AuthorizeRequest) : Except String String × Store :=
  let authCode : OAuthAuthorizationCode :=
    { ID := nextID (s.codes.map (·.ID))
      Code := code
      ClientID := app.ClientID
      UserID := userID
      RedirectURI := req.RedirectURI
      Scopes := stringsJoin (grantedScopes req.Scope app.Scopes)
      ExpiresAt := now + 10 * Minute
      CodeChallenge := req.CodeChallenge
      CodeChallengeMethod := req.CodeChallengeMethod }
  if s.codes.any (fun c => c.Code == code) then
    (.error ("failed to create authorization code: " ++ errUniqueViolation), s)
  else
    (.ok code, { s with codes := s.codes ++ [authCode] })

/-! ## service/oauth.go: the token endpoint -/

/-- What one call of `ExchangeCodeForToken` reads from outside the store: the
clock at the expiry check, the generated access and refresh token values, and
the clock when each token record is built. -/
structure ExchangeEnv where
  now : Nat
  accessToken : String
  refreshToken : String
  nowAccess : Nat
  nowRefresh : Nat
  deriving DecidableEq, Repr

/-- The statement `db.Model(&authCode).Update("used", true)`. -/
def markCodeUsed (s : Store) (authCode : OAuthAuthorizationCode) : Store :=
  { s with codes := s.codes.map fun c =>
      if c.ID = authCode.ID ∧ c.DeletedAt.isNone then { c with Used := true } else c }

/-- The statement `db.Create` on the access token table. -/
def createAccessToken (s : Store) (token clientID : String) (userID : Nat) (scopes : String)
    (expiresAt : Nat) : Option Store :=
  if s.accessTokens.any (fun t => t.Token == token) then none
  else some { s with accessTokens := s.accessTokens ++
      [{ ID := nextID (s.accessTokens.map (·.ID)), Token := token, ClientID := clientID,
         UserID := userID, Scopes := scopes, ExpiresAt := expiresAt }] }

/-- The statement `db.Create` on the refresh token table. -/
def createRefreshToken (s : Store) (token clientID : String) (userID : Nat)
    (accessToken : String) (expiresAt : Nat) : Option Store :=
  if s.refreshTokens.any (fun t => t.Token == token) then none
  else some { s with refreshTokens := s.refreshTokens ++
      [{ ID := nextID (s.refreshTokens.map (·.ID)), Token := token, ClientID := clientID,
         UserID := userID, AccessToken := accessToken, ExpiresAt := expiresAt }] }

/-- The lookup `Where("code = ? AND used = false", req.Code).First(&authCode)`. -/
def findAuthorizationCode (s : Store) (code : String) : Option OAuthAuthorizationCode :=
  s.codes.find? (fun c => c.DeletedAt.isNone && c.Code == code && !c.Used)

/-- The checks of `ExchangeCodeForToken` on the code it found (expiry, client,
redirect URI, PKCE), the call of the method `validatePKCE` being the argument
`pkce`. -/
def checkAuthorizationCode (pkce : String → String → String → Bool) (now : Nat)
    (req : TokenRequest) (authCode : OAuthAuthorizationCode) : Except String Unit :=
  if After now authCode.ExpiresAt then
    .error "authorization code expired"
  else if authCode.ClientID ≠ req.ClientID then
    .error "client_id mismatch"
  else if authCode.RedirectURI ≠ req.RedirectURI then
    .error "redirect_uri mismatch"
  else if authCode.CodeChallenge ≠ "" then
    if req.CodeVerifier = "" then
      .error "code_verifier required for PKCE"
    else if !pkce authCode.CodeChallenge authCode.CodeChallengeMethod req.CodeVerifier then
      .error "invalid code_verifier"
    else
      .ok ()
  else
    .ok ()

/-- The client secret block of `ExchangeCodeForToken`: skipped for an empty
`client_secret`, else the client is looked up by `client_id` alone. -/
def checkClientSecret (s : Store) (req : TokenRequest) : Except String Unit :=
  if req.ClientSecret ≠ "" then
    match s.apps.find? (fun a => a.DeletedAt.isNone && a.ClientID == req.ClientID) with
    | none => .error ("failed to get OAuth application: " ++ errRecordNotFound)
    | some app =>
      if app.ClientSecret ≠ req.ClientSecret then .error "invalid client_secret" else .ok ()
  else
    .ok ()

/-- The response of a successful `ExchangeCodeForToken`. -/
def exchangeResponse (env : ExchangeEnv) (authCode : OAuthAuthorizationCode) : TokenResponse :=
  { AccessToken := env.accessToken, TokenType := "Bearer", ExpiresIn := 3600,
    RefreshToken := env.refreshToken, Scope := authCode.Scopes }

/-- The writes of `ExchangeCodeForToken`: the code is marked used, then the
access token and the refresh token are inserted, each statement on its own (no
transaction). -/
def issueTokens (s : Store) (env : ExchangeEnv) (req : TokenRequest)
    (authCode : OAuthAuthorizationCode) : Except String TokenResponse × Store :=
  let s1 := markCodeUsed s authCode
  match createAccessToken s1 env.accessToken req.ClientID authCode.UserID authCode.Scopes
      (env.nowAccess + 1 * Hour) with
  | none => (.error ("failed to create access token: " ++ errUniqueViolation), s1)
  | some s2 =>
    match createRefreshToken s2 env.refreshToken req.ClientID authCode.UserID env.accessToken
        (env.nowRefresh + 24 * 30 * Hour) with
    | none => (.error ("failed to create refresh token: " ++ errUniqueViolation), s2)
    | some s3 => (.ok (exchangeResponse env authCode), s3)

/-- The method `ExchangeCodeForToken`, the call of the method `validatePKCE`
being the argument `pkce`. -/
def ExchangeCodeForTokenWith (pkce : String → String → String → Bool)
    (s : Store) (env : ExchangeEnv) (req : TokenRequest) : Except String TokenResponse × Store :=
  if req.GrantType ≠ "authorization_code" then
    (.error ("unsupported grant_type: " ++ req.GrantType), s)
  else
    match findAuthorizationCode s req.Code with
    | none => (.error "invalid or expired authorization code", s)
    | some authCode =>
      match checkAuthorizationCode pkce env.now req authCode with
      | .error e => (.error e, s)
      | .ok () =>
        match checkClientSecret s req with
        | .error e => (.error e, s)
        | .ok () => issueTokens s env req authCode

/-- The method `ExchangeCodeForToken`. -/
def ExchangeCodeForToken (s : Store) (env : ExchangeEnv) (req : TokenRequest) :
    Except String TokenResponse × Store :=
  ExchangeCodeForTokenWith validatePKCE s env req

/-! ### Two concurrent calls

Each store statement of `ExchangeCodeForToken` is one atomic step of a call;
between two steps of one call the other call may take steps of its own. -/

/-- The point a running call of `ExchangeCodeForToken` has reached: before the
lookup of the code, before the lookup of the client, before the update of
`used`, before either insert, or returned. -/
inductive ExchangePhase where
  | atLookup
  | atSecret (authCode : OAuthAuthorizationCode)
  | atMark (authCode : OAuthAuthorizationCode)
  | atAccess (authCode : OAuthAuthorizationCode)
  | atRefresh (authCode : OAuthAuthorizationCode)
  | done (result : Except String TokenResponse)
  deriving DecidableEq, Repr

/-- One step of a call of `ExchangeCodeForToken`: the code up to and including
its next store statement. -/
def exchangeStep (env : ExchangeEnv) (req : TokenRequest) (s : Store) :
    ExchangePhase → ExchangePhase × Store
  | .atLookup =>
    if req.GrantType ≠ "authorization_code" then
      (.done (.error ("unsupported grant_type: " ++ req.GrantType)), s)
    else
      match findAuthorizationCode s req.Code with
      | none => (.done (.error "invalid or expired authorization code"), s)
      | some authCode =>
        match checkAuthorizationCode validatePKCE env.now req authCode with
        | .error e => (.done (.error e), s)
        | .ok () => (.atSecret authCode, s)
  | .atSecret authCode =>
    match checkClientSecret s req with
    | .error e => (.done (.error e), s)
    | .ok () => (.atMark authCode, s)
  | .atMark authCode => (.atAccess authCode, markCodeUsed s authCode)
  | .atAccess authCode =>
    match createAccessToken s env.accessToken req.ClientID authCode.UserID authCode.Scopes
        (env.nowAccess + 1 * Hour) with
    | none => (.done (.error ("failed to create access token: " ++ errUniqueViolation)), s)
    | some s2 => (.atRefresh authCode, s2)
  | .atRefresh authCode =>
    match createRefreshToken s env.refreshToken req.ClientID authCode.UserID env.accessToken
        (env.nowRefresh + 24 * 30 * Hour) with
    | none => (.done (.error ("failed to create refresh token: " ++ errUniqueViolation)), s)
    | some s3 => (.done (.ok (exchangeResponse env authCode)), s3)
  | .done result => (.done result, s)

/-- One call run alone for `n` steps. -/
def exchangeSteps (env : ExchangeEnv) (req : TokenRequest) :
    Nat → ExchangePhase × Store → ExchangePhase × Store
  | 0, st => st
  | n + 1, st => exchangeSteps env req n (exchangeStep env req st.2 st.1)

/-- Two calls of `ExchangeCodeForToken` sharing one store. -/
structure Race where
  store : Store
  first : ExchangePhase
  second : ExchangePhase
  deriving DecidableEq, Repr

/-- The call chosen by the scheduler (`false` the first, `true` the second)
takes its next step. -/
def raceStep (envA : ExchangeEnv) (reqA : TokenRequest) (envB : ExchangeEnv) (reqB : TokenRequest)
    (st : Race) (second : Bool) : Race :=
  if second then
    let r := exchangeStep envB reqB st.store st.second
    { st with store := r.2, second := r.1 }
  else
    let r := exchangeStep envA reqA st.store st.first
    { st with store := r.2, first := r.1 }

/-- The two calls started on `s` and run under a schedule. -/
def raceRun (envA : ExchangeEnv) (reqA : TokenRequest) (envB : ExchangeEnv) (reqB : TokenRequest)
    (s : Store) (schedule : List Bool) : Race :=
  schedule.foldl (raceStep envA reqA envB reqB) { store := s, first := .atLookup, second := .atLookup }

/-- The call has returned a token response. -/
def ExchangePhase.succeeded : ExchangePhase → Bool
  | .done (.ok _) => true
  | _ => false

/-- What one call of `RefreshAccessToken` reads from outside the store: the
clock at the expiry check, the generated access token value and the clock when
the new access token record is built. -/
structure RefreshEnv where
  now : Nat
  accessToken : String
  nowAccess : Nat
  deriving DecidableEq, Repr

/-- The statement `db.Model(&oldAccessToken).Update("revoked", true)`. -/
def revokeAccessToken (s : Store) (old : OAuthAccessToken) : Store :=
  { s with accessTokens := s.accessTokens.map fun t =>
      if t.ID = old.ID ∧ t.DeletedAt.isNone then { t with Revoked := true } else t }

/-- The statement `db.Model(&refreshTokenRecord).Update("access_token", newAccessToken)`. -/
def repointRefreshToken (s : Store) (rt : OAuthRefreshToken) (newAccessToken : String) : Store :=
  { s with refreshTokens := s.refreshTokens.map fun t =>
      if t.ID = rt.ID ∧ t.DeletedAt.isNone then { t with AccessToken := newAccessToken } else t }

/-- The method `RefreshAccessToken`. -/
def RefreshAccessToken (s : Store) (env : RefreshEnv) (req : TokenRequest) :
    Except String TokenResponse × Store :=
  if req.GrantType ≠ "refresh_token" then
    (.error ("unsupported grant_type: " ++ req.GrantType), s)
  else
    match s.refreshTokens.find?
        (fun t => t.DeletedAt.isNone && t.Token == req.RefreshToken && !t.Revoked) with
    | none => (.error "invalid refresh token", s)
    | some refreshTokenRecord =>
      if After env.now refreshTokenRecord.ExpiresAt then
        (.error "refresh token expired", s)
      else if refreshTokenRecord.ClientID ≠ req.ClientID then
        (.error "client_id mismatch", s)
      else
        match s.accessTokens.find?
            (fun t => t.DeletedAt.isNone && t.Token == refreshTokenRecord.AccessToken) with
        | none => (.error ("failed to get associated access token: " ++ errRecordNotFound), s)
        | some oldAccessToken =>
          let s1 := revokeAccessToken s oldAccessToken
          match createAccessToken s1 env.accessToken req.ClientID refreshTokenRecord.UserID
              oldAccessToken.Scopes (env.nowAccess + 1 * Hour) with
          | none => (.error ("failed to create new access token: " ++ errUniqueViolation), s1)
          | some s2 =>
            (.ok { AccessToken := env.accessToken, TokenType := "Bearer", ExpiresIn := 3600,
                   RefreshToken := req.RefreshToken, Scope := oldAccessToken.Scopes },
              repointRefreshToken s2 refreshTokenRecord env.accessToken)

/-! ### Two concurrent refreshes

`RefreshAccessToken` issues five store statements (two lookups, the update of
`revoked`, the insert, the update of `access_token`) outside any transaction.
Each statement is one atomic step of a call; between two steps of one call
another call may take steps of its own. -/

/-- The point a running call of `RefreshAccessToken` has reached: before the
lookup of the refresh token, before the lookup of the associated access token,
before the update of `revoked`, before the insert, before the update of
`access_token`, or returned. -/
inductive RefreshPhase where
  | atLookup
  | atAssociated (refreshTokenRecord : OAuthRefreshToken)
  | atRevoke (refreshTokenRecord : OAuthRefreshToken) (oldAccessToken : OAuthAccessToken)
  | atCreate (refreshTokenRecord : OAuthRefreshToken) (oldAccessToken : OAuthAccessToken)
  | atRepoint (refreshTokenRecord : OAuthRefreshToken) (oldAccessToken : OAuthAccessToken)
  | done (result : Except String TokenResponse)
  deriving DecidableEq, Repr

/-- One step of a call of `RefreshAccessToken`: the code up to and including
its next store statement. -/
def refreshStep (env : RefreshEnv) (req : TokenRequest) (s : Store) :
    RefreshPhase → RefreshPhase × Store
  | .atLookup =>
    if req.GrantType ≠ "refresh_token" then
      (.done (.error ("unsupported grant_type: " ++ req.GrantType)), s)
    else
      match s.refreshTokens.find?
          (fun t => t.DeletedAt.isNone && t.Token == req.RefreshToken && !t.Revoked) with
      | none => (.done (.error "invalid refresh token"), s)
      | some refreshTokenRecord =>
        if After env.now refreshTokenRecord.ExpiresAt then
          (.done (.error "refresh token expired"), s)
        else if refreshTokenRecord.ClientID ≠ req.ClientID then
          (.done (.error "client_id mismatch"), s)
        else
          (.atAssociated refreshTokenRecord, s)
  | .atAssociated refreshTokenRecord =>
    match s.accessTokens.find?
        (fun t => t.DeletedAt.isNone && t.Token == refreshTokenRecord.AccessToken) with
    | none =>
      (.done (.error ("failed to get associated access token: " ++ errRecordNotFound)), s)
    | some oldAccessToken => (.atRevoke refreshTokenRecord oldAccessToken, s)
  | .atRevoke refreshTokenRecord oldAccessToken =>
    (.atCreate refreshTokenRecord oldAccessToken, revokeAccessToken s oldAccessToken)
  | .atCreate refreshTokenRecord oldAccessToken =>
    match createAccessToken s env.accessToken req.ClientID refreshTokenRecord.UserID
        oldAccessToken.Scopes (env.nowAccess + 1 * Hour) with
    | none => (.done (.error ("failed to create new access token: " ++ errUniqueViolation)), s)
    | some s2 => (.atRepoint refreshTokenRecord oldAccessToken, s2)
  | .atRepoint refreshTokenRecord oldAccessToken =>
    (.done (.ok { AccessToken := env.accessToken, TokenType := "Bearer", ExpiresIn := 3600,
                  RefreshToken := req.RefreshToken, Scope := oldAccessToken.Scopes }),
      repointRefreshToken s refreshTokenRecord env.accessToken)
  | .done result => (.done result, s)

/-- One call run alone for `n` steps. -/
def refreshSteps (env : RefreshEnv) (req : TokenRequest) :
    Nat → RefreshPhase × Store → RefreshPhase × Store
  | 0, st => st
  | n + 1, st => refreshSteps env req n (refreshStep env req st.2 st.1)

/-- Two calls of `RefreshAccessToken` sharing one store. -/
structure RefreshRace where
  store : Store
  first : RefreshPhase
  second : RefreshPhase
  deriving DecidableEq, Repr

/-- The call chosen by the scheduler (`false` the first, `true` the second)
takes its next step. -/
def refreshRaceStep (envA : RefreshEnv) (reqA : TokenRequest) (envB : RefreshEnv)
    (reqB : TokenRequest) (st : RefreshRace) (second : Bool) : RefreshRace :=
  if second then
    let r := refreshStep envB reqB st.store st.second
    { st with store := r.2, second := r.1 }
  else
    let r := refreshStep envA reqA st.store st.first
    { st with store := r.2, first := r.1 }

/-- The two calls started on `s` and run under a schedule. -/
def refreshRaceRun (envA : RefreshEnv) (reqA : TokenRequest) (envB : RefreshEnv)
    (reqB : TokenRequest) (s : Store) (schedule : List Bool) : RefreshRace :=
  schedule.foldl (refreshRaceStep envA reqA envB reqB)
    { store := s, first := .atLookup, second := .atLookup }

/-! ## service/oauth.go: the client registry -/

/-- The method `ToggleApplicationStatus`: `First` on the primary key, then
`Save` of the record with `Active` negated. -/
def ToggleApplicationStatus (s : Store) (appID : Nat) : Except String Unit × Store :=
  match s.apps.find? (fun a => a.DeletedAt.isNone && a.ID == appID) with
  | none => (.error errRecordNotFound, s)
  | some app =>
    (.ok (), { s with apps := s.apps.map fun a =>
        if a.ID = app.ID ∧ a.DeletedAt.isNone then { app with Active := !app.Active } else a })

/-! ## service/oauth.go: access token validation -/

/-- The zero value of `database.User`. -/
def zeroUser : User := {}

/-- The association loaded by `Preload("User")`: the user with that primary
key, or the zero value when there is none. -/
def preloadUser (s : Store) (userID : Nat) : User :=
  (s.users.find? (fun u => u.DeletedAt.isNone && u.ID == userID)).getD zeroUser

/-- The method `ValidateAccessToken`; `now` is the reading of `time.Now()`. -/
def ValidateAccessToken (s : Store) (now : Nat) (token : String) :
    Except String (User × List String) × Store :=
  match s.accessTokens.find?
      (fun t => t.DeletedAt.isNone && t.Token == token && !t.Revoked) with
  | none => (.error "invalid access token", s)
  | some accessToken =>
    if After now accessToken.ExpiresAt then
      (.error "access token expired", s)
    else
      (.ok (preloadUser s accessToken.UserID, stringsSplit accessToken.Scopes), s)

/-! ## service/oauth.go: deleting and registering clients

`DeleteApplication` runs its four deletes inside `db.Transaction`, which
commits when the function returns `nil` and rolls back when it returns an
error. To say what a failing statement leaves behind, a call takes the storage
fault it meets, if any: the statement that fails and the message of its error.
Every model has a `DeletedAt` column, so a gorm `Delete` stamps the rows it
matches and leaves them in the table. -/

/-- The statements of the transaction of `DeleteApplication`, and its commit. -/
inductive DeleteStep where
  | codes
  | accessTokens
  | refreshTokens
  | application
  | commit
  deriving DecidableEq, Repr

/-- A storage failure: the statement it hits and the message of the error. -/
structure StorageFault where
  step : DeleteStep
  message : String
  deriving DecidableEq, Repr

/-- What one call of `DeleteApplication` reads from outside the store: the
clock at each of the four deletes and the storage fault it meets. -/
structure DeleteEnv where
  nowCodes : Nat
  nowAccess : Nat
  nowRefresh : Nat
  nowApp : Nat
  fault : Option StorageFault := none
  deriving DecidableEq, Repr

/-- The error of a statement, when the fault of the call hits it. -/
def DeleteEnv.failure (env : DeleteEnv) (step : DeleteStep) : Option String :=
  match env.fault with
  | some f => if f.step = step then some f.message else none
  | none => none

/-- The statement `tx.Where("client_id = ?", clientID).Delete(&OAuthAuthorizationCode{})`. -/
def deleteCodesOf (tx : Store) (clientID : String) (now : Nat) : Store :=
  { tx with codes := tx.codes.map fun c =>
      if c.ClientID = clientID ∧ c.DeletedAt.isNone then { c with DeletedAt := some now } else c }

/-- The statement `tx.Where("client_id = ?", clientID).Delete(&OAuthAccessToken{})`. -/
def deleteAccessTokensOf (tx : Store) (clientID : String) (now : Nat) : Store :=
  { tx with accessTokens := tx.accessTokens.map fun t =>
      if t.ClientID = clientID ∧ t.DeletedAt.isNone then { t with DeletedAt := some now } else t }

/-- The statement `tx.Where("client_id = ?", clientID).Delete(&OAuthRefreshToken{})`. -/
def deleteRefreshTokensOf (tx : Store) (clientID : String) (now : Nat) : Store :=
  { tx with refreshTokens := tx.refreshTokens.map fun t =>
      if t.ClientID = clientID ∧ t.DeletedAt.isNone then { t with DeletedAt := some now } else t }

/-- The statement `tx.Delete(&app)`. -/
def deleteApp (tx : Store) (app : OAuthApplication) (now : Nat) : Store :=
  { tx with apps := tx.apps.map fun a =>
      if a.ID = app.ID ∧ a.DeletedAt.isNone then { a with DeletedAt := some now } else a }

/-- The function `DeleteApplication` passes to `db.Transaction`, followed by
the commit: codes, access tokens, refresh tokens, the client, each delete
returning its error at once. -/
def deleteCascade (env : DeleteEnv) (app : OAuthApplication) (tx : Store) : Except String Store :=
  match env.failure .codes with
  | some e => .error e
  | none =>
    let tx1 := deleteCodesOf tx app.ClientID env.nowCodes
    match env.failure .accessTokens with
    | some e => .error e
    | none =>
      let tx2 := deleteAccessTokensOf tx1 app.ClientID env.nowAccess
      match env.failure .refreshTokens with
      | some e => .error e
      | none =>
        let tx3 := deleteRefreshTokensOf tx2 app.ClientID env.nowRefresh
        match env.failure .application with
        | some e => .error e
        | none =>
          let tx4 := deleteApp tx3 app env.nowApp
          match env.failure .commit with
          | some e => .error e
          | none => .ok tx4

/-- The method `DeleteApplication`: the client is looked up by primary key,
then the cascade runs in one transaction, whose failure leaves the store as it
was before the transaction. -/
def DeleteApplication (s : Store) (env : DeleteEnv) (appID : Nat) : Except String Unit × Store :=
  match s.apps.find? (fun a => a.DeletedAt.isNone && a.ID == appID) with
  | none => (.error errRecordNotFound, s)
  | some app =>
    match deleteCascade env app s with
    | .error e => (.error e, s)
    | .ok tx => (.ok (), tx)

structure InternalApplicationCreateRequest where
  Name : String := ""
  RedirectURIs : List String
  Scopes : List String := []
  Description : String := ""
  Website : String := ""
  Trusted : Bool := false
  ClientID : String
  ClientSecret : String
  deriving DecidableEq, Repr

/-- The response of the registry methods (`service.ApplicationResponse`).
`CreatedBy` is the user name of the creator as the record holds it: the name of
the user loaded by `Preload("CreatedBy")` in a query, and the empty name of the
zero value after `Create`, which loads no association. The field `CreatedAt`,
a formatted stamp of `gorm.Model`, is left out with the stamps. -/
structure ApplicationResponse where
  ID : Nat
  Name : String
  Description : String
  Website : String
  ClientID : String
  ClientSecret : String
  RedirectURIs : List String
  Scopes : List String
  Trusted : Bool
  Active : Bool
  CreatedBy : String := ""
  deriving DecidableEq, Repr

/-- The method `CreateApplicationWithCustomCredentials`. `jsonMarshal` is the
Go function `json.Marshal` on a `[]string`, with the message of its error. The
insert is refused when a row of the table, deleted or not, carries the
client id (the `uniqueIndex` on `client_id`). -/
def CreateApplicationWithCustomCredentials (jsonMarshal : List String → Except String String)
    (s : Store) (adminUserID : Nat) (req : InternalApplicationCreateRequest) :
    Except String ApplicationResponse × Store :=
  match s.apps.find? (fun a => a.DeletedAt.isNone && a.ClientID == req.ClientID) with
  | some _ => (.error "client_id already exists", s)
  | none =>
    match jsonMarshal req.RedirectURIs with
    | .error e => (.error ("failed to marshal redirect URIs: " ++ e), s)
    | .ok redirectURIsJSON =>
      let scopes := if req.Scopes.length = 0 then ["read"] else req.Scopes
      let app : OAuthApplication :=
        { ID := nextID (s.apps.map (·.ID))
          Name := req.Name
          Description := req.Description
          Website := req.Website
          ClientID := req.ClientID
          ClientSecret := req.ClientSecret
          RedirectURIs := redirectURIsJSON
          Scopes := stringsJoin scopes
          CreatedByID := adminUserID
          Trusted := req.Trusted
          Active := true }
      if s.apps.any (fun a => a.ClientID == req.ClientID) then
        (.error ("failed to create OAuth application: " ++ errUniqueViolation), s)
      else
        (.ok { ID := app.ID, Name := app.Name, Description := app.Description,
               Website := app.Website, ClientID := app.ClientID,
               ClientSecret := app.ClientSecret, RedirectURIs := req.RedirectURIs,
               Scopes := scopes, Trusted := app.Trusted, Active := app.Active },
          { s with apps := s.apps ++ [app] })

/-! ## Histories of the token tables in sequential runs

To speak of the access tokens minted for a refresh token, a run of operations
carries, next to the store, the list of the pairs (access token value, refresh
token value) its successful exchanges and refreshes returned. In these runs
every call ends before the next one starts; calls that overlap are the matter
of the sections on concurrent calls above. -/

/-- A store with the record of the token pairs returned so far. -/
structure Traced where
  store : Store
  minted : List (String × String) := []
  deriving DecidableEq, Repr

/-- A call of one of the operations that issue codes and tokens. -/
inductive TokenOp where
  | issue (code : String) (now userID : Nat) (app : OAuthApplication) (req : AuthorizeRequest)
  | exchange (env : ExchangeEnv) (req : TokenRequest)
  | refresh (env : RefreshEnv) (req : TokenRequest)
  deriving DecidableEq, Repr

/-- The token values the call generates are new to the store. -/
def TokenOp.fresh (s : Store) : TokenOp → Bool
  | .issue _ _ _ _ _ => true
  | .exchange env _ =>
    s.accessTokens.all (fun t => t.Token != env.accessToken)
      && s.refreshTokens.all (fun t => t.Token != env.refreshToken)
  | .refresh env _ => s.accessTokens.all (fun t => t.Token != env.accessToken)

/-- The call is run on the store from its first statement to its last, no other
call taking a step in between; a token response adds its pair to the record. -/
def Traced.step (t : Traced) : TokenOp → Traced
  | .issue code now userID app req =>
    { t with store := (CreateAuthorizationCode t.store code now userID app req).2 }
  | .exchange env req =>
    match ExchangeCodeForToken t.store env req with
    | (.ok resp, s1) =>
      { store := s1, minted := t.minted ++ [(resp.AccessToken, resp.RefreshToken)] }
    | (.error _, s1) => { t with store := s1 }
  | .refresh env req =>
    match RefreshAccessToken t.store env req with
    | (.ok resp, s1) =>
      { store := s1, minted := t.minted ++ [(resp.AccessToken, resp.RefreshToken)] }
    | (.error _, s1) => { t with store := s1 }

/-- A sequential run of calls, each generating token values new to the store it
meets. -/
def Traced.run (t : Traced) : List TokenOp → Option Traced
  | [] => some t
  | op :: ops => if op.fresh t.store then (t.step op).run ops else none

/-- The access token was minted for the refresh token. -/
def Traced.mintedFor (t : Traced) (a : OAuthAccessToken) (r : OAuthRefreshToken) : Prop :=
  (a.Token, r.Token) ∈ t.minted

/-! ## service/oauth.go: the rest of the client registry -/

structure ApplicationCreateRequest where
  Name : String := ""
  RedirectURIs : List String
  Scopes : List String := []
  Description : String := ""
  Website : String := ""
  Trusted : Bool := false
  deriving DecidableEq, Repr

/-- The method `CreateApplication`. `clientID` is the value of
`uuid.New().String()` and `clientSecret` the value `generateClientSecret`
returned; `jsonMarshal` is `json.Marshal` on a `[]string`. `Create` loads no
association, so the response is built from the zero value of the creator and
its `CreatedBy` is the empty name. -/
def CreateApplication (jsonMarshal : List String → Except String String)
    (s : Store) (adminUserID : Nat) (clientID clientSecret : String)
    (req : ApplicationCreateRequest) : Except String ApplicationResponse × Store :=
  match jsonMarshal req.RedirectURIs with
  | .error e => (.error ("failed to marshal redirect URIs: " ++ e), s)
  | .ok redirectURIsJSON =>
    let scopes := if req.Scopes.length = 0 then ["read"] else req.Scopes
    let app : OAuthApplication :=
      { ID := nextID (s.apps.map (·.ID))
        Name := req.Name
        Description := req.Description
        Website := req.Website
        ClientID := clientID
        ClientSecret := clientSecret
        RedirectURIs := redirectURIsJSON
        Scopes := stringsJoin scopes
        CreatedByID := adminUserID
        Trusted := req.Trusted
        Active := true }
    if s.apps.any (fun a => a.ClientID == clientID) then
      (.error ("failed to create OAuth application: " ++ errUniqueViolation), s)
    else
      (.ok { ID := app.ID, Name := app.Name, Description := app.Description,
             Website := app.Website, ClientID := app.ClientID,
             ClientSecret := app.ClientSecret, RedirectURIs := req.RedirectURIs,
             Scopes := scopes, Trusted := app.Trusted, Active := app.Active },
        { s with apps := s.apps ++ [app] })

/-- One row of the result of `GetAllApplications`: the stored redirect URI text
decoded (the empty list when it does not decode), the stored scopes split at
spaces (the empty list when the split is the single empty name), and the name
of the preloaded creator. -/
def applicationResponse (jsonUnmarshal : String → Except String (List String))
    (s : Store) (app : OAuthApplication) : ApplicationResponse :=
  let redirectURIs :=
    match jsonUnmarshal app.RedirectURIs with
    | .error _ => []
    | .ok uris => uris
  let split := stringsSplit app.Scopes
  let scopes := if split.length = 1 ∧ split.head? = some "" then [] else split
  { ID := app.ID, Name := app.Name, Description := app.Description, Website := app.Website,
    ClientID := app.ClientID, ClientSecret := app.ClientSecret, RedirectURIs := redirectURIs,
    Scopes := scopes, Trusted := app.Trusted, Active := app.Active,
    CreatedBy := (preloadUser s app.CreatedByID).Username }

/-- The method `GetAllApplications`: `Find` returns the rows that are not
deleted, in primary-key order, each with its creator preloaded. -/
def GetAllApplications (jsonUnmarshal : String → Except String (List String)) (s : Store) :
    Except String (List ApplicationResponse) × Store :=
  (.ok ((s.apps.filter (fun a => a.DeletedAt.isNone)).map
    (applicationResponse jsonUnmarshal s)), s)

/-- The method `UpdateApplication`: `First` on the primary key with the creator
preloaded, then `Save` of the record with the six fields of the request
written into it. -/
def UpdateApplication (jsonMarshal : List String → Except String String)
    (s : Store) (appID : Nat) (req : ApplicationCreateRequest) :
    Except String ApplicationResponse × Store :=
  match s.apps.find? (fun a => a.DeletedAt.isNone && a.ID == appID) with
  | none => (.error errRecordNotFound, s)
  | some found =>
    match jsonMarshal req.RedirectURIs with
    | .error e => (.error ("failed to marshal redirect URIs: " ++ e), s)
    | .ok redirectURIsJSON =>
      let scopes := if req.Scopes.length = 0 then ["read"] else req.Scopes
      let app : OAuthApplication :=
        { found with
          Name := req.Name
          Description := req.Description
          Website := req.Website
          RedirectURIs := redirectURIsJSON
          Scopes := stringsJoin scopes
          Trusted := req.Trusted }
      (.ok { ID := app.ID, Name := app.Name, Description := app.Description,
             Website := app.Website, ClientID := app.ClientID,
             ClientSecret := app.ClientSecret, RedirectURIs := req.RedirectURIs,
             Scopes := scopes, Trusted := app.Trusted, Active := app.Active,
             CreatedBy := (preloadUser s found.CreatedByID).Username },
        { s with apps := s.apps.map fun a =>
            if a.ID = app.ID ∧ a.DeletedAt.isNone then app else a })

/-- The method `ToggleApplicationTrustedStatus`: `First` on the primary key,
then `Save` of the record with `Trusted` negated. -/
def ToggleApplicationTrustedStatus (s : Store) (appID : Nat) : Except String Unit × Store :=
  match s.apps.find? (fun a => a.DeletedAt.isNone && a.ID == appID) with
  | none => (.error errRecordNotFound, s)
  | some app =>
    (.ok (), { s with apps := s.apps.map fun a =>
        if a.ID = app.ID ∧ a.DeletedAt.isNone then { app with Trusted := !app.Trusted } else a })

/-- A call of one of the operations of the client registry, with what the call
reads from outside the store. -/
inductive RegistryOp where
  | create (adminUserID : Nat) (clientID clientSecret : String) (req : ApplicationCreateRequest)
  | createWithCustomCredentials (adminUserID : Nat) (req : InternalApplicationCreateRequest)
  | update (appID : Nat) (req : ApplicationCreateRequest)
  | delete (env : DeleteEnv) (appID : Nat)
  | toggleStatus (appID : Nat)
  | toggleTrusted (appID : Nat)
  deriving DecidableEq, Repr

/-- The store the call leaves behind, whatever it returns. -/
def RegistryOp.step (jsonMarshal : List String → Except String String) (s : Store) :
    RegistryOp → Store
  | .create adminUserID clientID clientSecret req =>
    (CreateApplication jsonMarshal s adminUserID clientID clientSecret req).2
  | .createWithCustomCredentials adminUserID req =>
    (CreateApplicationWithCustomCredentials jsonMarshal s adminUserID req).2
  | .update appID req => (UpdateApplication jsonMarshal s appID req).2
  | .delete env appID => (DeleteApplication s env appID).2
  | .toggleStatus appID => (ToggleApplicationStatus s appID).2
  | .toggleTrusted appID => (ToggleApplicationTrustedStatus s appID).2

/-- A run of registry calls, one after the other. -/
def RegistryOp.run (jsonMarshal : List String → Except String String) (s : Store)
    (ops : List RegistryOp) : Store :=
  ops.foldl (RegistryOp.step jsonMarshal) s

/-! ## service/org.go -/

/-- The method `DeleteOrg`: inside one transaction the memberships of the
organization are deleted, then the organization, each `Delete` stamping the
rows it matches with the clock reading taken for it. -/
def DeleteOrg (s : Store) (nowMembers nowOrg : Nat) (id : Nat) : Except String Unit × Store :=
  let tx1 : Store := { s with orgMembers := s.orgMembers.map fun m =>
      if m.OrgID = id ∧ m.DeletedAt.isNone then { m with DeletedAt := some nowMembers } else m }
  let tx2 : Store := { tx1 with orgs := tx1.orgs.map fun o =>
      if o.ID = id ∧ o.DeletedAt.isNone then { o with DeletedAt := some nowOrg } else o }
  (.ok (), tx2)

/-- The method `GetOrgByID`, called without preloads. -/
def GetOrgByID (s : Store) (id : Nat) : Except String Org × Store :=
  match s.orgs.find? (fun o => o.DeletedAt.isNone && o.ID == id) with
  | none => (.error errRecordNotFound, s)
  | some org => (.ok org, s)

/-- The method `GetOrgMembers`. -/
def GetOrgMembers (s : Store) (orgID : Nat) : Except String (List OrgMember) × Store :=
  (.ok (s.orgMembers.filter fun m => m.DeletedAt.isNone && m.OrgID == orgID), s)

/-- The query `db.Model(&database.OrgMember{}).Where("org_id = ?", id).Count(&n)`
of `test/test_cascade.go`. -/
def countOrgMembers (s : Store) (orgID : Nat) : Nat :=
  (s.orgMembers.filter fun m => m.DeletedAt.isNone && m.OrgID == orgID).length

/-- The query `db.Model(&database.User{}).Where("id = ?", id).Count(&n)` of
`test/test_cascade.go`. -/
def countUsers (s : Store) (userID : Nat) : Nat :=
  (s.users.filter fun u => u.DeletedAt.isNone && u.ID == userID).length

/-- An organization with the role of the user in it (`service.OrgWithRole`). -/
structure OrgWithRole where
  org : Org
  Role : String
  deriving DecidableEq, Repr

/-- The method `GetUserOrgsWithRoles`: the join of `orgs` with `org_members`
on the organization id, for the memberships of the user that are not deleted.
The query names the table `orgs` itself, so it carries no condition on the
deletion stamp of the organization. -/
def GetUserOrgsWithRoles (s : Store) (userID : Nat) : Except String (List OrgWithRole) × Store :=
  (.ok (s.orgs.flatMap fun o =>
      (s.orgMembers.filter fun m =>
          m.OrgID == o.ID && m.UserID == userID && m.DeletedAt.isNone).map
        fun m => { org := o, Role := m.Role }), s)

/-! ## handlers/oauth.go

A handler returns the response it writes and the store it leaves. A Go map
literal is the list of its entries; an assignment `m[k] = v` replaces the entry
of `k` or adds one. The call `c.Validate(&req)` runs the validator registered
in `main.go` and is an argument of the handlers that call it. -/

/-- A JSON number or string. -/
inductive Scalar where
  | str (s : String)
  | num (n : Int)
  deriving DecidableEq, Repr

/-- A value of a `map[string]interface{}` written by a handler: a scalar, a
map of scalars, or a list of maps of scalars. -/
inductive JSONValue where
  | scalar (v : Scalar)
  | object (fields : List (String × Scalar))
  | array (items : List (List (String × Scalar)))
  deriving DecidableEq, Repr

/-- The body of a JSON response. -/
inductive Body where
  | fields (m : List (String × JSONValue))
  | token (r : TokenResponse)
  deriving DecidableEq, Repr

/-- The responses of the handlers: `c.JSON(status, body)` and
`c.Redirect(status, url)`. -/
inductive HTTPResponse where
  | json (status : Nat) (body : Body)
  | redirect (status : Nat) (url : String)
  deriving DecidableEq, Repr

def StatusOK : Nat := 200

def StatusFound : Nat := 302

def StatusBadRequest : Nat := 400

def StatusUnauthorized : Nat := 401

def StatusInternalServerError : Nat := 500

/-- The Go assignment `m[k] = v`. -/
def mapSet (m : List (String × JSONValue)) (k : String) (v : JSONValue) :
    List (String × JSONValue) :=
  if m.any (fun e => e.1 == k) then m.map (fun e => if e.1 = k then (k, v) else e)
  else m ++ [(k, v)]

/-- The Go map read `m[k]`, with whether the key is present. -/
def mapGet (m : List (String × JSONValue)) (k : String) : Option JSONValue :=
  (m.find? (fun e => e.1 == k)).map (·.2)

/-- An error body `map[string]string{"error": .., "error_description": ..}`. -/
def errorBody (error description : String) : Body :=
  .fields [("error", .scalar (.str error)), ("error_description", .scalar (.str description))]

/-- The handler `OAuthAuthorize`. `currentUser` is what
`sessionManager.GetCurrentUser(c)` returns (`none` for its error), `code` the
value `generateAuthorizationCode` returns and `now` the reading of the clock
when a code is stored. -/
def OAuthAuthorize (validate : AuthorizeRequest → Except String Unit)
    (jsonUnmarshal : String → Except String (List String))
    (s : Store) (currentUser : Option User) (code : String) (now : Nat)
    (req : AuthorizeRequest) : HTTPResponse × Store :=
  match validate req with
  | .error e => (.json StatusBadRequest (errorBody "invalid_request" e), s)
  | .ok () =>
    match ValidateAuthorizationRequest jsonUnmarshal s req with
    | (.error e, s1) => (.json StatusBadRequest (errorBody "invalid_request" e), s1)
    | (.ok app, s1) =>
      match currentUser with
      | none =>
        let loginURL := "/login?oauth_redirect=true&client_id=" ++ req.ClientID
          ++ "&redirect_uri=" ++ req.RedirectURI ++ "&scope=" ++ req.Scope
          ++ "&state=" ++ req.State ++ "&response_type=" ++ req.ResponseType
        let loginURL := if req.CodeChallenge ≠ "" then
            loginURL ++ "&code_challenge=" ++ req.CodeChallenge
              ++ "&code_challenge_method=" ++ req.CodeChallengeMethod
          else loginURL
        (.redirect StatusFound loginURL, s1)
      | some user =>
        if app.Trusted then
          match CreateAuthorizationCode s1 code now user.ID app req with
          | (.error e, s2) => (.json StatusInternalServerError (errorBody "server_error" e), s2)
          | (.ok code, s2) =>
            let redirectURL := req.RedirectURI ++ "?code=" ++ code
            let redirectURL := if req.State ≠ "" then redirectURL ++ "&state=" ++ req.State
              else redirectURL
            (.redirect StatusFound redirectURL, s2)
        else
          (.json StatusOK (.fields [
              ("client_name", .scalar (.str app.Name)),
              ("client_id", .scalar (.str app.ClientID)),
              ("redirect_uri", .scalar (.str req.RedirectURI)),
              ("scope", .scalar (.str req.Scope)),
              ("state", .scalar (.str req.State)),
              ("response_type", .scalar (.str req.ResponseType)),
              ("code_challenge", .scalar (.str req.CodeChallenge)),
              ("code_challenge_method", .scalar (.str req.CodeChallengeMethod)),
              ("user", .object [
                ("id", .num user.ID),
                ("username", .str user.Username),
                ("email", .str user.Email)])]), s1)

/-- What one call of the token endpoint reads from outside the store: the
inputs of the exchange and those of the refresh. -/
structure TokenEnv where
  exchange : ExchangeEnv
  refresh : RefreshEnv
  deriving DecidableEq, Repr

/-- The handler `OAuthToken`. -/
def OAuthToken (validate : TokenRequest → Except String Unit)
    (s : Store) (env : TokenEnv) (req : TokenRequest) : HTTPResponse × Store :=
  match validate req with
  | .error e => (.json StatusBadRequest (errorBody "invalid_request" e), s)
  | .ok () =>
    let dispatch : Option (Except String TokenResponse × Store) :=
      if req.GrantType = "authorization_code" then some (ExchangeCodeForToken s env.exchange req)
      else if req.GrantType = "refresh_token" then some (RefreshAccessToken s env.refresh req)
      else none
    match dispatch with
    | none =>
      (.json StatusBadRequest (.fields [("error", .scalar (.str "unsupported_grant_type"))]), s)
    | some (.error e, s1) => (.json StatusBadRequest (errorBody "invalid_request" e), s1)
    | some (.ok tokenResponse, s1) => (.json StatusOK (.token tokenResponse), s1)

/-- The body `map[string]string{"error": "invalid_token"}`. -/
def invalidToken : HTTPResponse :=
  .json StatusUnauthorized (.fields [("error", .scalar (.str "invalid_token"))])

/-- One entry of the list `orgInfo` of `OAuthUserInfo`. -/
def orgInfoEntry (org : OrgWithRole) : List (String × Scalar) :=
  [("id", .num org.org.ID), ("name", .str org.org.Name), ("slug", .str org.org.Slug),
   ("role", .str org.Role)]

/-- One turn of the loop of `OAuthUserInfo` over the granted scopes. -/
def userInfoStep (s : Store) (user : User) (userInfo : List (String × JSONValue))
    (scope : String) : List (String × JSONValue) :=
  if scope = "profile" then
    mapSet (mapSet userInfo "username" (.scalar (.str user.Username)))
      "email" (.scalar (.str user.Email))
  else if scope = "read" then
    let userInfo := mapSet (mapSet userInfo "id" (.scalar (.num user.ID)))
      "role" (.scalar (.str user.Role))
    match (GetUserOrgsWithRoles s user.ID).1 with
    | .ok orgs =>
      if orgs.length > 0 then mapSet userInfo "organizations" (.array (orgs.map orgInfoEntry))
      else userInfo
    | .error _ => userInfo
  else userInfo

/-- The handler `OAuthUserInfo`. `authHeader` is the `Authorization` header
of the request (empty when there is none) and `now` the reading of the clock
in `ValidateAccessToken`. The header is cut after its first seven characters;
the seven bytes Go compares are the characters of `Bearer ` exactly when the
first seven characters are. -/
def OAuthUserInfo (s : Store) (now : Nat) (authHeader : String) : HTTPResponse × Store :=
  if authHeader = "" then (invalidToken, s)
  else if authHeader.length < 7 ∨ String.mk (authHeader.toList.take 7) ≠ "Bearer " then
    (invalidToken, s)
  else
    let token := String.mk (authHeader.toList.drop 7)
    match ValidateAccessToken s now token with
    | (.error _, s1) => (invalidToken, s1)
    | (.ok (user, scopes), s1) =>
      let userInfo := scopes.foldl (userInfoStep s1 user) [("sub", .scalar (.num user.ID))]
      (.json StatusOK (.fields userInfo), s1)

/-! ## handlers/admin.go -/

/-- Reduction of an integer to the range of a 64-bit Go `int`, as the
overflowing arithmetic of Go does (two-complement wrap-around). -/
def wrapInt (x : Int) : Int := (x + 9223372036854775808) % 18446744073709551616 - 9223372036854775808

/-- The value of a string of decimal digits; `none` for the empty string and
for a string with another character. -/
def parseDigits (cs : List Char) : Option Nat :=
  if cs = [] then none
  else cs.foldl (fun acc c =>
      match acc with
      | none => none
      | some n => if c.isDigit then some (10 * n + (c.toNat - 48)) else none) (some 0)

/-- Go `strconv.Atoi`: an optional sign and decimal digits, within the range
of `int`; `none` stands for its error. -/
def strconvAtoi (s : String) : Option Int :=
  let value : Option Int :=
    match s.toList with
    | '-' :: cs => (parseDigits cs).map fun n => -(n : Int)
    | '+' :: cs => (parseDigits cs).map fun n => (n : Int)
    | cs => (parseDigits cs).map fun n => (n : Int)
  match value with
  | some n => if -9223372036854775808 ≤ n ∧ n ≤ 9223372036854775807 then some n else none
  | none => none

/-- The arguments of the call `ListUsers(offset, size)` in `AdminListUsers`,
and the `page` the handler reports. -/
structure Paging where
  page : Int
  size : Int
  offset : Int
  deriving DecidableEq, Repr

/-- The pagination block of the handler `AdminListUsers`, from the query
parameters `page` and `size` (empty when missing) to the call of `ListUsers`. -/
def AdminListUsers.paging (p sz : String) : Paging :=
  let page : Int :=
    if p ≠ "" then
      match strconvAtoi p with
      | some parsed => if parsed > 0 then parsed else 1
      | none => 1
    else 1
  let size : Int :=
    if sz ≠ "" then
      match strconvAtoi sz with
      | some parsed => if parsed > 0 ∧ parsed ≤ 100 then parsed else 10
      | none => 10
    else 10
  { page := page, size := size, offset := wrapInt (wrapInt (page - 1) * size) }

/-- The method `ListUsers` of `service/user.go`, without preloads: the users
that are not deleted, after `Offset(offset).Limit(limit)`. -/
def ListUsers (s : Store) (offset limit : Int) : Except String (List User) × Store :=
  let rows := s.users.filter fun u => u.DeletedAt.isNone
  let rows := if offset > 0 then rows.drop offset.toNat else rows
  let rows := if limit ≥ 0 then rows.take limit.toNat else rows
  (.ok rows, s)

/-! ## Runs of the authorization flow -/

/-- A call of the authorization flow: an authorization request that is
validated and, when accepted, given a code (as both authorize handlers do), a
code exchange, or a refresh. -/
inductive FlowOp where
  | authorize (req : AuthorizeRequest) (code : String) (now userID : Nat)
  | exchange (env : ExchangeEnv) (req : TokenRequest)
  | refresh (env : RefreshEnv) (req : TokenRequest)
  deriving DecidableEq, Repr

/-- The store the call leaves behind. -/
def FlowOp.step (jsonUnmarshal : String → Except String (List String)) (s : Store) :
    FlowOp → Store
  | .authorize req code now userID =>
    match ValidateAuthorizationRequest jsonUnmarshal s req with
    | (.ok app, s1) => (CreateAuthorizationCode s1 code now userID app req).2
    | (.error _, s1) => s1
  | .exchange env req => (ExchangeCodeForToken s env req).2
  | .refresh env req => (RefreshAccessToken s env req).2

/-- A run of calls of the authorization flow. -/
def FlowOp.run (jsonUnmarshal : String → Except String (List String)) (s : Store)
    (ops : List FlowOp) : Store :=
  ops.foldl (FlowOp.step jsonUnmarshal) s

/-! ## The keys of the client table -/

/-- The primary key, client id and client secret of every row of the client
table, deleted rows included. -/
def Store.credentials (s : Store) : List (Nat × String × String) :=
  s.apps.map fun a => (a.ID, a.ClientID, a.ClientSecret)

/-- The primary key of the client table. -/
def Store.appIDsUnique (s : Store) : Prop := (s.apps.map (·.ID)).Nodup

instance (s : Store) : Decidable s.appIDsUnique := by
  unfold Store.appIDsUnique; infer_instance

/-- The store with the active flag of every client set by `f`, all else kept. -/
def Store.withActive (f : OAuthApplication → Bool) (s : Store) : Store :=
  { s with apps := s.apps.map fun a => { a with Active := f a } }

/-! ## Sample data

One registered client `X` with the redirect URI `https://app/cb` and the
allowed scopes `read profile`, and authorization codes issued to user 7. -/

/-- The stored text of the redirect URI list of the sample client. -/
def sampleRedirectURIs : String := "[\"https://app/cb\"]"

/-- A JSON decoder for the one redirect URI text of the sample data. -/
def sampleUnmarshal (text : String) : Except String (List String) :=
  if text = sampleRedirectURIs then .ok ["https://app/cb"]
  else .error "unexpected end of JSON input"

def sampleApp : OAuthApplication :=
  { ID := 1, ClientID := "X", ClientSecret := "s3cr3t", RedirectURIs := sampleRedirectURIs,
    Scopes := "read profile" }

/-- An unused code without a PKCE challenge, expiring at time 1000. -/
def sampleCode : OAuthAuthorizationCode :=
  { ID := 1, Code := "c0", ClientID := "X", UserID := 7, RedirectURI := "https://app/cb",
    Scopes := "read", ExpiresAt := 1000 }

/-- An unused code bound to the S256 challenge of the verifier `verifier123`. -/
def samplePkceCode : OAuthAuthorizationCode :=
  { ID := 2, Code := "c1", ClientID := "X", UserID := 7, RedirectURI := "https://app/cb",
    Scopes := "read", ExpiresAt := 1000,
    CodeChallenge := "Z_P4EKbGwIkA01e3Y5fp4tMCvn_Ae5nUw7qY7XwkTrQ", CodeChallengeMethod := "S256" }

def sampleStore : Store := { apps := [sampleApp], codes := [sampleCode, samplePkceCode] }

def sampleAuthorize : AuthorizeRequest :=
  { ResponseType := "code", ClientID := "X", RedirectURI := "https://app/cb", Scope := "read" }

def sampleRequest : TokenRequest :=
  { GrantType := "authorization_code", Code := "c0", RedirectURI := "https://app/cb",
    ClientID := "X" }

def samplePkceRequest : TokenRequest :=
  { GrantType := "authorization_code", Code := "c1", RedirectURI := "https://app/cb",
    ClientID := "X", CodeVerifier := "verifier123" }

def sampleEnv : ExchangeEnv :=
  { now := 10, accessToken := "A1", refreshToken := "R1", nowAccess := 11, nowRefresh := 12 }

/-- The inputs of a second call, with token values of its own. -/
def sampleEnv2 : ExchangeEnv :=
  { now := 20, accessToken := "A2", refreshToken := "R2", nowAccess := 21, nowRefresh := 22 }

def sampleRefreshEnv : RefreshEnv := { now := 30, accessToken := "A3", nowAccess := 31 }

def sampleRefreshRequest : TokenRequest :=
  { GrantType := "refresh_token", ClientID := "X", RefreshToken := "R1" }

/-- The schedule in which the second call looks the code up after the first
call has looked it up and before the first call marks it used. -/
def raceSchedule : List Bool :=
  [false, true, false, false, false, false, true, true, true, true]

/-- The response of the first sample exchange. -/
def sampleResponse : TokenResponse :=
  { AccessToken := "A1", TokenType := "Bearer", ExpiresIn := 3600, RefreshToken := "R1",
    Scope := "read" }

/-- The store after a code was issued to the active sample client and the
client was then deactivated. -/
def deactivatedStore : Store :=
  (ToggleApplicationStatus
    (CreateAuthorizationCode { apps := [sampleApp] } "c9" 5 7 sampleApp sampleAuthorize).2 1).2

/-- The conditions of an acceptable authorization request, in the words of the
specification: the response type is `code`, the client named by the request
exists and is active, the redirect URI is one of its registered URIs, and a
PKCE challenge comes with no method, `plain` or `S256`. -/
def authorizationRequestValid (jsonUnmarshal : String → Except String (List String))
    (s : Store) (req : AuthorizeRequest) (app : OAuthApplication) : Prop :=
  req.ResponseType = "code"
    ∧ app ∈ s.apps ∧ app.DeletedAt = none ∧ app.ClientID = req.ClientID ∧ app.Active = true
    ∧ (∃ uris, jsonUnmarshal app.RedirectURIs = .ok uris ∧ req.RedirectURI ∈ uris)
    ∧ (req.CodeChallenge ≠ "" →
        req.CodeChallengeMethod = "" ∨ req.CodeChallengeMethod = "plain"
          ∨ req.CodeChallengeMethod = "S256")

/-! ## Sample data for the token tables and the registry -/

/-- The user the sample codes were issued to. -/
def sampleUser : User := { ID := 7, Username := "alice", Email := "alice@example.com", Role := "user" }

/-- A JSON encoder for the one redirect URI list of the sample data. -/
def sampleMarshal (uris : List String) : Except String String :=
  if uris = ["https://app/cb"] then .ok sampleRedirectURIs
  else .error "json: unsupported value"

/-- The sample store with its user, after the first sample exchange. -/
def exchangedStore : Store :=
  (ExchangeCodeForToken { sampleStore with users := [sampleUser] } sampleEnv sampleRequest).2

/-- The store after the first sample refresh. -/
def refreshedStore : Store :=
  (RefreshAccessToken exchangedStore sampleRefreshEnv sampleRefreshRequest).2

/-- The clock readings of a delete that meets no storage fault. -/
def sampleDeleteEnv : DeleteEnv := { nowCodes := 40, nowAccess := 41, nowRefresh := 42, nowApp := 43 }

/-- The store after the sample client was deleted. -/
def deletedStore : Store := (DeleteApplication exchangedStore sampleDeleteEnv 1).2

/-- A request to register a client under the id of the sample client. -/
def sampleInternalRequest : InternalApplicationCreateRequest :=
  { Name := "again", RedirectURIs := ["https://app/cb"], ClientID := "X", ClientSecret := "n3w" }

/-- A run on the sample store: a code is issued, the sample code is redeemed,
and the token is refreshed twice. -/
def sampleOps : List TokenOp :=
  [ .issue "c2" 5 7 sampleApp sampleAuthorize,
    .exchange sampleEnv sampleRequest,
    .refresh sampleRefreshEnv sampleRefreshRequest,
    .refresh { now := 40, accessToken := "A4", nowAccess := 41 } sampleRefreshRequest ]

/-- The invariant of the token tables under the recorded pairs: token values
and the primary keys of the refresh tokens are unique, every recorded pair
names stored tokens, and an unrevoked access token recorded for a refresh
token is the one that refresh token points to. -/
def TokenInv (acc : List OAuthAccessToken) (rts : List OAuthRefreshToken)
    (minted : List (String × String)) : Prop :=
  (acc.map (·.Token)).Nodup
    ∧ (rts.map (·.Token)).Nodup
    ∧ (rts.map (·.ID)).Nodup
    ∧ (∀ p ∈ minted, p.1 ∈ acc.map (·.Token) ∧ p.2 ∈ rts.map (·.Token))
    ∧ (∀ r ∈ rts, ∀ a ∈ acc, (a.Token, r.Token) ∈ minted → a.Revoked = false →
        a.Token = r.AccessToken)

/-- Every stored code that carries a PKCE challenge names no method, `plain`
or `S256`. -/
def Store.pkceMethodsKnown (s : Store) : Prop :=
  ∀ c ∈ s.codes, c.CodeChallenge ≠ "" →
    c.CodeChallengeMethod = "" ∨ c.CodeChallengeMethod = "plain" ∨ c.CodeChallengeMethod = "S256"

/-! ## Sample data for two concurrent refreshes -/

/-- The inputs of a second refresh, with a token value of its own. -/
def sampleRefreshEnv2 : RefreshEnv := { now := 40, accessToken := "A4", nowAccess := 41 }

/-- The schedule in which both refreshes run their two lookups before either
one writes: both read the refresh token `R1` pointing at `A1`. -/
def refreshRaceSchedule : List Bool :=
  [false, true, false, true, false, false, false, true, true, true]

/-! ## Sample data for the validation of an access token -/

/-- A second user, stored before the user of the sample tokens. -/
def sampleOtherUser : User := { ID := 3, Username := "bob", Email := "bob@example.com", Role := "admin" }

/-- The store after the first sample refresh, with the two users. -/
def validationStore : Store := { refreshedStore with users := [sampleOtherUser, sampleUser] }

/-- The same store after the row of the user of the sample tokens was removed. -/
def orphanTokenStore : Store := { refreshedStore with users := [sampleOtherUser] }

/-! ## The field set of the userinfo response, in the words of the specification -/

/-- The entry the userinfo response is to have under the key `k`: `sub` is
always the id of the user; `username` and `email` are present exactly when the
scopes include `profile`; `id` and `role` exactly when they include `read`;
`organizations` when they include `read` and the organization query returns
rows; there is no other key. -/
def userInfoSpec (s : Store) (user : User) (scopes : List String) (k : String) :
    Option JSONValue :=
  if k = "sub" then some (.scalar (.num user.ID))
  else if k = "username" then
    if "profile" ∈ scopes then some (.scalar (.str user.Username)) else none
  else if k = "email" then
    if "profile" ∈ scopes then some (.scalar (.str user.Email)) else none
  else if k = "id" then
    if "read" ∈ scopes then some (.scalar (.num user.ID)) else none
  else if k = "role" then
    if "read" ∈ scopes then some (.scalar (.str user.Role)) else none
  else if k = "organizations" then
    match (GetUserOrgsWithRoles s user.ID).1 with
    | .ok orgs =>
      if "read" ∈ scopes ∧ orgs.length > 0 then some (.array (orgs.map orgInfoEntry)) else none
    | .error _ => none
  else none

/-! ## Sample data for the registry, the handlers and the organizations -/

/-- A request to register a second client. -/
def sampleCreateRequest : ApplicationCreateRequest :=
  { Name := "second", RedirectURIs := ["https://app/cb"], Scopes := ["read", "profile"] }

/-- A registration request with two redirect URIs, one of which holds
characters the encoder escapes. -/
def sampleEscapedRequest : ApplicationCreateRequest :=
  { sampleCreateRequest with RedirectURIs := ["https://app/cb?a=1&b=<2>", "app://cb"] }

/-- The sample store with the administrator who registers clients. -/
def adminStore : Store := { sampleStore with users := [{ sampleUser with ID := 1, Username := "root" }] }

/-- A run of registry calls on the sample store: a client `Y` is registered,
the id `X` is asked for again, the sample client is deactivated, updated and
deleted, and the id `X` is asked for once more. -/
def sampleRegistryOps : List RegistryOp :=
  [ .create 1 "Y" "s2" sampleCreateRequest,
    .createWithCustomCredentials 1 sampleInternalRequest,
    .toggleStatus 1,
    .update 1 { sampleCreateRequest with Name := "renamed" },
    .toggleTrusted 2,
    .delete sampleDeleteEnv 1,
    .createWithCustomCredentials 1 sampleInternalRequest ]

/-- A validator for the sample authorization requests: the three fields
tagged `required` are not empty. -/
def sampleValidateAuthorize (req : AuthorizeRequest) : Except String Unit :=
  if req.ResponseType = "" ∨ req.ClientID = "" ∨ req.RedirectURI = "" then
    .error "a required field is empty"
  else .ok ()

/-- A validator for the sample token requests: the two fields tagged
`required` are not empty. -/
def sampleValidateToken (req : TokenRequest) : Except String Unit :=
  if req.GrantType = "" ∨ req.ClientID = "" then .error "a required field is empty"
  else .ok ()

/-- The sample client marked trusted, with no code issued yet. -/
def trustedStore : Store := { apps := [{ sampleApp with Trusted := true }] }

/-- The sample authorization request with a state parameter. -/
def sampleAuthorizeState : AuthorizeRequest := { sampleAuthorize with State := "xyz" }

def sampleTokenEnv : TokenEnv := { exchange := sampleEnv, refresh := sampleRefreshEnv }

/-- An organization of which user 7 is the owner, and two access tokens of
user 7, one granted `profile` and one granted `read`. -/
def userinfoStore : Store :=
  { users := [sampleUser]
    orgs := [{ ID := 1, Name := "Acme", Slug := "acme" }]
    orgMembers := [{ OrgID := 1, UserID := 7, Role := "owner" }]
    accessTokens :=
      [ { ID := 1, Token := "P1", ClientID := "X", UserID := 7, Scopes := "profile",
          ExpiresAt := 1000 },
        { ID := 2, Token := "Q1", ClientID := "X", UserID := 7, Scopes := "read",
          ExpiresAt := 1000 } ] }

/-- An authorization request with the S256 challenge of `verifier123`. -/
def samplePkceAuthorize : AuthorizeRequest :=
  { sampleAuthorize with
    CodeChallenge := "Z_P4EKbGwIkA01e3Y5fp4tMCvn_Ae5nUw7qY7XwkTrQ", CodeChallengeMethod := "S256" }

/-- A run of the authorization flow on a store without codes: a request with
an S256 challenge is given the code `c1`, a request that names the method
`md5` is turned down, and `c1` is redeemed. -/
def sampleFlowOps : List FlowOp :=
  [ .authorize samplePkceAuthorize "c1" 5 7,
    .authorize { samplePkceAuthorize with CodeChallengeMethod := "md5" } "c2" 6 7,
    .exchange sampleEnv samplePkceRequest ]

/-! # Theorems -/

/-! ## Lookups -/

theorem findAuthorizationCode_some {s : Store} {code : String} {c : OAuthAuthorizationCode}
    (h : findAuthorizationCode s code = some c) :
    c ∈ s.codes ∧ c.DeletedAt = none ∧ c.Code = code ∧ c.Used = false := by
  unfold findAuthorizationCode at h
  have hp := List.find?_some h
  have hm := List.mem_of_find?_eq_some h
  simp only [Bool.and_eq_true, Option.isNone_iff_eq_none, beq_iff_eq, Bool.not_eq_true',
    ] at hp
  exact ⟨hm, hp.1.1, hp.1.2, hp.2⟩

theorem codes_eq_of_code_eq {s : Store} (hu : s.codesUnique) {c d : OAuthAuthorizationCode}
    (hc : c ∈ s.codes) (hd : d ∈ s.codes) (h : c.Code = d.Code) : c = d :=
  List.inj_on_of_nodup_map hu hc hd h

/-- With unique code values the lookup by value finds the stored row or nothing. -/
theorem findAuthorizationCode_of_mem {s : Store} (hu : s.codesUnique)
    {c : OAuthAuthorizationCode} (hc : c ∈ s.codes) :
    findAuthorizationCode s c.Code = some c ∨ findAuthorizationCode s c.Code = none := by
  cases h : findAuthorizationCode s c.Code with
  | none => exact Or.inr rfl
  | some d =>
    have hd := findAuthorizationCode_some h
    exact Or.inl (congrArg some (codes_eq_of_code_eq hu hd.1 hc hd.2.2.1))

theorem findAuthorizationCode_used {s : Store} (hu : s.codesUnique)
    {c : OAuthAuthorizationCode} (hc : c ∈ s.codes) (hused : c.Used = true) :
    findAuthorizationCode s c.Code = none := by
  rcases findAuthorizationCode_of_mem hu hc with h | h
  · have := (findAuthorizationCode_some h).2.2.2
    rw [hused] at this
    exact absurd this (by decide)
  · exact h

/-! ## `ExchangeCodeForToken`: shape of the result -/

theorem createAccessToken_some {s s2 : Store} {token clientID scopes : String}
    {userID expiresAt : Nat}
    (h : createAccessToken s token clientID userID scopes expiresAt = some s2) :
    s2.apps = s.apps ∧ s2.codes = s.codes ∧ s2.refreshTokens = s.refreshTokens
      ∧ s2.accessTokens = s.accessTokens ++
          [{ ID := nextID (s.accessTokens.map (·.ID)), Token := token, ClientID := clientID,
             UserID := userID, Scopes := scopes, ExpiresAt := expiresAt }]
      ∧ ∀ t ∈ s.accessTokens, t.Token ≠ token := by
  unfold createAccessToken at h
  split_ifs at h with hany
  cases h
  refine ⟨rfl, rfl, rfl, rfl, ?_⟩
  intro t ht heq
  apply hany
  rw [List.any_eq_true]
  exact ⟨t, ht, by simp [heq]⟩

theorem createRefreshToken_some {s s2 : Store} {token clientID accessToken : String}
    {userID expiresAt : Nat}
    (h : createRefreshToken s token clientID userID accessToken expiresAt = some s2) :
    s2.apps = s.apps ∧ s2.codes = s.codes ∧ s2.accessTokens = s.accessTokens
      ∧ s2.refreshTokens = s.refreshTokens ++
          [{ ID := nextID (s.refreshTokens.map (·.ID)), Token := token, ClientID := clientID,
             UserID := userID, AccessToken := accessToken, ExpiresAt := expiresAt }]
      ∧ ∀ t ∈ s.refreshTokens, t.Token ≠ token := by
  unfold createRefreshToken at h
  split_ifs at h with hany
  cases h
  refine ⟨rfl, rfl, rfl, rfl, ?_⟩
  intro t ht heq
  apply hany
  rw [List.any_eq_true]
  exact ⟨t, ht, by simp [heq]⟩

theorem issueTokens_codes (s : Store) (env : ExchangeEnv) (req : TokenRequest)
    (a : OAuthAuthorizationCode) :
    (issueTokens s env req a).2.codes = (markCodeUsed s a).codes
      ∧ (issueTokens s env req a).2.apps = s.apps := by
  unfold issueTokens
  simp only
  split
  · exact ⟨rfl, rfl⟩
  · next s2 h1 =>
    obtain ⟨ha2, hc2, -, -, -⟩ := createAccessToken_some h1
    split
    · exact ⟨hc2, ha2⟩
    · next s3 h2 =>
      obtain ⟨ha3, hc3, -, -, -⟩ := createRefreshToken_some h2
      exact ⟨hc3.trans hc2, ha3.trans ha2⟩

theorem exchange_ok_inv {pkce : String → String → String → Bool} {s : Store} {env : ExchangeEnv}
    {req : TokenRequest} {resp : TokenResponse}
    (h : (ExchangeCodeForTokenWith pkce s env req).1 = .ok resp) :
    req.GrantType = "authorization_code" ∧
    ∃ a, findAuthorizationCode s req.Code = some a
      ∧ checkAuthorizationCode pkce env.now req a = .ok ()
      ∧ checkClientSecret s req = .ok ()
      ∧ ExchangeCodeForTokenWith pkce s env req = issueTokens s env req a := by
  unfold ExchangeCodeForTokenWith at h ⊢
  by_cases hg : req.GrantType = "authorization_code"
  · refine ⟨hg, ?_⟩
    simp only [hg, ne_eq, not_true_eq_false, if_false] at h ⊢
    cases hf : findAuthorizationCode s req.Code with
    | none => simp [hf] at h
    | some a =>
      simp only [hf] at h ⊢
      cases hc : checkAuthorizationCode pkce env.now req a with
      | error e => simp [hc] at h
      | ok u =>
        simp only [hc] at h ⊢
        cases hs : checkClientSecret s req with
        | error e => simp [hs] at h
        | ok u2 => exact ⟨a, rfl, hc, rfl, rfl⟩
  · simp [hg] at h

/-- A failed lookup or check leaves the store as it was. -/
theorem exchange_error_of_find_none {pkce : String → String → String → Bool} {s : Store}
    {env : ExchangeEnv} {req : TokenRequest} (hf : findAuthorizationCode s req.Code = none) :
    (∃ e, (ExchangeCodeForTokenWith pkce s env req).1 = .error e
        ∧ (req.GrantType = "authorization_code" → e = "invalid or expired authorization code"))
      ∧ (ExchangeCodeForTokenWith pkce s env req).2 = s := by
  unfold ExchangeCodeForTokenWith
  by_cases hg : req.GrantType = "authorization_code"
  · simp [hg, hf]
  · simp [hg]

theorem find_none_after_mark {s s1 : Store} {code : String} {a : OAuthAuthorizationCode}
    (hu : s.codesUnique) (ha : findAuthorizationCode s code = some a)
    (hc : s1.codes = (markCodeUsed s a).codes) :
    findAuthorizationCode s1 code = none := by
  obtain ⟨ham, hlive, hcode, _⟩ := findAuthorizationCode_some ha
  unfold findAuthorizationCode
  rw [hc, List.find?_eq_none]
  intro x hx hp
  simp only [markCodeUsed, List.mem_map] at hx
  obtain ⟨c, hcm, rfl⟩ := hx
  simp only [Bool.and_eq_true, Option.isNone_iff_eq_none, beq_iff_eq, Bool.not_eq_true'] at hp
  by_cases hcond : c.ID = a.ID ∧ c.DeletedAt = none
  · rw [if_pos hcond] at hp
    exact absurd hp.2 (by simp)
  · rw [if_neg hcond] at hp
    have hca : c = a := codes_eq_of_code_eq hu hcm ham (hp.1.2.trans hcode.symm)
    apply hcond
    rw [hca]
    exact ⟨rfl, hlive⟩

theorem exchange_of_find_none {pkce : String → String → String → Bool} {s : Store}
    {env : ExchangeEnv} {req : TokenRequest} (hg : req.GrantType = "authorization_code")
    (hf : findAuthorizationCode s req.Code = none) :
    ExchangeCodeForTokenWith pkce s env req
      = (.error "invalid or expired authorization code", s) := by
  unfold ExchangeCodeForTokenWith
  simp [hg, hf]

theorem exchange_of_grant_ne {pkce : String → String → String → Bool} {s : Store}
    {env : ExchangeEnv} {req : TokenRequest} (hg : req.GrantType ≠ "authorization_code") :
    ExchangeCodeForTokenWith pkce s env req
      = (.error ("unsupported grant_type: " ++ req.GrantType), s) := by
  unfold ExchangeCodeForTokenWith
  simp [hg]

theorem exchange_of_check_error {pkce : String → String → String → Bool} {s : Store}
    {env : ExchangeEnv} {req : TokenRequest} {a : OAuthAuthorizationCode} {e : String}
    (hg : req.GrantType = "authorization_code")
    (hf : findAuthorizationCode s req.Code = some a)
    (hc : checkAuthorizationCode pkce env.now req a = .error e) :
    ExchangeCodeForTokenWith pkce s env req = (.error e, s) := by
  unfold ExchangeCodeForTokenWith
  simp [hg, hf, hc]

theorem exchange_of_secret_error {pkce : String → String → String → Bool} {s : Store}
    {env : ExchangeEnv} {req : TokenRequest} {a : OAuthAuthorizationCode} {e : String}
    (hg : req.GrantType = "authorization_code")
    (hf : findAuthorizationCode s req.Code = some a)
    (hc : checkAuthorizationCode pkce env.now req a = .ok ())
    (hs : checkClientSecret s req = .error e) :
    ExchangeCodeForTokenWith pkce s env req = (.error e, s) := by
  unfold ExchangeCodeForTokenWith
  simp [hg, hf, hc, hs]

theorem exchange_of_checks_ok {pkce : String → String → String → Bool} {s : Store}
    {env : ExchangeEnv} {req : TokenRequest} {a : OAuthAuthorizationCode}
    (hg : req.GrantType = "authorization_code")
    (hf : findAuthorizationCode s req.Code = some a)
    (hc : checkAuthorizationCode pkce env.now req a = .ok ())
    (hs : checkClientSecret s req = .ok ()) :
    ExchangeCodeForTokenWith pkce s env req = issueTokens s env req a := by
  unfold ExchangeCodeForTokenWith
  simp [hg, hf, hc, hs]

/-- The messages of the expiry, client and redirect checks. -/
theorem check_error_of_bad (pkce : String → String → String → Bool) {now : Nat}
    {req : TokenRequest} {c : OAuthAuthorizationCode}
    (hbad : c.ExpiresAt < now ∨ c.ClientID ≠ req.ClientID ∨ c.RedirectURI ≠ req.RedirectURI) :
    ∃ e, checkAuthorizationCode pkce now req c = .error e
      ∧ e ∈ ["authorization code expired", "client_id mismatch", "redirect_uri mismatch"] := by
  unfold checkAuthorizationCode After
  by_cases h1 : c.ExpiresAt < now
  · exact ⟨"authorization code expired", by simp [h1], by simp⟩
  · by_cases h2 : c.ClientID = req.ClientID
    · have h3 : c.RedirectURI ≠ req.RedirectURI := by
        rcases hbad with h | h | h
        · exact absurd h h1
        · exact absurd h2 h
        · exact h
      exact ⟨"redirect_uri mismatch", by simp [h1, h2, h3], by simp⟩
    · exact ⟨"client_id mismatch", by simp [h1, h2], by simp⟩

/-- C1. A code is redeemed at most once in sequence: on a store whose code values
are unique (the `uniqueIndex` on `code`), if `ExchangeCodeForToken` succeeds on
a request, then on the store it leaves every request carrying the same code
value fails, whatever its other fields, token values and clock readings; with
the grant type `authorization_code` the error is the one of the failed lookup,
"invalid or expired authorization code". The store is left as it was, so no
access or refresh token is created. -/
theorem exchange_second_redemption_fails (s : Store) (env1 env2 : ExchangeEnv)
    (req1 req2 : TokenRequest) (resp : TokenResponse)
    (hu : s.codesUnique) (hsame : req2.Code = req1.Code)
    (hok : (ExchangeCodeForToken s env1 req1).1 = .ok resp) :
    (∃ e, (ExchangeCodeForToken (ExchangeCodeForToken s env1 req1).2 env2 req2).1 = .error e
        ∧ (req2.GrantType = "authorization_code"
            → e = "invalid or expired authorization code"))
      ∧ (ExchangeCodeForToken (ExchangeCodeForToken s env1 req1).2 env2 req2).2
          = (ExchangeCodeForToken s env1 req1).2 := by
  unfold ExchangeCodeForToken at hok ⊢
  obtain ⟨-, a, hf, -, -, heq⟩ := exchange_ok_inv hok
  have hcodes : (ExchangeCodeForTokenWith validatePKCE s env1 req1).2.codes
      = (markCodeUsed s a).codes := by
    rw [heq]
    exact (issueTokens_codes s env1 req1 a).1
  have hnone : findAuthorizationCode (ExchangeCodeForTokenWith validatePKCE s env1 req1).2
      req2.Code = none := by
    rw [hsame]
    exact find_none_after_mark hu hf hcodes
  exact exchange_error_of_find_none hnone

/-- C1, witness: the sample code `c0` is redeemed, and the same request sent again
with a client secret at a later time is refused and changes nothing. -/
theorem exchange_second_redemption_fails_witness :
    sampleStore.codesUnique
      ∧ (ExchangeCodeForToken sampleStore sampleEnv sampleRequest).1 = .ok sampleResponse
      ∧ (∃ e, (ExchangeCodeForToken (ExchangeCodeForToken sampleStore sampleEnv sampleRequest).2
            sampleEnv2 { sampleRequest with ClientSecret := "s3cr3t" }).1 = .error e
          ∧ e = "invalid or expired authorization code")
      ∧ (ExchangeCodeForToken (ExchangeCodeForToken sampleStore sampleEnv sampleRequest).2
            sampleEnv2 { sampleRequest with ClientSecret := "s3cr3t" }).2
          = (ExchangeCodeForToken sampleStore sampleEnv sampleRequest).2 := by
  have hu : sampleStore.codesUnique := by decide
  have hok : (ExchangeCodeForToken sampleStore sampleEnv sampleRequest).1
      = .ok sampleResponse := by decide
  have h := exchange_second_redemption_fails sampleStore sampleEnv sampleEnv2 sampleRequest
    { sampleRequest with ClientSecret := "s3cr3t" } sampleResponse hu rfl hok
  obtain ⟨⟨e, he, hmsg⟩, hstore⟩ := h
  exact ⟨hu, hok, ⟨e, he, hmsg rfl⟩, hstore⟩

/-- C3. On a store with unique code values, when the stored code with the
request's code value has `expires_at` strictly before the clock reading, or a
`client_id` other than the request's, or a `redirect_uri` other than the
request's, `ExchangeCodeForToken` fails and leaves the store as it was (no
token is minted), whatever the code's used flag; with the grant type
`authorization_code` the error is that of the lookup, the expiry, the client
or the redirect URI check. -/
theorem exchange_rejects_expired_or_mismatched (s : Store) (env : ExchangeEnv)
    (req : TokenRequest) (c : OAuthAuthorizationCode)
    (hu : s.codesUnique) (hc : c ∈ s.codes) (hcode : c.Code = req.Code)
    (hbad : c.ExpiresAt < env.now ∨ c.ClientID ≠ req.ClientID
      ∨ c.RedirectURI ≠ req.RedirectURI) :
    (∃ e, (ExchangeCodeForToken s env req).1 = .error e
        ∧ (req.GrantType = "authorization_code"
            → e ∈ ["invalid or expired authorization code", "authorization code expired",
                   "client_id mismatch", "redirect_uri mismatch"]))
      ∧ (ExchangeCodeForToken s env req).2 = s := by
  unfold ExchangeCodeForToken
  by_cases hg : req.GrantType = "authorization_code"
  · rcases findAuthorizationCode_of_mem hu hc with hf | hf
    · rw [hcode] at hf
      obtain ⟨e, he, hmem⟩ := check_error_of_bad validatePKCE hbad
      rw [exchange_of_check_error hg hf he]
      refine ⟨⟨e, rfl, fun _ => ?_⟩, rfl⟩
      exact List.mem_cons_of_mem _ hmem
    · rw [hcode] at hf
      rw [exchange_of_find_none hg hf]
      exact ⟨⟨_, rfl, fun _ => by simp⟩, rfl⟩
  · rw [exchange_of_grant_ne hg]
    exact ⟨⟨_, rfl, fun h => absurd h hg⟩, rfl⟩

/-- C3, witness: the sample code expires at 1000 and is refused at 1001. -/
theorem exchange_rejects_expired_or_mismatched_witness :
    sampleStore.codesUnique ∧ sampleCode ∈ sampleStore.codes
      ∧ sampleCode.ExpiresAt < 1001
      ∧ ExchangeCodeForToken sampleStore { sampleEnv with now := 1001 } sampleRequest
          = (.error "authorization code expired", sampleStore) := by
  have hu : sampleStore.codesUnique := by decide
  have hc : sampleCode ∈ sampleStore.codes := by decide
  have hexp : sampleCode.ExpiresAt < 1001 := by decide
  have h := exchange_rejects_expired_or_mismatched sampleStore { sampleEnv with now := 1001 }
    sampleRequest sampleCode hu hc rfl (Or.inl hexp)
  refine ⟨hu, hc, hexp, ?_⟩
  obtain ⟨⟨e, he, -⟩, hstore⟩ := h
  have he2 : (ExchangeCodeForToken sampleStore { sampleEnv with now := 1001 } sampleRequest).1
      = .error "authorization code expired" := by decide
  exact Prod.ext he2 hstore

/-! ## Scope negotiation -/

theorem allowedMap_foldl (allowed : List String) (m : String → Bool) (k : String) :
    allowed.foldl (fun m scope => fun k => if k = scope then true else m k) m k
      = (decide (k ∈ allowed) || m k) := by
  induction allowed generalizing m with
  | nil => simp
  | cons a rest ih =>
    rw [List.foldl_cons, ih]
    by_cases h : k = a <;> simp [h]

theorem allowedMap_eq (allowed : List String) (k : String) :
    allowedMap allowed k = decide (k ∈ allowed) := by
  unfold allowedMap
  rw [allowedMap_foldl]
  simp

theorem foldl_append_filter (p : String → Bool) (requested acc : List String) :
    requested.foldl (fun result scope => if p scope then result ++ [scope] else result) acc
      = acc ++ requested.filter p := by
  induction requested generalizing acc with
  | nil => simp
  | cons a rest ih =>
    rw [List.foldl_cons, ih]
    by_cases h : p a <;> simp [h]

theorem intersectScopes_eq_filter (requested allowed : List String) :
    intersectScopes requested allowed = requested.filter (fun scope => decide (scope ∈ allowed)) := by
  unfold intersectScopes
  rw [foldl_append_filter, List.nil_append]
  congr 1
  funext k
  exact allowedMap_eq allowed k


/-! ## The PKCE verifier -/

/-- Known answers: the digest of `abc` (FIPS 180-4, appendix B.1), of the empty
message, and the S256 challenge of the verifier of RFC 7636, appendix B. -/
theorem sha256_known_answers :
    sha256Sum256 (stringBytes "abc")
        = [0xba, 0x78, 0x16, 0xbf, 0x8f, 0x01, 0xcf, 0xea, 0x41, 0x41, 0x40, 0xde, 0x5d, 0xae,
           0x22, 0x23, 0xb0, 0x03, 0x61, 0xa3, 0x96, 0x17, 0x7a, 0x9c, 0xb4, 0x10, 0xff, 0x61,
           0xf2, 0x00, 0x15, 0xad]
      ∧ sha256Sum256 []
        = [0xe3, 0xb0, 0xc4, 0x42, 0x98, 0xfc, 0x1c, 0x14, 0x9a, 0xfb, 0xf4, 0xc8, 0x99, 0x6f,
           0xb9, 0x24, 0x27, 0xae, 0x41, 0xe4, 0x64, 0x9b, 0x93, 0x4c, 0xa4, 0x95, 0x99, 0x1b,
           0x78, 0x52, 0xb8, 0x55]
      ∧ s256 "dBjftJeZ4CVP-mB92K27uhbUJU1p1r_wW1gFWFOEjXk"
        = "E9Melhoa2OwvFrEMTJguCHaoeK1t8URWbuGJSstw-cM" := by
  decide

theorem validatePKCE_iff (codeChallenge codeChallengeMethod codeVerifier : String) :
    validatePKCE codeChallenge codeChallengeMethod codeVerifier = true
      ↔ ((codeChallengeMethod = "" ∨ codeChallengeMethod = "plain") ∧ codeVerifier = codeChallenge)
        ∨ (codeChallengeMethod = "S256" ∧ codeChallenge = s256 codeVerifier) := by
  unfold validatePKCE
  by_cases h1 : codeChallengeMethod = "" ∨ codeChallengeMethod = "plain"
  · have h2 : codeChallengeMethod ≠ "S256" := by
      rcases h1 with h | h <;> rw [h] <;> decide
    rw [if_pos h1]
    constructor
    · intro h
      exact Or.inl ⟨h1, (beq_iff_eq.mp h).symm⟩
    · rintro (⟨_, h⟩ | ⟨h, _⟩)
      · exact beq_iff_eq.mpr h.symm
      · exact absurd h h2
  · rw [if_neg h1]
    by_cases h2 : codeChallengeMethod = "S256"
    · rw [if_pos h2]
      constructor
      · intro h
        exact Or.inr ⟨h2, by simpa using h⟩
      · rintro (⟨h, _⟩ | ⟨_, h⟩)
        · exact absurd h h1
        · simpa using h
    · rw [if_neg h2]
      constructor
      · intro h
        exact absurd h (by decide)
      · rintro (⟨h, _⟩ | ⟨h, _⟩)
        · exact absurd h h1
        · exact absurd h h2

/-- C6. `intersectScopes requested allowed` is the list `requested` filtered to
the names that occur in `allowed`, in the order of `requested`; every granted
name is in `allowed` and the grant is a sublist of the request. Requested
`read write admin` against allowed `read profile` grants exactly `read`,
through `intersectScopes` and through the scope block of
`CreateAuthorizationCode`. -/
theorem intersectScopes_spec :
    (∀ requested allowed : List String,
        intersectScopes requested allowed
          = requested.filter (fun scope => decide (scope ∈ allowed))
        ∧ (∀ scope ∈ intersectScopes requested allowed, scope ∈ allowed)
        ∧ (intersectScopes requested allowed).Sublist requested)
    ∧ intersectScopes ["read", "write", "admin"] ["read", "profile"] = ["read"]
    ∧ grantedScopes "read write admin" "read profile" = ["read"] := by
  refine ⟨fun requested allowed => ⟨intersectScopes_eq_filter _ _, ?_, ?_⟩, by decide, by decide⟩
  · intro scope h
    rw [intersectScopes_eq_filter] at h
    simpa using (List.mem_filter.mp h).2
  · rw [intersectScopes_eq_filter]
    exact List.filter_sublist _

/-- C4. `validatePKCE` returns true exactly when the method is empty or `plain`
and the verifier equals the challenge, or the method is `S256` and the
challenge is the unpadded base64url text of the SHA-256 digest of the
verifier; with any other method it returns false. With the challenge of
`verifier123` (the text `Z_P4EK...TrQ`) and method `S256`, the verifier
`verifier123` is accepted, and a verifier is accepted exactly when its
transform equals that challenge, so every verifier with another transform is
rejected. -/
theorem validatePKCE_spec :
    (∀ codeChallenge codeChallengeMethod codeVerifier : String,
        validatePKCE codeChallenge codeChallengeMethod codeVerifier = true
          ↔ ((codeChallengeMethod = "" ∨ codeChallengeMethod = "plain")
                ∧ codeVerifier = codeChallenge)
            ∨ (codeChallengeMethod = "S256" ∧ codeChallenge = s256 codeVerifier))
      ∧ (∀ codeChallenge codeChallengeMethod codeVerifier : String,
          codeChallengeMethod ≠ "" → codeChallengeMethod ≠ "plain" →
          codeChallengeMethod ≠ "S256" →
          validatePKCE codeChallenge codeChallengeMethod codeVerifier = false)
      ∧ s256 "verifier123" = "Z_P4EKbGwIkA01e3Y5fp4tMCvn_Ae5nUw7qY7XwkTrQ"
      ∧ validatePKCE (s256 "verifier123") "S256" "verifier123" = true
      ∧ (∀ codeVerifier : String,
          validatePKCE (s256 "verifier123") "S256" codeVerifier = true
            ↔ s256 codeVerifier = s256 "verifier123")
      ∧ (∀ codeVerifier : String, s256 codeVerifier ≠ s256 "verifier123" →
          validatePKCE (s256 "verifier123") "S256" codeVerifier = false) := by
  have hiff : ∀ codeVerifier : String,
      validatePKCE (s256 "verifier123") "S256" codeVerifier = true
        ↔ s256 codeVerifier = s256 "verifier123" := by
    intro v
    rw [validatePKCE_iff]
    constructor
    · rintro (⟨h, _⟩ | ⟨_, h⟩)
      · exact absurd h (by decide)
      · exact h.symm
    · intro h
      exact Or.inr ⟨rfl, h.symm⟩
  refine ⟨validatePKCE_iff, ?_, by decide, (hiff _).mpr rfl, hiff, ?_⟩
  · intro ch m v h1 h2 h3
    cases hv : validatePKCE ch m v with
    | false => rfl
    | true =>
      rcases (validatePKCE_iff ch m v).mp hv with ⟨h | h, _⟩ | ⟨h, _⟩
      · exact absurd h h1
      · exact absurd h h2
      · exact absurd h h3
  · intro v hne
    cases hv : validatePKCE (s256 "verifier123") "S256" v with
    | false => rfl
    | true => exact absurd ((hiff v).mp hv) hne

/-- C4, witness: `verifier124` has another transform than `verifier123` and is
rejected; a `plain` challenge accepts itself; the method `S512` accepts
nothing. -/
theorem validatePKCE_spec_witness :
    s256 "verifier124" ≠ s256 "verifier123"
      ∧ validatePKCE (s256 "verifier123") "S256" "verifier124" = false
      ∧ validatePKCE "verifier123" "plain" "verifier123" = true
      ∧ validatePKCE "verifier123" "S512" "verifier123" = false := by
  have hne : s256 "verifier124" ≠ s256 "verifier123" := by decide
  exact ⟨hne, validatePKCE_spec.2.2.2.2.2 "verifier124" hne,
    (validatePKCE_spec.1 "verifier123" "plain" "verifier123").mpr (Or.inl ⟨Or.inr rfl, rfl⟩),
    validatePKCE_spec.2.1 "verifier123" "S512" "verifier123" (by decide) (by decide) (by decide)⟩

/-! ## PKCE and the client secret at the exchange -/

theorem check_pkce_error (now : Nat) {req : TokenRequest} {c : OAuthAuthorizationCode}
    (hch : c.CodeChallenge ≠ "")
    (hv : req.CodeVerifier = ""
      ∨ validatePKCE c.CodeChallenge c.CodeChallengeMethod req.CodeVerifier = false) :
    ∃ e, checkAuthorizationCode validatePKCE now req c = .error e
      ∧ (¬ c.ExpiresAt < now → c.ClientID = req.ClientID → c.RedirectURI = req.RedirectURI →
          e = if req.CodeVerifier = "" then "code_verifier required for PKCE"
              else "invalid code_verifier") := by
  unfold checkAuthorizationCode After
  by_cases h1 : c.ExpiresAt < now
  · exact ⟨"authorization code expired", by simp [h1], fun h => absurd h1 h⟩
  · by_cases h2 : c.ClientID = req.ClientID
    · by_cases h3 : c.RedirectURI = req.RedirectURI
      · by_cases h4 : req.CodeVerifier = ""
        · exact ⟨"code_verifier required for PKCE", by simp [h1, h2, h3, hch, h4],
            fun _ _ _ => by simp [h4]⟩
        · have h5 : validatePKCE c.CodeChallenge c.CodeChallengeMethod req.CodeVerifier = false := by
            rcases hv with h | h
            · exact absurd h h4
            · exact h
          exact ⟨"invalid code_verifier", by simp [h1, h2, h3, hch, h4, h5],
            fun _ _ _ => by simp [h4]⟩
      · exact ⟨"redirect_uri mismatch", by simp [h1, h2, h3], fun _ _ h => absurd h h3⟩
    · exact ⟨"client_id mismatch", by simp [h1, h2], fun _ h => absurd h h2⟩

theorem check_no_challenge (pkce : String → String → String → Bool) (now : Nat)
    (req : TokenRequest) (verifier : String) (c : OAuthAuthorizationCode)
    (hch : c.CodeChallenge = "") :
    checkAuthorizationCode pkce now { req with CodeVerifier := verifier } c
      = checkAuthorizationCode validatePKCE now req c := by
  unfold checkAuthorizationCode
  simp [hch]


theorem find_app_some {s : Store} {clientID : String} {app : OAuthApplication}
    (hu : s.clientIDsUnique) (hm : app ∈ s.apps) (hlive : app.DeletedAt = none)
    (hid : app.ClientID = clientID) :
    s.apps.find? (fun a => a.DeletedAt.isNone && a.ClientID == clientID) = some app := by
  cases h : s.apps.find? (fun a => a.DeletedAt.isNone && a.ClientID == clientID) with
  | none =>
    rw [List.find?_eq_none] at h
    exact absurd (by simp [hlive, hid]) (h app hm)
  | some b =>
    have hp := List.find?_some h
    have hb := List.mem_of_find?_eq_some h
    simp only [Bool.and_eq_true, Option.isNone_iff_eq_none, beq_iff_eq] at hp
    exact congrArg some (List.inj_on_of_nodup_map hu hb hm (hp.2.trans hid.symm))

theorem createAccessToken_apps (s : Store) (apps : List OAuthApplication)
    (token clientID : String) (userID : Nat) (scopes : String) (expiresAt : Nat) :
    createAccessToken { s with apps := apps } token clientID userID scopes expiresAt
      = (createAccessToken s token clientID userID scopes expiresAt).map
          (fun t => { t with apps := apps }) := by
  unfold createAccessToken
  split_ifs <;> rfl

theorem createRefreshToken_apps (s : Store) (apps : List OAuthApplication)
    (token clientID : String) (userID : Nat) (accessToken : String) (expiresAt : Nat) :
    createRefreshToken { s with apps := apps } token clientID userID accessToken expiresAt
      = (createRefreshToken s token clientID userID accessToken expiresAt).map
          (fun t => { t with apps := apps }) := by
  unfold createRefreshToken
  split_ifs <;> rfl

/-- The writes of the exchange neither read nor change the client table. -/
theorem issueTokens_apps (s : Store) (apps : List OAuthApplication) (env : ExchangeEnv)
    (req : TokenRequest) (a : OAuthAuthorizationCode) :
    issueTokens { s with apps := apps } env req a
      = ((issueTokens s env req a).1, { (issueTokens s env req a).2 with apps := apps }) := by
  unfold issueTokens
  simp only
  have hm : markCodeUsed { s with apps := apps } a = { markCodeUsed s a with apps := apps } := rfl
  rw [hm, createAccessToken_apps]
  cases h1 : createAccessToken (markCodeUsed s a) env.accessToken req.ClientID a.UserID a.Scopes
      (env.nowAccess + 1 * Hour) with
  | none => rfl
  | some s2 =>
    simp only [Option.map_some']
    rw [createRefreshToken_apps]
    cases h2 : createRefreshToken s2 env.refreshToken req.ClientID a.UserID env.accessToken
        (env.nowRefresh + 24 * 30 * Hour) with
    | none => rfl
    | some s3 => rfl

/-- When the client secret check gives the same verdict on two client tables,
the exchange gives the same result and the same code and token tables. -/
theorem exchange_apps_of_secret_eq (pkce : String → String → String → Bool) (s : Store)
    (apps : List OAuthApplication) (env : ExchangeEnv) (req : TokenRequest)
    (hs : checkClientSecret { s with apps := apps } req = checkClientSecret s req) :
    ExchangeCodeForTokenWith pkce { s with apps := apps } env req
      = ((ExchangeCodeForTokenWith pkce s env req).1,
         { (ExchangeCodeForTokenWith pkce s env req).2 with apps := apps }) := by
  unfold ExchangeCodeForTokenWith
  have hfind : findAuthorizationCode { s with apps := apps } req.Code
      = findAuthorizationCode s req.Code := rfl
  rw [hfind, hs]
  by_cases hg : req.GrantType = "authorization_code"
  · simp only [hg, ne_eq, not_true_eq_false, if_false]
    cases findAuthorizationCode s req.Code with
    | none => rfl
    | some a =>
      simp only
      cases checkAuthorizationCode pkce env.now req a with
      | error e => rfl
      | ok u =>
        simp only
        cases checkClientSecret s req with
        | error e => rfl
        | ok u2 =>
          simp only
          exact issueTokens_apps s apps env req a
  · simp only [hg, ne_eq, not_false_eq_true, if_true]

/-- C5. PKCE is enforced at the exchange exactly when the stored code carries a
challenge (code values being unique). With a non-empty `code_challenge`, a
request whose `code_verifier` is empty or fails `validatePKCE` against the
stored challenge and method makes `ExchangeCodeForToken` fail and leave the
store as it was; when the code is otherwise redeemable the error is
"code_verifier required for PKCE" for an empty verifier and
"invalid code_verifier" else. With an empty `code_challenge` the result
depends neither on the `code_verifier` nor on the function called as
`validatePKCE`: the verifier is not required and the check is not run. -/
theorem exchange_pkce_enforced_iff_challenge (s : Store) (env : ExchangeEnv)
    (req : TokenRequest) (c : OAuthAuthorizationCode)
    (hu : s.codesUnique) (hc : c ∈ s.codes) (hcode : c.Code = req.Code) :
    (c.CodeChallenge ≠ "" →
      (req.CodeVerifier = ""
        ∨ validatePKCE c.CodeChallenge c.CodeChallengeMethod req.CodeVerifier = false) →
      (∃ e, (ExchangeCodeForToken s env req).1 = .error e
          ∧ (req.GrantType = "authorization_code" → c.DeletedAt = none → c.Used = false →
              ¬ c.ExpiresAt < env.now → c.ClientID = req.ClientID →
              c.RedirectURI = req.RedirectURI →
              e = if req.CodeVerifier = "" then "code_verifier required for PKCE"
                  else "invalid code_verifier"))
        ∧ (ExchangeCodeForToken s env req).2 = s)
    ∧ (c.CodeChallenge = "" →
        ∀ (pkce : String → String → String → Bool) (verifier : String),
          ExchangeCodeForTokenWith pkce s env { req with CodeVerifier := verifier }
            = ExchangeCodeForToken s env req) := by
  have hfind := findAuthorizationCode_of_mem hu hc
  rw [hcode] at hfind
  constructor
  · intro hch hv
    unfold ExchangeCodeForToken
    by_cases hg : req.GrantType = "authorization_code"
    · rcases hfind with hf | hf
      · obtain ⟨e, he, hmsg⟩ := check_pkce_error env.now hch hv
        rw [exchange_of_check_error hg hf he]
        exact ⟨⟨e, rfl, fun _ _ _ h1 h2 h3 => hmsg h1 h2 h3⟩, rfl⟩
      · rw [exchange_of_find_none hg hf]
        refine ⟨⟨_, rfl, fun _ hlive hunused _ _ _ => ?_⟩, rfl⟩
        exfalso
        unfold findAuthorizationCode at hf
        rw [List.find?_eq_none] at hf
        exact hf c hc (by simp [hlive, hunused, hcode])
    · rw [exchange_of_grant_ne hg]
      exact ⟨⟨_, rfl, fun h => absurd h hg⟩, rfl⟩
  · intro hch pkce verifier
    unfold ExchangeCodeForToken
    have hcheck := check_no_challenge pkce env.now req verifier c hch
    have hsecret : checkClientSecret s { req with CodeVerifier := verifier }
        = checkClientSecret s req := rfl
    have hissue : issueTokens s env { req with CodeVerifier := verifier } c
        = issueTokens s env req c := rfl
    by_cases hg : req.GrantType = "authorization_code"
    · have hg2 : ({ req with CodeVerifier := verifier } : TokenRequest).GrantType
          = "authorization_code" := hg
      rcases hfind with hf | hf
      · have hf2 : findAuthorizationCode s
            ({ req with CodeVerifier := verifier } : TokenRequest).Code = some c := hf
        cases hc1 : checkAuthorizationCode validatePKCE env.now req c with
        | error e =>
          rw [exchange_of_check_error hg hf hc1,
            exchange_of_check_error hg2 hf2 (hcheck.trans hc1)]
        | ok u =>
          cases hs1 : checkClientSecret s req with
          | error e =>
            rw [exchange_of_secret_error hg hf hc1 hs1,
              exchange_of_secret_error hg2 hf2 (hcheck.trans hc1) (hsecret.trans hs1)]
          | ok u2 =>
            rw [exchange_of_checks_ok hg hf hc1 hs1,
              exchange_of_checks_ok hg2 hf2 (hcheck.trans hc1) (hsecret.trans hs1), hissue]
      · have hf2 : findAuthorizationCode s
            ({ req with CodeVerifier := verifier } : TokenRequest).Code = none := hf
        rw [exchange_of_find_none hg hf, exchange_of_find_none hg2 hf2]
    · have hg2 : ({ req with CodeVerifier := verifier } : TokenRequest).GrantType
          ≠ "authorization_code" := hg
      rw [exchange_of_grant_ne hg, exchange_of_grant_ne hg2]

/-- C5, witness: the sample code bound to a challenge is refused without a
verifier; the sample code without a challenge is redeemed whatever the
verifier and whatever the PKCE check would answer. -/
theorem exchange_pkce_enforced_iff_challenge_witness :
    sampleStore.codesUnique ∧ samplePkceCode ∈ sampleStore.codes
      ∧ samplePkceCode.CodeChallenge ≠ ""
      ∧ ExchangeCodeForToken sampleStore sampleEnv
          { samplePkceRequest with CodeVerifier := "" }
          = (.error "code_verifier required for PKCE", sampleStore)
      ∧ sampleCode ∈ sampleStore.codes ∧ sampleCode.CodeChallenge = ""
      ∧ ExchangeCodeForTokenWith (fun _ _ _ => false) sampleStore sampleEnv
          { sampleRequest with CodeVerifier := "anything" }
          = ExchangeCodeForToken sampleStore sampleEnv sampleRequest := by
  have hu : sampleStore.codesUnique := by decide
  have hc1 : samplePkceCode ∈ sampleStore.codes := by decide
  have hc0 : sampleCode ∈ sampleStore.codes := by decide
  have hch : samplePkceCode.CodeChallenge ≠ "" := by decide
  have h1 := (exchange_pkce_enforced_iff_challenge sampleStore sampleEnv
    { samplePkceRequest with CodeVerifier := "" } samplePkceCode hu hc1 rfl).1 hch (Or.inl rfl)
  have h0 := (exchange_pkce_enforced_iff_challenge sampleStore sampleEnv sampleRequest
    sampleCode hu hc0 rfl).2 rfl (fun _ _ _ => false) "anything"
  obtain ⟨⟨e, he, hmsg⟩, hstore⟩ := h1
  have hmsg2 := hmsg rfl rfl rfl (by decide) rfl rfl
  rw [hmsg2] at he
  exact ⟨hu, hc1, hch, Prod.ext he hstore, hc0, rfl, h0⟩

/-- C10. For a request that passes the code lookup and the expiry, client,
redirect and PKCE checks: a non-empty `client_secret` that differs from the
secret of the stored client with the request's `client_id` (client ids being
unique) makes `ExchangeCodeForToken` fail with "invalid client_secret" and
leave the store as it was; with an empty `client_secret` the client table is
not read, so on any other client table the result and the codes and tokens
written are the same, namely those of the token issue. -/
theorem exchange_client_secret_optional (s : Store) (env : ExchangeEnv) (req : TokenRequest)
    (a : OAuthAuthorizationCode)
    (hg : req.GrantType = "authorization_code")
    (hf : findAuthorizationCode s req.Code = some a)
    (hc : checkAuthorizationCode validatePKCE env.now req a = .ok ()) :
    (∀ app : OAuthApplication, s.clientIDsUnique → app ∈ s.apps → app.DeletedAt = none →
        app.ClientID = req.ClientID → req.ClientSecret ≠ "" →
        app.ClientSecret ≠ req.ClientSecret →
        ExchangeCodeForToken s env req = (.error "invalid client_secret", s))
    ∧ (req.ClientSecret = "" →
        ∀ apps : List OAuthApplication,
          ExchangeCodeForToken { s with apps := apps } env req
            = ((ExchangeCodeForToken s env req).1,
               { (ExchangeCodeForToken s env req).2 with apps := apps })
          ∧ ExchangeCodeForToken s env req = issueTokens s env req a) := by
  constructor
  · intro app hu hm hlive hid hne hdiff
    unfold ExchangeCodeForToken
    apply exchange_of_secret_error hg hf hc
    unfold checkClientSecret
    rw [if_pos hne, find_app_some hu hm hlive hid]
    simp [hdiff]
  · intro hempty apps
    unfold ExchangeCodeForToken
    have hs : ∀ t : Store, checkClientSecret t req = .ok () := by
      intro t
      unfold checkClientSecret
      simp [hempty]
    refine ⟨exchange_apps_of_secret_eq validatePKCE s apps env req ?_,
      exchange_of_checks_ok hg hf hc (hs s)⟩
    rw [hs, hs]

/-- C10, witness: the sample request with the secret `wrong` is refused; without a
secret it is redeemed alike on the sample store and on a store without any
client. -/
theorem exchange_client_secret_optional_witness :
    findAuthorizationCode sampleStore sampleRequest.Code = some sampleCode
      ∧ checkAuthorizationCode validatePKCE sampleEnv.now sampleRequest sampleCode = .ok ()
      ∧ ExchangeCodeForToken sampleStore sampleEnv { sampleRequest with ClientSecret := "wrong" }
          = (.error "invalid client_secret", sampleStore)
      ∧ (ExchangeCodeForToken { sampleStore with apps := [] } sampleEnv sampleRequest).1
          = (ExchangeCodeForToken sampleStore sampleEnv sampleRequest).1 := by
  have hf : findAuthorizationCode sampleStore sampleRequest.Code = some sampleCode := by decide
  have hc : checkAuthorizationCode validatePKCE sampleEnv.now sampleRequest sampleCode
      = .ok () := by decide
  have h1 := (exchange_client_secret_optional sampleStore sampleEnv
    { sampleRequest with ClientSecret := "wrong" } sampleCode rfl hf hc).1 sampleApp
    (by decide) (by decide) rfl rfl (by decide) (by decide)
  have h2 := ((exchange_client_secret_optional sampleStore sampleEnv sampleRequest sampleCode
    rfl hf hc).2 rfl []).1
  exact ⟨hf, hc, h1, by rw [h2]⟩

/-! ## The token endpoint and the active flag of the client -/

theorem exchange_apps (pkce : String → String → String → Bool) (s : Store) (env : ExchangeEnv)
    (req : TokenRequest) : (ExchangeCodeForTokenWith pkce s env req).2.apps = s.apps := by
  unfold ExchangeCodeForTokenWith
  split
  · rfl
  · split
    · rfl
    · split
      · rfl
      · split
        · rfl
        · exact (issueTokens_codes s env req _).2

theorem checkClientSecret_withActive (f : OAuthApplication → Bool) (s : Store)
    (req : TokenRequest) :
    checkClientSecret (s.withActive f) req = checkClientSecret s req := by
  unfold checkClientSecret Store.withActive
  by_cases hne : req.ClientSecret = ""
  · simp [hne]
  · simp only [ne_eq, hne, not_false_eq_true, if_true, List.find?_map]
    have hp : ((fun a : OAuthApplication => a.DeletedAt.isNone && a.ClientID == req.ClientID)
        ∘ fun a : OAuthApplication => { a with Active := f a })
        = fun a : OAuthApplication => a.DeletedAt.isNone && a.ClientID == req.ClientID := rfl
    rw [hp]
    cases s.apps.find? (fun a => a.DeletedAt.isNone && a.ClientID == req.ClientID) with
    | none => rfl
    | some app => rfl

/-- The refresh neither reads nor changes the client table. -/
theorem refresh_apps (s : Store) (apps : List OAuthApplication) (env : RefreshEnv)
    (req : TokenRequest) :
    RefreshAccessToken { s with apps := apps } env req
      = ((RefreshAccessToken s env req).1, { (RefreshAccessToken s env req).2 with apps := apps })
    ∧ (RefreshAccessToken s env req).2.apps = s.apps := by
  unfold RefreshAccessToken
  by_cases hg : req.GrantType = "refresh_token"
  · simp only [hg, ne_eq, not_true_eq_false, if_false]
    cases s.refreshTokens.find?
        (fun t => t.DeletedAt.isNone && t.Token == req.RefreshToken && !t.Revoked) with
    | none => exact ⟨rfl, rfl⟩
    | some rt =>
      simp only
      by_cases h1 : After env.now rt.ExpiresAt = true
      · rw [if_pos h1, if_pos h1]
        exact ⟨rfl, rfl⟩
      · rw [if_neg h1, if_neg h1]
        by_cases h2 : rt.ClientID ≠ req.ClientID
        · rw [if_pos h2, if_pos h2]
          exact ⟨rfl, rfl⟩
        · rw [if_neg h2, if_neg h2]
          cases s.accessTokens.find?
              (fun t => t.DeletedAt.isNone && t.Token == rt.AccessToken) with
          | none => exact ⟨rfl, rfl⟩
          | some old =>
            simp only
            have hm : revokeAccessToken { s with apps := apps } old
                = { revokeAccessToken s old with apps := apps } := rfl
            rw [hm, createAccessToken_apps]
            cases h3 : createAccessToken (revokeAccessToken s old) env.accessToken req.ClientID
                rt.UserID old.Scopes (env.nowAccess + 1 * Hour) with
            | none => exact ⟨rfl, rfl⟩
            | some s2 =>
              have := (createAccessToken_some h3).1
              exact ⟨rfl, this⟩
  · simp only [hg, ne_eq, not_false_eq_true, if_true, and_self]

/-- C9, counterexample: a code is issued to the sample client while it is active,
then the client is deactivated. The authorization endpoint now refuses the
client, but `ExchangeCodeForToken` redeems the code and `RefreshAccessToken`
then refreshes the token it issued. -/
theorem deactivated_client_still_redeems :
    deactivatedStore.apps.map (fun a => (a.ClientID, a.Active)) = [("X", false)]
      ∧ (ValidateAuthorizationRequest sampleUnmarshal deactivatedStore sampleAuthorize).1
          = .error "invalid or inactive client_id"
      ∧ (ExchangeCodeForToken deactivatedStore sampleEnv
          { sampleRequest with Code := "c9" }).1 = .ok sampleResponse
      ∧ (RefreshAccessToken
          (ExchangeCodeForToken deactivatedStore sampleEnv { sampleRequest with Code := "c9" }).2
          sampleRefreshEnv sampleRefreshRequest).1
          = .ok { AccessToken := "A3", TokenType := "Bearer", ExpiresIn := 3600,
                  RefreshToken := "R1", Scope := "read" } := by
  decide

/-- C9, amended. The token endpoint does not consult the active flag:
for every store, every assignment `f` of active flags to the clients and every
request, `ExchangeCodeForToken` and `RefreshAccessToken` return the same result
and leave the same codes and tokens as on the store with the flags unchanged. -/
theorem token_endpoint_ignores_active_flag (s : Store) (f : OAuthApplication → Bool)
    (env : ExchangeEnv) (renv : RefreshEnv) (req : TokenRequest) :
    ExchangeCodeForToken (s.withActive f) env req
        = ((ExchangeCodeForToken s env req).1, (ExchangeCodeForToken s env req).2.withActive f)
    ∧ RefreshAccessToken (s.withActive f) renv req
        = ((RefreshAccessToken s renv req).1, (RefreshAccessToken s renv req).2.withActive f) := by
  constructor
  · unfold ExchangeCodeForToken
    have h := exchange_apps_of_secret_eq validatePKCE s (s.withActive f).apps env req
      (checkClientSecret_withActive f s req)
    have happs := exchange_apps validatePKCE s env req
    have hw : (ExchangeCodeForTokenWith validatePKCE s env req).2.withActive f
        = { (ExchangeCodeForTokenWith validatePKCE s env req).2 with
            apps := (s.withActive f).apps } := by
      unfold Store.withActive
      rw [happs]
    rw [hw]
    exact h
  · have h := refresh_apps s (s.withActive f).apps renv req
    have hw : (RefreshAccessToken s renv req).2.withActive f
        = { (RefreshAccessToken s renv req).2 with apps := (s.withActive f).apps } := by
      unfold Store.withActive
      rw [h.2]
    rw [hw]
    exact h.1

/-! ## The authorization request -/

theorem isValidRedirectURI_iff (uris : List String) (redirectURI : String) :
    isValidRedirectURI uris redirectURI = true ↔ redirectURI ∈ uris := by
  induction uris with
  | nil => simp [isValidRedirectURI]
  | cons uri rest ih =>
    unfold isValidRedirectURI
    by_cases h : uri = redirectURI
    · simp [h]
    · rw [if_neg h, ih]
      simp [Ne.symm h]

theorem find_active_app_iff {s : Store} (hu : s.clientIDsUnique) (clientID : String)
    (app : OAuthApplication) :
    s.apps.find? (fun a => a.DeletedAt.isNone && a.ClientID == clientID && a.Active) = some app
      ↔ app ∈ s.apps ∧ app.DeletedAt = none ∧ app.ClientID = clientID ∧ app.Active = true := by
  constructor
  · intro h
    have hp := List.find?_some h
    simp only [Bool.and_eq_true, Option.isNone_iff_eq_none, beq_iff_eq] at hp
    exact ⟨List.mem_of_find?_eq_some h, hp.1.1, hp.1.2, hp.2⟩
  · rintro ⟨hm, hlive, hid, hact⟩
    cases h : s.apps.find?
        (fun a => a.DeletedAt.isNone && a.ClientID == clientID && a.Active) with
    | none =>
      rw [List.find?_eq_none] at h
      exact absurd (by simp [hlive, hid, hact]) (h app hm)
    | some b =>
      have hp := List.find?_some h
      have hb := List.mem_of_find?_eq_some h
      simp only [Bool.and_eq_true, Option.isNone_iff_eq_none, beq_iff_eq] at hp
      exact congrArg some (List.inj_on_of_nodup_map hu hb hm (hp.1.2.trans hid.symm))

/-- C8. With unique client ids (the `uniqueIndex` on `client_id`),
`ValidateAuthorizationRequest` returns a client exactly when the response type
is `code`, that client is stored, not deleted, active and carries the
request's `client_id`, the request's `redirect_uri` is equal to one of the
URIs decoded from its redirect URI column, and a non-empty `code_challenge`
comes with the method empty, `plain` or `S256`. When no client meets these
conditions it returns an error. In every case the store is left as it was. -/
theorem validateAuthorizationRequest_spec
    (jsonUnmarshal : String → Except String (List String)) (s : Store) (req : AuthorizeRequest)
    (hu : s.clientIDsUnique) :
    (∀ app, (ValidateAuthorizationRequest jsonUnmarshal s req).1 = .ok app
        ↔ authorizationRequestValid jsonUnmarshal s req app)
    ∧ ((¬ ∃ app, authorizationRequestValid jsonUnmarshal s req app) →
        ∃ e, (ValidateAuthorizationRequest jsonUnmarshal s req).1 = .error e)
    ∧ (ValidateAuthorizationRequest jsonUnmarshal s req).2 = s := by
  have key : (∀ app, (ValidateAuthorizationRequest jsonUnmarshal s req).1 = .ok app
        ↔ authorizationRequestValid jsonUnmarshal s req app)
      ∧ (ValidateAuthorizationRequest jsonUnmarshal s req).2 = s := by
    unfold ValidateAuthorizationRequest authorizationRequestValid
    by_cases hr : req.ResponseType = "code"
    · simp only [hr, ne_eq, not_true_eq_false, if_false, true_and]
      cases hf : s.apps.find?
          (fun a => a.DeletedAt.isNone && a.ClientID == req.ClientID && a.Active) with
      | none =>
        refine ⟨fun app => ⟨fun h => by simp at h, fun h => ?_⟩, rfl⟩
        have := (find_active_app_iff hu req.ClientID app).mpr ⟨h.1, h.2.1, h.2.2.1, h.2.2.2.1⟩
        rw [hf] at this
        exact absurd this (by simp)
      | some found =>
        have hfound := (find_active_app_iff hu req.ClientID found).mp hf
        have huniq : ∀ app, app ∈ s.apps → app.DeletedAt = none → app.ClientID = req.ClientID →
            app.Active = true → app = found := by
          intro app h1 h2 h3 h4
          have := (find_active_app_iff hu req.ClientID app).mpr ⟨h1, h2, h3, h4⟩
          rw [hf] at this
          exact (Option.some.inj this).symm
        simp only
        cases hj : jsonUnmarshal found.RedirectURIs with
        | error e =>
          refine ⟨fun app => ⟨fun h => by simp at h, fun h => ?_⟩, rfl⟩
          have happ := huniq app h.1 h.2.1 h.2.2.1 h.2.2.2.1
          obtain ⟨uris, hju, -⟩ := h.2.2.2.2.1
          rw [happ, hj] at hju
          exact absurd hju (by simp)
        | ok uris =>
          simp only
          by_cases hv : isValidRedirectURI uris req.RedirectURI = true
          · have hmem := (isValidRedirectURI_iff uris req.RedirectURI).mp hv
            simp only [hv, Bool.not_true, Bool.false_eq_true, if_false]
            by_cases hm : req.CodeChallenge ≠ "" ∧ req.CodeChallengeMethod ≠ ""
                ∧ req.CodeChallengeMethod ≠ "plain" ∧ req.CodeChallengeMethod ≠ "S256"
            · rw [if_pos hm]
              refine ⟨fun app => ⟨fun h => by simp at h, fun h => ?_⟩, rfl⟩
              rcases h.2.2.2.2.2 hm.1 with h1 | h1 | h1
              · exact absurd h1 hm.2.1
              · exact absurd h1 hm.2.2.1
              · exact absurd h1 hm.2.2.2
            · rw [if_neg hm]
              refine ⟨fun app => ⟨fun h => ?_, fun h => ?_⟩, rfl⟩
              · have happ : found = app := Except.ok.inj h
                rw [← happ]
                refine ⟨hfound.1, hfound.2.1, hfound.2.2.1, hfound.2.2.2, ⟨uris, hj, hmem⟩, ?_⟩
                intro hch
                by_contra hcon
                push_neg at hcon
                exact hm ⟨hch, hcon.1, hcon.2.1, hcon.2.2⟩
              · rw [huniq app h.1 h.2.1 h.2.2.1 h.2.2.2.1]
          · have hv2 : isValidRedirectURI uris req.RedirectURI = false := by
              simpa using hv
            simp only [hv2, Bool.not_false, if_true]
            refine ⟨fun app => ⟨fun h => by simp at h, fun h => ?_⟩, trivial⟩
            exfalso
            have happ := huniq app h.1 h.2.1 h.2.2.1 h.2.2.2.1
            obtain ⟨uris2, hju, hmem⟩ := h.2.2.2.2.1
            rw [happ, hj] at hju
            have : uris = uris2 := Except.ok.inj hju
            rw [← this] at hmem
            exact hv ((isValidRedirectURI_iff uris req.RedirectURI).mpr hmem)
    · simp only [hr, ne_eq, not_false_eq_true, if_true, false_and, iff_false, and_true]
      intro app h
      simp at h
  refine ⟨key.1, ?_, key.2⟩
  intro hnone
  cases hres : (ValidateAuthorizationRequest jsonUnmarshal s req).1 with
  | error e => exact ⟨e, rfl⟩
  | ok app => exact absurd ⟨app, (key.1 app).mp hres⟩ hnone

/-- C8, witness: the sample request is accepted with the sample client; a longer
redirect URI with the registered one as a prefix is refused. -/
theorem validateAuthorizationRequest_spec_witness :
    sampleStore.clientIDsUnique
      ∧ (ValidateAuthorizationRequest sampleUnmarshal sampleStore sampleAuthorize).1
          = .ok sampleApp
      ∧ (∃ e, (ValidateAuthorizationRequest sampleUnmarshal sampleStore
            { sampleAuthorize with RedirectURI := "https://app/cb/extra" }).1 = .error e)
      ∧ (ValidateAuthorizationRequest sampleUnmarshal sampleStore sampleAuthorize).2
          = sampleStore := by
  have hu : sampleStore.clientIDsUnique := by decide
  have h := validateAuthorizationRequest_spec sampleUnmarshal sampleStore sampleAuthorize hu
  have h2 := validateAuthorizationRequest_spec sampleUnmarshal sampleStore
    { sampleAuthorize with RedirectURI := "https://app/cb/extra" } hu
  refine ⟨hu, (h.1 sampleApp).mpr ?_, h2.2.1 ?_, h.2.2⟩
  · refine ⟨rfl, by decide, rfl, rfl, rfl, ⟨["https://app/cb"], rfl, by decide⟩, ?_⟩
    intro hch
    exact absurd rfl hch
  · rintro ⟨app, -, hm, -, -, -, ⟨uris, hj, hmem⟩, -⟩
    have happ : app = sampleApp := by simpa [sampleStore] using hm
    rw [happ] at hj
    have huris : uris = ["https://app/cb"] := (Except.ok.inj hj).symm
    rw [huris] at hmem
    exact absurd hmem (by decide)

/-! ## The default scope -/

theorem splitChars_ne_nil (sep : Char) (cs : List Char) : splitChars sep cs ≠ [] := by
  cases cs with
  | nil => simp [splitChars]
  | cons c rest =>
    unfold splitChars
    split_ifs
    · simp
    · split <;> simp

theorem splitChars_eq_singleton_nil (sep : Char) (cs : List Char) :
    splitChars sep cs = [[]] ↔ cs = [] := by
  constructor
  · intro h
    cases cs with
    | nil => rfl
    | cons c rest =>
      exfalso
      unfold splitChars at h
      split_ifs at h
      · simp only [List.cons.injEq, true_and] at h
        exact splitChars_ne_nil sep rest h
      · split at h <;> simp at h
  · intro h
    rw [h]
    rfl

theorem stringsSplit_default_iff (scope : String) :
    ((stringsSplit scope).length = 1 ∧ (stringsSplit scope).head? = some "") ↔ scope = "" := by
  unfold stringsSplit
  constructor
  · rintro ⟨hlen, hhead⟩
    have hsplit : splitChars ' ' scope.toList = [[]] := by
      cases hs : splitChars ' ' scope.toList with
      | nil => exact absurd hs (splitChars_ne_nil _ _)
      | cons w ws =>
        rw [hs] at hlen hhead
        simp only [List.map_cons, List.length_cons, List.length_map, add_left_eq_self,
          List.length_eq_zero] at hlen
        simp only [List.map_cons, List.head?_cons, Option.some.injEq] at hhead
        have hw : w = [] := by
          have := congrArg String.toList hhead
          simpa using this
        rw [hlen, hw]
    have := (splitChars_eq_singleton_nil ' ' scope.toList).mp hsplit
    exact String.ext this
  · intro h
    rw [h]
    decide

theorem requestedScopes_eq (scope : String) :
    requestedScopes scope = if scope = "" then ["read"] else stringsSplit scope := by
  unfold requestedScopes
  simp only [stringsSplit_default_iff]

/-- C7, counterexample: for the whitespace-only scope parameter `" "` the
requested scopes are the two empty names, not `read`, and against the allowed
scopes `read profile` nothing is granted: the code `CreateAuthorizationCode`
stores carries the empty scope text. -/
theorem whitespace_scope_not_defaulted :
    requestedScopes " " = ["", ""]
      ∧ requestedScopes " " ≠ ["read"]
      ∧ grantedScopes " " "read profile" = []
      ∧ grantedScopes " " "read profile" ≠ ["read"]
      ∧ (CreateAuthorizationCode sampleStore "c2" 5 7 sampleApp
          { sampleAuthorize with Scope := " " }).2.codes.map (·.Scopes) = ["read", "read", ""] := by
  decide

/-- C7, amended. `CreateAuthorizationCode` takes the requested scopes to be
`read` exactly when the scope parameter is the empty string; any other
parameter is split at single spaces as it stands. The code it stores (the code
value being new) carries the join of the intersection of those names with the
client's allowed scopes: requested `""` against `read profile` grants `read`,
requested `" "` grants nothing. -/
theorem default_scope_only_for_empty (s : Store) (code : String) (now userID : Nat)
    (app : OAuthApplication) (req : AuthorizeRequest)
    (hfresh : ∀ c ∈ s.codes, c.Code ≠ code) :
    requestedScopes req.Scope = (if req.Scope = "" then ["read"] else stringsSplit req.Scope)
      ∧ (∃ authCode, (CreateAuthorizationCode s code now userID app req).2.codes
            = s.codes ++ [authCode]
          ∧ authCode.Scopes = stringsJoin (intersectScopes
              (if req.Scope = "" then ["read"] else stringsSplit req.Scope)
              (stringsSplit app.Scopes)))
      ∧ grantedScopes "" "read profile" = ["read"]
      ∧ grantedScopes " " "read profile" = [] := by
  refine ⟨requestedScopes_eq _, ?_, by decide, by decide⟩
  unfold CreateAuthorizationCode
  have hany : (s.codes.any fun c => c.Code == code) = false := by
    rw [List.any_eq_false]
    intro c hc
    simpa using hfresh c hc
  simp only [hany, Bool.false_eq_true, if_false]
  exact ⟨_, rfl, by simp only [grantedScopes, requestedScopes_eq]⟩

/-- C7, witness: the sample client asked for the empty scope is granted `read`. -/
theorem default_scope_only_for_empty_witness :
    (∀ c ∈ sampleStore.codes, c.Code ≠ "c2")
      ∧ requestedScopes "" = ["read"]
      ∧ ∃ authCode, (CreateAuthorizationCode sampleStore "c2" 5 7 sampleApp
            { sampleAuthorize with Scope := "" }).2.codes = sampleStore.codes ++ [authCode]
          ∧ authCode.Scopes = "read" := by
  have hfresh : ∀ c ∈ sampleStore.codes, c.Code ≠ "c2" := by decide
  have h := default_scope_only_for_empty sampleStore "c2" 5 7 sampleApp
    { sampleAuthorize with Scope := "" } hfresh
  obtain ⟨authCode, hcodes, hscopes⟩ := h.2.1
  exact ⟨hfresh, h.1, authCode, hcodes, hscopes.trans (by decide)⟩

/-! ## Two concurrent calls -/

/-- Run alone, the five steps of a call are the method `ExchangeCodeForToken`. -/
theorem exchangeSteps_sequential (s : Store) (env : ExchangeEnv) (req : TokenRequest) :
    exchangeSteps env req 5 (.atLookup, s)
      = (.done (ExchangeCodeForToken s env req).1, (ExchangeCodeForToken s env req).2) := by
  unfold ExchangeCodeForToken ExchangeCodeForTokenWith
  simp only [exchangeSteps, exchangeStep]
  by_cases hg : req.GrantType = "authorization_code"
  · simp only [hg, ne_eq, not_true_eq_false, if_false]
    cases findAuthorizationCode s req.Code with
    | none => rfl
    | some a =>
      simp only
      cases checkAuthorizationCode validatePKCE env.now req a with
      | error e => rfl
      | ok u =>
        simp only [exchangeStep]
        cases checkClientSecret s req with
        | error e => rfl
        | ok u2 =>
          simp only [exchangeStep, issueTokens]
          cases createAccessToken (markCodeUsed s a) env.accessToken req.ClientID a.UserID
              a.Scopes (env.nowAccess + 1 * Hour) with
          | none => rfl
          | some s2 =>
            simp only [exchangeStep]
            cases createRefreshToken s2 env.refreshToken req.ClientID a.UserID env.accessToken
                (env.nowRefresh + 24 * 30 * Hour) with
            | none => rfl
            | some s3 => rfl
  · simp only [hg, ne_eq, not_false_eq_true, if_true, exchangeStep]

/-- C2, the code on the failing schedule: on the sample store, whose code `c0` is
valid and unused, two calls of `ExchangeCodeForToken` with that code both
return a token response when the second call looks the code up between the
lookup and the update of the first; the store ends with two access tokens and
two refresh tokens minted from the one code. -/
theorem exchange_race_redeems_twice :
    findAuthorizationCode sampleStore sampleRequest.Code = some sampleCode
      ∧ (raceRun sampleEnv sampleRequest sampleEnv2 sampleRequest sampleStore raceSchedule).first
          = .done (.ok sampleResponse)
      ∧ (raceRun sampleEnv sampleRequest sampleEnv2 sampleRequest sampleStore raceSchedule).second
          = .done (.ok { AccessToken := "A2", TokenType := "Bearer", ExpiresIn := 3600,
                         RefreshToken := "R2", Scope := "read" })
      ∧ (raceRun sampleEnv sampleRequest sampleEnv2 sampleRequest sampleStore
            raceSchedule).store.accessTokens.map (·.Token) = ["A1", "A2"]
      ∧ (raceRun sampleEnv sampleRequest sampleEnv2 sampleRequest sampleStore
            raceSchedule).store.refreshTokens.map (·.Token) = ["R1", "R2"] := by
  decide

/-! ## The effect of a successful exchange -/

theorem check_ok_inv {pkce : String → String → String → Bool} {now : Nat} {req : TokenRequest}
    {a : OAuthAuthorizationCode} (h : checkAuthorizationCode pkce now req a = .ok ()) :
    ¬ a.ExpiresAt < now ∧ a.ClientID = req.ClientID ∧ a.RedirectURI = req.RedirectURI := by
  unfold checkAuthorizationCode After at h
  by_cases h1 : a.ExpiresAt < now
  · simp [h1] at h
  · by_cases h2 : a.ClientID = req.ClientID
    · by_cases h3 : a.RedirectURI = req.RedirectURI
      · exact ⟨h1, h2, h3⟩
      · simp [h1, h2, h3] at h
    · simp [h1, h2] at h

theorem issueTokens_ok_inv {s s1 : Store} {env : ExchangeEnv} {req : TokenRequest}
    {a : OAuthAuthorizationCode} {resp : TokenResponse}
    (h : issueTokens s env req a = (.ok resp, s1)) :
    resp = exchangeResponse env a
      ∧ (∀ t ∈ s.accessTokens, t.Token ≠ env.accessToken)
      ∧ (∀ t ∈ s.refreshTokens, t.Token ≠ env.refreshToken)
      ∧ s1 = { s with
          codes := (markCodeUsed s a).codes
          accessTokens := s.accessTokens ++
            [{ ID := nextID (s.accessTokens.map (·.ID)), Token := env.accessToken,
               ClientID := req.ClientID, UserID := a.UserID, Scopes := a.Scopes,
               ExpiresAt := env.nowAccess + 1 * Hour }]
          refreshTokens := s.refreshTokens ++
            [{ ID := nextID (s.refreshTokens.map (·.ID)), Token := env.refreshToken,
               ClientID := req.ClientID, UserID := a.UserID, AccessToken := env.accessToken,
               ExpiresAt := env.nowRefresh + 24 * 30 * Hour }] } := by
  unfold issueTokens at h
  simp only at h
  split at h
  · simp at h
  · next s2 h1 =>
    split at h
    · simp at h
    · next s3 h2 =>
      simp only [Prod.mk.injEq, Except.ok.injEq] at h
      obtain ⟨hresp, hs⟩ := h
      have hf1 := (createAccessToken_some h1).2.2.2.2
      have hf2 := (createRefreshToken_some h2).2.2.2.2
      have ha : (markCodeUsed s a).accessTokens = s.accessTokens := rfl
      have hr : s2.refreshTokens = s.refreshTokens := (createAccessToken_some h1).2.2.1
      rw [ha] at hf1
      rw [hr] at hf2
      refine ⟨hresp.symm, hf1, hf2, ?_⟩
      subst hs
      unfold createAccessToken at h1
      split_ifs at h1
      cases h1
      unfold createRefreshToken at h2
      split_ifs at h2
      cases h2
      rfl

/-- Claim C11. When `ExchangeCodeForToken` succeeds for the code row `a`, the
store gains exactly one access token, appended to the table, with the user,
client and scopes of the code, an expiry one hour after the clock reading
taken for it and `Revoked = false`; it gains exactly one refresh token with the
same user and client, an expiry of 24 * 30 hours after its clock reading,
`Revoked = false` and the new access token value in `AccessToken`; the code row
becomes used; clients and users are unchanged; and the response carries the
two token values, token type Bearer, `ExpiresIn = 3600` and the scopes of the
code. -/
theorem exchange_success_effect (s s1 : Store) (env : ExchangeEnv) (req : TokenRequest)
    (resp : TokenResponse) (h : ExchangeCodeForToken s env req = (.ok resp, s1)) :
    ∃ a, findAuthorizationCode s req.Code = some a
      ∧ a.ClientID = req.ClientID ∧ a.Used = false
      ∧ s1.accessTokens = s.accessTokens ++
          [{ ID := nextID (s.accessTokens.map (·.ID)), Token := env.accessToken,
             ClientID := a.ClientID, UserID := a.UserID, Scopes := a.Scopes,
             ExpiresAt := env.nowAccess + 1 * Hour, Revoked := false }]
      ∧ s1.refreshTokens = s.refreshTokens ++
          [{ ID := nextID (s.refreshTokens.map (·.ID)), Token := env.refreshToken,
             ClientID := a.ClientID, UserID := a.UserID, AccessToken := env.accessToken,
             ExpiresAt := env.nowRefresh + 24 * 30 * Hour, Revoked := false }]
      ∧ s1.codes = s.codes.map (fun c =>
          if c.ID = a.ID ∧ c.DeletedAt.isNone then { c with Used := true } else c)
      ∧ { a with Used := true } ∈ s1.codes
      ∧ s1.apps = s.apps ∧ s1.users = s.users
      ∧ resp = { AccessToken := env.accessToken, TokenType := "Bearer", ExpiresIn := 3600,
                 RefreshToken := env.refreshToken, Scope := a.Scopes } := by
  unfold ExchangeCodeForToken at h
  have hok : (ExchangeCodeForTokenWith validatePKCE s env req).1 = .ok resp := by rw [h]
  obtain ⟨-, a, hf, hc, -, heq⟩ := exchange_ok_inv hok
  rw [heq] at h
  obtain ⟨hresp, -, -, hs⟩ := issueTokens_ok_inv h
  obtain ⟨ham, hlive, -, hunused⟩ := findAuthorizationCode_some hf
  have hcid := (check_ok_inv hc).2.1
  refine ⟨a, hf, hcid, hunused, ?_, ?_, ?_, ?_, ?_, ?_, hresp⟩
  · rw [hs, hcid]
  · rw [hs, hcid]
  · rw [hs]
    rfl
  · rw [hs]
    simp only [markCodeUsed, List.mem_map]
    exact ⟨a, ham, by simp [hlive]⟩
  · rw [hs]
  · rw [hs]

/-- Claim C11 on the sample store: the exchange of code c0 at clock readings
10, 11 and 12 stores A1 (expiry 11 ns + 1 h) and R1 (expiry 12 ns + 720 h). -/
theorem exchange_success_effect_witness :
    ∃ s1, ExchangeCodeForToken sampleStore sampleEnv sampleRequest = (.ok sampleResponse, s1)
      ∧ s1.accessTokens.map (fun t => (t.Token, t.ClientID, t.UserID, t.Scopes, t.ExpiresAt,
          t.Revoked)) = [("A1", "X", 7, "read", 3600000000011, false)]
      ∧ s1.refreshTokens.map (fun t => (t.Token, t.ClientID, t.UserID, t.AccessToken,
          t.ExpiresAt, t.Revoked)) = [("R1", "X", 7, "A1", 2592000000000012, false)]
      ∧ { sampleCode with Used := true } ∈ s1.codes := by
  have h : ExchangeCodeForToken sampleStore sampleEnv sampleRequest
      = (.ok sampleResponse, (ExchangeCodeForToken sampleStore sampleEnv sampleRequest).2) := by
    decide
  obtain ⟨a, hf, -, -, hacc, hrt, -, hused, -, -, -⟩ :=
    exchange_success_effect sampleStore _ sampleEnv sampleRequest sampleResponse h
  have ha : a = sampleCode := by
    have hf2 : findAuthorizationCode sampleStore sampleRequest.Code = some sampleCode := by
      decide
    rw [hf2] at hf
    exact (Option.some.inj hf).symm
  subst ha
  refine ⟨_, h, ?_, ?_, hused⟩
  · rw [hacc]
    decide
  · rw [hrt]
    decide

/-! ## The effect of issuing a code -/

/-- Claim C12. When the generated code value is not yet in the table,
`CreateAuthorizationCode` returns that value and the store differs from the one
before only by one appended code row: unused, expiring ten minutes after
`now`, with the client id of the client, the id of the user, the redirect URI,
code challenge and challenge method of the request, and the negotiated scopes
joined by single spaces. -/
theorem createAuthorizationCode_effect (s : Store) (code : String) (now userID : Nat)
    (app : OAuthApplication) (req : AuthorizeRequest)
    (hfresh : ∀ c ∈ s.codes, c.Code ≠ code) :
    CreateAuthorizationCode s code now userID app req
      = (.ok code, { s with codes := s.codes ++
          [{ ID := nextID (s.codes.map (·.ID)), DeletedAt := none, Code := code,
             ClientID := app.ClientID, UserID := userID, RedirectURI := req.RedirectURI,
             Scopes := stringsJoin (grantedScopes req.Scope app.Scopes),
             ExpiresAt := now + 10 * Minute, Used := false,
             CodeChallenge := req.CodeChallenge,
             CodeChallengeMethod := req.CodeChallengeMethod }] }) := by
  unfold CreateAuthorizationCode
  have hany : (s.codes.any fun c => c.Code == code) = false := by
    rw [List.any_eq_false]
    intro c hc
    simpa using hfresh c hc
  simp only [hany, Bool.false_eq_true, if_false]

/-- Claim C12 on the sample store: issuing code c2 at time 5 for user 7. -/
theorem createAuthorizationCode_effect_witness :
    (∀ c ∈ sampleStore.codes, c.Code ≠ "c2")
      ∧ (CreateAuthorizationCode sampleStore "c2" 5 7 sampleApp sampleAuthorize).1 = .ok "c2"
      ∧ (CreateAuthorizationCode sampleStore "c2" 5 7 sampleApp sampleAuthorize).2
          = { sampleStore with codes := sampleStore.codes ++
              [{ ID := 3, Code := "c2", ClientID := "X", UserID := 7,
                 RedirectURI := "https://app/cb", Scopes := "read",
                 ExpiresAt := 600000000005 }] } := by
  have hfresh : ∀ c ∈ sampleStore.codes, c.Code ≠ "c2" := by decide
  have h := createAuthorizationCode_effect sampleStore "c2" 5 7 sampleApp sampleAuthorize hfresh
  refine ⟨hfresh, by rw [h], ?_⟩
  rw [h]
  decide

/-! ## `RefreshAccessToken` -/

/-- The lookup of the refresh token by value. -/
theorem find_refresh_some {s : Store} {token : String} {rt : OAuthRefreshToken}
    (h : s.refreshTokens.find?
      (fun t => t.DeletedAt.isNone && t.Token == token && !t.Revoked) = some rt) :
    rt ∈ s.refreshTokens ∧ rt.DeletedAt = none ∧ rt.Token = token ∧ rt.Revoked = false := by
  have hp := List.find?_some h
  simp only [Bool.and_eq_true, Option.isNone_iff_eq_none, beq_iff_eq, Bool.not_eq_true'] at hp
  exact ⟨List.mem_of_find?_eq_some h, hp.1.1, hp.1.2, hp.2⟩

/-- The lookup of the access token a refresh token points to. -/
theorem find_associated_some {s : Store} {token : String} {old : OAuthAccessToken}
    (h : s.accessTokens.find? (fun t => t.DeletedAt.isNone && t.Token == token) = some old) :
    old ∈ s.accessTokens ∧ old.DeletedAt = none ∧ old.Token = token := by
  have hp := List.find?_some h
  simp only [Bool.and_eq_true, Option.isNone_iff_eq_none, beq_iff_eq] at hp
  exact ⟨List.mem_of_find?_eq_some h, hp.1, hp.2⟩

theorem revoke_ids (s : Store) (old : OAuthAccessToken) :
    (revokeAccessToken s old).accessTokens.map (·.ID) = s.accessTokens.map (·.ID) := by
  unfold revokeAccessToken
  simp only [List.map_map]
  apply List.map_congr_left
  intro t _
  simp only [Function.comp]
  split_ifs <;> rfl

theorem revoke_tokens (s : Store) (old : OAuthAccessToken) :
    (revokeAccessToken s old).accessTokens.map (·.Token) = s.accessTokens.map (·.Token) := by
  unfold revokeAccessToken
  simp only [List.map_map]
  apply List.map_congr_left
  intro t _
  simp only [Function.comp]
  split_ifs <;> rfl

/-- What a successful refresh read and wrote. -/
theorem refresh_ok_inv {s s1 : Store} {env : RefreshEnv} {req : TokenRequest}
    {resp : TokenResponse} (h : RefreshAccessToken s env req = (.ok resp, s1)) :
    req.GrantType = "refresh_token" ∧
    ∃ rt old,
      s.refreshTokens.find?
          (fun t => t.DeletedAt.isNone && t.Token == req.RefreshToken && !t.Revoked) = some rt
      ∧ ¬ rt.ExpiresAt < env.now ∧ rt.ClientID = req.ClientID
      ∧ s.accessTokens.find?
          (fun t => t.DeletedAt.isNone && t.Token == rt.AccessToken) = some old
      ∧ (∀ t ∈ s.accessTokens, t.Token ≠ env.accessToken)
      ∧ resp = { AccessToken := env.accessToken, TokenType := "Bearer", ExpiresIn := 3600,
                 RefreshToken := req.RefreshToken, Scope := old.Scopes }
      ∧ s1 = { s with
          accessTokens := (revokeAccessToken s old).accessTokens ++
            [{ ID := nextID (s.accessTokens.map (·.ID)), Token := env.accessToken,
               ClientID := req.ClientID, UserID := rt.UserID, Scopes := old.Scopes,
               ExpiresAt := env.nowAccess + 1 * Hour }]
          refreshTokens := (repointRefreshToken s rt env.accessToken).refreshTokens } := by
  unfold RefreshAccessToken at h
  by_cases hg : req.GrantType = "refresh_token"
  · refine ⟨hg, ?_⟩
    simp only [hg, ne_eq, not_true_eq_false, if_false] at h
    cases hf : s.refreshTokens.find?
        (fun t => t.DeletedAt.isNone && t.Token == req.RefreshToken && !t.Revoked) with
    | none => simp [hf] at h
    | some rt =>
      simp only [hf] at h
      by_cases h1 : After env.now rt.ExpiresAt = true
      · simp [h1] at h
      · rw [if_neg h1] at h
        by_cases h2 : rt.ClientID ≠ req.ClientID
        · simp [h2] at h
        · rw [if_neg h2] at h
          cases hfo : s.accessTokens.find?
              (fun t => t.DeletedAt.isNone && t.Token == rt.AccessToken) with
          | none => simp [hfo] at h
          | some old =>
            simp only [hfo] at h
            cases hc : createAccessToken (revokeAccessToken s old) env.accessToken req.ClientID
                rt.UserID old.Scopes (env.nowAccess + 1 * Hour) with
            | none =>
              rw [hc] at h
              simp at h
            | some s2 =>
              rw [hc] at h
              simp only [Prod.mk.injEq, Except.ok.injEq] at h
              obtain ⟨hresp, hs⟩ := h
              have hfresh := (createAccessToken_some hc).2.2.2.2
              refine ⟨rt, old, rfl, ?_, not_not.mp h2, hfo, ?_, hresp.symm, ?_⟩
              · simpa [After] using h1
              · intro t ht
                have hm : t.Token ∈ (revokeAccessToken s old).accessTokens.map (·.Token) := by
                  rw [revoke_tokens]
                  exact List.mem_map_of_mem _ ht
                obtain ⟨t2, ht2, heq⟩ := List.mem_map.mp hm
                rw [← heq]
                exact hfresh t2 ht2
              · subst hs
                unfold createAccessToken at hc
                split_ifs at hc
                cases hc
                simp only [repointRefreshToken, revoke_ids]
                rfl
  · simp [hg] at h

/-- Claim C13. When every refresh token row carrying the requested value is
revoked, or expired (`ExpiresAt < now`), or belongs to another client, which
covers the case that no row carries the value, `RefreshAccessToken` returns an
error and the store is exactly the one before the call, so nothing is revoked
and no token is minted. For a request with the right grant type the error is
one of the three messages the handler reports as invalid_grant. -/
theorem refresh_rejects_bad_token (s : Store) (env : RefreshEnv) (req : TokenRequest)
    (hbad : ∀ t ∈ s.refreshTokens, t.Token = req.RefreshToken →
      t.Revoked = true ∨ t.ExpiresAt < env.now ∨ t.ClientID ≠ req.ClientID) :
    (∃ e, (RefreshAccessToken s env req).1 = .error e
        ∧ (req.GrantType = "refresh_token" →
            e ∈ ["invalid refresh token", "refresh token expired", "client_id mismatch"]))
      ∧ (RefreshAccessToken s env req).2 = s := by
  unfold RefreshAccessToken
  by_cases hg : req.GrantType = "refresh_token"
  · simp only [hg, ne_eq, not_true_eq_false, if_false]
    cases hf : s.refreshTokens.find?
        (fun t => t.DeletedAt.isNone && t.Token == req.RefreshToken && !t.Revoked) with
    | none => exact ⟨⟨_, rfl, fun _ => by simp⟩, rfl⟩
    | some rt =>
      obtain ⟨hm, -, htok, hrev⟩ := find_refresh_some hf
      simp only
      by_cases h1 : After env.now rt.ExpiresAt = true
      · rw [if_pos h1]
        exact ⟨⟨_, rfl, fun _ => by simp⟩, rfl⟩
      · rw [if_neg h1]
        have h2 : rt.ClientID ≠ req.ClientID := by
          rcases hbad rt hm htok with h | h | h
          · rw [hrev] at h
            exact absurd h (by decide)
          · exact absurd (by simpa [After] using h) h1
          · exact h
        rw [if_pos h2]
        exact ⟨⟨_, rfl, fun _ => by simp⟩, rfl⟩
  · rw [if_pos hg]
    exact ⟨⟨_, rfl, fun h => absurd h hg⟩, rfl⟩

/-- Claim C14. When `RefreshAccessToken` succeeds, with `rt` the refresh token
row found and `old` the access token it pointed at: the response repeats the
refresh token value of the request, has token type Bearer, `ExpiresIn = 3600`
and the scopes of `old`; the access token table is the old one with `old`
marked revoked, followed by exactly one new row with the scopes of `old`, the
user and client of `rt`, an unused token value and an expiry one hour after the
clock reading taken for it; the refresh token table is the old one with the
row `rt` pointing at the new access token; codes, clients and users are
unchanged. -/
theorem refresh_success_effect (s s1 : Store) (env : RefreshEnv) (req : TokenRequest)
    (resp : TokenResponse) (h : RefreshAccessToken s env req = (.ok resp, s1)) :
    ∃ rt old, rt ∈ s.refreshTokens ∧ rt.Token = req.RefreshToken ∧ rt.Revoked = false
      ∧ rt.ClientID = req.ClientID
      ∧ old ∈ s.accessTokens ∧ old.Token = rt.AccessToken
      ∧ resp = { AccessToken := env.accessToken, TokenType := "Bearer", ExpiresIn := 3600,
                 RefreshToken := req.RefreshToken, Scope := old.Scopes }
      ∧ s1.accessTokens = s.accessTokens.map (fun t =>
            if t.ID = old.ID ∧ t.DeletedAt.isNone then { t with Revoked := true } else t) ++
          [{ ID := nextID (s.accessTokens.map (·.ID)), Token := env.accessToken,
             ClientID := rt.ClientID, UserID := rt.UserID, Scopes := old.Scopes,
             ExpiresAt := env.nowAccess + 1 * Hour, Revoked := false }]
      ∧ { old with Revoked := true } ∈ s1.accessTokens
      ∧ (∀ t ∈ s.accessTokens, t.Token ≠ env.accessToken)
      ∧ s1.refreshTokens = s.refreshTokens.map (fun t =>
            if t.ID = rt.ID ∧ t.DeletedAt.isNone then { t with AccessToken := env.accessToken }
            else t)
      ∧ { rt with AccessToken := env.accessToken } ∈ s1.refreshTokens
      ∧ s1.codes = s.codes ∧ s1.apps = s.apps ∧ s1.users = s.users := by
  obtain ⟨-, rt, old, hf, -, hcid, hfo, hfresh, hresp, hs⟩ := refresh_ok_inv h
  obtain ⟨hrm, hrlive, hrtok, hrrev⟩ := find_refresh_some hf
  obtain ⟨hom, holive, hotok⟩ := find_associated_some hfo
  refine ⟨rt, old, hrm, hrtok, hrrev, hcid, hom, hotok, hresp, ?_, ?_, hfresh, ?_, ?_, ?_, ?_, ?_⟩
  · rw [hs, hcid]
    rfl
  · rw [hs]
    simp only [revokeAccessToken, List.mem_append, List.mem_map]
    exact Or.inl ⟨old, hom, by simp [holive]⟩
  · rw [hs]
    rfl
  · rw [hs]
    simp only [repointRefreshToken, List.mem_map]
    exact ⟨rt, hrm, by simp [hrlive]⟩
  · rw [hs]
  · rw [hs]
  · rw [hs]

/-! ## `ValidateAccessToken` -/

theorem find_access_iff {s : Store} (hu : s.accessTokensUnique) (token : String)
    (t : OAuthAccessToken) :
    s.accessTokens.find? (fun t => t.DeletedAt.isNone && t.Token == token && !t.Revoked) = some t
      ↔ t ∈ s.accessTokens ∧ t.DeletedAt = none ∧ t.Token = token ∧ t.Revoked = false := by
  constructor
  · intro h
    have hp := List.find?_some h
    simp only [Bool.and_eq_true, Option.isNone_iff_eq_none, beq_iff_eq,
      Bool.not_eq_true'] at hp
    exact ⟨List.mem_of_find?_eq_some h, hp.1.1, hp.1.2, hp.2⟩
  · rintro ⟨hm, hlive, htok, hrev⟩
    cases h : s.accessTokens.find?
        (fun t => t.DeletedAt.isNone && t.Token == token && !t.Revoked) with
    | none =>
      rw [List.find?_eq_none] at h
      exact absurd (by simp [hlive, htok, hrev]) (h t hm)
    | some b =>
      have hp := List.find?_some h
      have hb := List.mem_of_find?_eq_some h
      simp only [Bool.and_eq_true, Option.isNone_iff_eq_none, beq_iff_eq,
        Bool.not_eq_true'] at hp
      exact congrArg some (List.inj_on_of_nodup_map hu hb hm (hp.1.2.trans htok.symm))

/-- The result of `ValidateAccessToken` in terms of the token row and of the
preload of its user, with unique token values in the access token table. -/
theorem validateAccessToken_preload (s : Store) (now : Nat) (token : String)
    (hu : s.accessTokensUnique) :
    (∀ user scopes, (ValidateAccessToken s now token).1 = .ok (user, scopes)
        ↔ ∃ t ∈ s.accessTokens, t.DeletedAt = none ∧ t.Token = token ∧ t.Revoked = false
            ∧ ¬ t.ExpiresAt < now
            ∧ user = preloadUser s t.UserID ∧ scopes = stringsSplit t.Scopes)
      ∧ ((¬ ∃ t ∈ s.accessTokens, t.DeletedAt = none ∧ t.Token = token ∧ t.Revoked = false
            ∧ ¬ t.ExpiresAt < now)
          → ∃ e, (ValidateAccessToken s now token).1 = .error e
              ∧ (e = "invalid access token" ∨ e = "access token expired")) := by
  unfold ValidateAccessToken
  cases hf : s.accessTokens.find?
      (fun t => t.DeletedAt.isNone && t.Token == token && !t.Revoked) with
  | none =>
    refine ⟨fun user scopes => ⟨fun h => by simp at h, ?_⟩, fun _ => ⟨_, rfl, Or.inl rfl⟩⟩
    rintro ⟨t, hm, hlive, htok, hrev, -, -, -⟩
    have := (find_access_iff hu token t).mpr ⟨hm, hlive, htok, hrev⟩
    rw [hf] at this
    exact absurd this (by simp)
  | some found =>
    obtain ⟨hm, hlive, htok, hrev⟩ := (find_access_iff hu token found).mp hf
    have huniq : ∀ t ∈ s.accessTokens, t.DeletedAt = none → t.Token = token →
        t.Revoked = false → t = found := by
      intro t h1 h2 h3 h4
      have := (find_access_iff hu token t).mpr ⟨h1, h2, h3, h4⟩
      rw [hf] at this
      exact (Option.some.inj this).symm
    simp only
    by_cases hexp : found.ExpiresAt < now
    · have hafter : After now found.ExpiresAt = true := by simp [After, hexp]
      rw [if_pos hafter]
      refine ⟨fun user scopes => ⟨fun h => by simp at h, ?_⟩, fun _ => ⟨_, rfl, Or.inr rfl⟩⟩
      rintro ⟨t, h1, h2, h3, h4, h5, -, -⟩
      rw [huniq t h1 h2 h3 h4] at h5
      exact absurd hexp h5
    · have hafter : ¬ After now found.ExpiresAt = true := by simp [After, hexp]
      rw [if_neg hafter]
      refine ⟨fun user scopes => ⟨fun h => ?_, ?_⟩, fun hnone => ?_⟩
      · have hpair := Except.ok.inj h
        have h1 := congrArg Prod.fst hpair
        have h2 := congrArg Prod.snd hpair
        exact ⟨found, hm, hlive, htok, hrev, hexp, h1.symm, h2.symm⟩
      · rintro ⟨t, h1, h2, h3, h4, -, h6, h7⟩
        rw [huniq t h1 h2 h3 h4] at h6 h7
        rw [h6, h7]
      · exact absurd ⟨found, hm, hlive, htok, hrev, hexp⟩ hnone

/-- The user `Preload("User")` loads, in terms of the user table whose primary
keys are unique: the undeleted row whose primary key is the foreign key, or the
zero value of `database.User` when the table has no such row. -/
theorem preloadUser_iff {s : Store} (hk : s.userIDsUnique) (userID : Nat) (user : User) :
    user = preloadUser s userID
      ↔ (user ∈ s.users ∧ user.DeletedAt = none ∧ user.ID = userID)
        ∨ ((∀ u ∈ s.users, u.DeletedAt = none → u.ID ≠ userID)
            ∧ user = { ID := 0, DeletedAt := none, Username := "", Email := "",
                       PasswordHash := "", Role := "" }) := by
  unfold preloadUser
  cases hf : s.users.find? (fun u => u.DeletedAt.isNone && u.ID == userID) with
  | none =>
    rw [List.find?_eq_none] at hf
    have hnone : ∀ u ∈ s.users, u.DeletedAt = none → u.ID ≠ userID := by
      intro u hu hlive hid
      exact hf u hu (by simp [hlive, hid])
    constructor
    · intro h
      exact Or.inr ⟨hnone, h⟩
    · rintro (⟨hm, hlive, hid⟩ | ⟨-, h⟩)
      · exact absurd hid (hnone user hm hlive)
      · exact h
  | some found =>
    have hp := List.find?_some hf
    have hm := List.mem_of_find?_eq_some hf
    simp only [Bool.and_eq_true, Option.isNone_iff_eq_none, beq_iff_eq] at hp
    simp only [Option.getD_some]
    constructor
    · intro h
      rw [h]
      exact Or.inl ⟨hm, hp.1, hp.2⟩
    · rintro (⟨hum, -, hid⟩ | ⟨hnone, -⟩)
      · exact List.inj_on_of_nodup_map hk hum hm (hid.trans hp.2.symm)
      · exact absurd hp.2 (hnone found hm hp.1)

/-- Claim C17. With unique token values in the access token table and unique
primary keys in the user table, `ValidateAccessToken` returns `(user, scopes)`
exactly when a visible row of the access token table has that value, is not
revoked and has an expiry that is not before `now`, `scopes` being the stored
scopes of that row split on single spaces and `user` the user of that row: the
undeleted row of the user table whose primary key is the `UserID` of the token
row, or the zero value of `database.User` when the user table has no such row.
When no such token row exists the call returns an error, with one of the two
messages the handler reports as invalid_token. -/
theorem validateAccessToken_spec (s : Store) (now : Nat) (token : String)
    (hu : s.accessTokensUnique) (hk : s.userIDsUnique) :
    (∀ user scopes, (ValidateAccessToken s now token).1 = .ok (user, scopes)
        ↔ ∃ t ∈ s.accessTokens, t.DeletedAt = none ∧ t.Token = token ∧ t.Revoked = false
            ∧ ¬ t.ExpiresAt < now
            ∧ scopes = stringsSplit t.Scopes
            ∧ ((user ∈ s.users ∧ user.DeletedAt = none ∧ user.ID = t.UserID)
                ∨ ((∀ u ∈ s.users, u.DeletedAt = none → u.ID ≠ t.UserID)
                    ∧ user = { ID := 0, DeletedAt := none, Username := "", Email := "",
                               PasswordHash := "", Role := "" })))
      ∧ ((¬ ∃ t ∈ s.accessTokens, t.DeletedAt = none ∧ t.Token = token ∧ t.Revoked = false
            ∧ ¬ t.ExpiresAt < now)
          → ∃ e, (ValidateAccessToken s now token).1 = .error e
              ∧ (e = "invalid access token" ∨ e = "access token expired")) := by
  obtain ⟨h1, h2⟩ := validateAccessToken_preload s now token hu
  refine ⟨fun user scopes => ?_, h2⟩
  rw [h1 user scopes]
  constructor
  · rintro ⟨t, hm, hlive, htok, hrev, hexp, huser, hscopes⟩
    exact ⟨t, hm, hlive, htok, hrev, hexp, hscopes, (preloadUser_iff hk t.UserID user).mp huser⟩
  · rintro ⟨t, hm, hlive, htok, hrev, hexp, hscopes, huser⟩
    exact ⟨t, hm, hlive, htok, hrev, hexp, (preloadUser_iff hk t.UserID user).mpr huser, hscopes⟩

/-- Claim C18. The store after `ValidateAccessToken` is the store before it, for
every store, time and token value, whatever the outcome. -/
theorem validateAccessToken_no_side_effect (s : Store) (now : Nat) (token : String) :
    (ValidateAccessToken s now token).2 = s := by
  unfold ValidateAccessToken
  split
  · rfl
  · split <;> rfl

/-! ## Exchange, then refresh, then validation -/

/-- Everything a successful exchange read and wrote, with the freshness of the
token values its inserts required. -/
theorem exchange_ok_full {s s1 : Store} {env : ExchangeEnv} {req : TokenRequest}
    {resp : TokenResponse} (h : ExchangeCodeForToken s env req = (.ok resp, s1)) :
    ∃ a, findAuthorizationCode s req.Code = some a
      ∧ a.ClientID = req.ClientID
      ∧ resp = exchangeResponse env a
      ∧ (∀ t ∈ s.accessTokens, t.Token ≠ env.accessToken)
      ∧ (∀ t ∈ s.refreshTokens, t.Token ≠ env.refreshToken)
      ∧ s1 = { s with
          codes := (markCodeUsed s a).codes
          accessTokens := s.accessTokens ++
            [{ ID := nextID (s.accessTokens.map (·.ID)), Token := env.accessToken,
               ClientID := req.ClientID, UserID := a.UserID, Scopes := a.Scopes,
               ExpiresAt := env.nowAccess + 1 * Hour }]
          refreshTokens := s.refreshTokens ++
            [{ ID := nextID (s.refreshTokens.map (·.ID)), Token := env.refreshToken,
               ClientID := req.ClientID, UserID := a.UserID, AccessToken := env.accessToken,
               ExpiresAt := env.nowRefresh + 24 * 30 * Hour }] } := by
  unfold ExchangeCodeForToken at h
  have hok : (ExchangeCodeForTokenWith validatePKCE s env req).1 = .ok resp := by rw [h]
  obtain ⟨-, a, hf, hc, -, heq⟩ := exchange_ok_inv hok
  rw [heq] at h
  obtain ⟨hresp, hf1, hf2, hs⟩ := issueTokens_ok_inv h
  exact ⟨a, hf, (check_ok_inv hc).2.1, hresp, hf1, hf2, hs⟩

theorem find_append_last {α : Type} (p : α → Bool) (l : List α) (x : α)
    (hl : ∀ y ∈ l, p y = false) (hx : p x = true) : (l ++ [x]).find? p = some x := by
  rw [List.find?_append]
  have hnone : l.find? p = none := by
    rw [List.find?_eq_none]
    intro y hy
    simp [hl y hy]
  rw [hnone]
  simp [hx]

theorem find_append_none {α : Type} (p : α → Bool) (l : List α) (x : α)
    (hl : ∀ y ∈ l, p y = false) (hx : p x = false) : (l ++ [x]).find? p = none := by
  rw [List.find?_eq_none]
  intro y hy
  rcases List.mem_append.mp hy with h | h
  · simp [hl y h]
  · rw [List.mem_singleton] at h
    simp [h, hx]

theorem preloadUser_users {s t : Store} (h : t.users = s.users) (userID : Nat) :
    preloadUser t userID = preloadUser s userID := by
  unfold preloadUser
  rw [h]

/-- Claim C15. After a successful exchange (answer A1, R1) and a following
successful refresh with R1 (answer A2): A2 differs from A1, the refresh token
value returned is again R1, `ValidateAccessToken` of A1 fails at every time
with the message for a token that is not found or revoked, and, until A2
expires, `ValidateAccessToken` of A2 succeeds with the same user and scopes
that the validation of A1 returned between the two calls. -/
theorem refresh_rotates_access_token (s s1 s2 : Store) (env : ExchangeEnv) (req : TokenRequest)
    (resp : TokenResponse) (renv : RefreshEnv) (rreq : TokenRequest) (resp2 : TokenResponse)
    (h1 : ExchangeCodeForToken s env req = (.ok resp, s1))
    (hr : rreq.RefreshToken = resp.RefreshToken)
    (h2 : RefreshAccessToken s1 renv rreq = (.ok resp2, s2)) :
    resp2.AccessToken ≠ resp.AccessToken
      ∧ resp2.RefreshToken = resp.RefreshToken
      ∧ (∀ now, ValidateAccessToken s2 now resp.AccessToken
          = (.error "invalid access token", s2))
      ∧ ∃ a, findAuthorizationCode s req.Code = some a
          ∧ resp2.Scope = resp.Scope
          ∧ (∀ now, ¬ env.nowAccess + 1 * Hour < now →
              ValidateAccessToken s1 now resp.AccessToken
                = (.ok (preloadUser s a.UserID, stringsSplit a.Scopes), s1))
          ∧ (∀ now, ¬ renv.nowAccess + 1 * Hour < now →
              ValidateAccessToken s2 now resp2.AccessToken
                = (.ok (preloadUser s a.UserID, stringsSplit a.Scopes), s2)) := by
  obtain ⟨a, hfa, -, hresp, hfreshA, hfreshR, hs1⟩ := exchange_ok_full h1
  obtain ⟨-, rt, old, hfr, -, -, hfo, hfresh2, hresp2, hs2⟩ := refresh_ok_inv h2
  obtain ⟨hrm, hrlive, hrtok, -⟩ := find_refresh_some hfr
  obtain ⟨hom, holive, hotok⟩ := find_associated_some hfo
  have hA1 : resp.AccessToken = env.accessToken := by rw [hresp]; rfl
  have hR1 : resp.RefreshToken = env.refreshToken := by rw [hresp]; rfl
  have hA2 : resp2.AccessToken = renv.accessToken := by rw [hresp2]
  -- the refresh token found is the one the exchange wrote
  have hrt : rt =
      { ID := nextID (s.refreshTokens.map (·.ID)), Token := env.refreshToken,
        ClientID := req.ClientID, UserID := a.UserID, AccessToken := env.accessToken,
        ExpiresAt := env.nowRefresh + 24 * 30 * Hour } := by
    rw [hs1] at hrm
    rcases List.mem_append.mp hrm with h | h
    · exact absurd (hrtok.trans (hr.trans hR1)) (hfreshR rt h)
    · exact List.mem_singleton.mp h
  have hrtA : rt.AccessToken = env.accessToken := by rw [hrt]
  have hrtU : rt.UserID = a.UserID := by rw [hrt]
  -- the access token found is the one the exchange wrote
  have hold : old =
      { ID := nextID (s.accessTokens.map (·.ID)), Token := env.accessToken,
        ClientID := req.ClientID, UserID := a.UserID, Scopes := a.Scopes,
        ExpiresAt := env.nowAccess + 1 * Hour } := by
    rw [hs1] at hom
    rcases List.mem_append.mp hom with h | h
    · exact absurd (hotok.trans hrtA) (hfreshA old h)
    · exact List.mem_singleton.mp h
  have holdS : old.Scopes = a.Scopes := by rw [hold]
  have hne : renv.accessToken ≠ env.accessToken := by
    intro heq
    exact hfresh2 old hom ((hotok.trans hrtA).trans heq.symm)
  have hs1acc : s1.accessTokens = s.accessTokens ++ [old] := by rw [hs1, hold]
  have hs1users : s1.users = s.users := by rw [hs1]
  have hs2users : s2.users = s.users := by rw [hs2, hs1]
  have hs2acc : s2.accessTokens = (revokeAccessToken s1 old).accessTokens ++
      [{ ID := nextID (s1.accessTokens.map (·.ID)), Token := renv.accessToken,
         ClientID := rreq.ClientID, UserID := rt.UserID, Scopes := old.Scopes,
         ExpiresAt := renv.nowAccess + 1 * Hour }] := by
    rw [hs2]
  refine ⟨?_, ?_, ?_, a, hfa, ?_, ?_, ?_⟩
  · rw [hA1, hA2]
    exact hne
  · rw [hresp2]
    exact hr
  · intro now
    unfold ValidateAccessToken
    rw [hs2acc, hA1]
    rw [find_append_none]
    · intro y hy
      simp only [revokeAccessToken, List.mem_map] at hy
      obtain ⟨t, ht, rfl⟩ := hy
      rw [hs1acc] at ht
      rcases List.mem_append.mp ht with h | h
      · have hfr := hfreshA t h
        split_ifs <;> simp [hfr]
      · rw [List.mem_singleton] at h
        subst h
        simp [holive]
    · simp [hne]
  · rw [hresp2, hresp, holdS]
    rfl
  · intro now hnow
    have hfind : s1.accessTokens.find?
        (fun t => t.DeletedAt.isNone && t.Token == env.accessToken && !t.Revoked) = some old := by
      rw [hs1acc]
      apply find_append_last
      · intro y hy
        simp [hfreshA y hy]
      · rw [hold]
        simp
    have hexp : old.ExpiresAt = env.nowAccess + 1 * Hour := by rw [hold]
    have hafter : ¬ After now old.ExpiresAt = true := by
      rw [hexp]
      simpa [After] using hnow
    have holdU : old.UserID = a.UserID := by rw [hold]
    unfold ValidateAccessToken
    rw [hA1, hfind]
    simp only
    rw [if_neg hafter, preloadUser_users hs1users, holdS, holdU]
  · intro now hnow
    have hfind : s2.accessTokens.find?
        (fun t => t.DeletedAt.isNone && t.Token == renv.accessToken && !t.Revoked)
        = some { ID := nextID (s1.accessTokens.map (·.ID)), Token := renv.accessToken,
                 ClientID := rreq.ClientID, UserID := rt.UserID, Scopes := old.Scopes,
                 ExpiresAt := renv.nowAccess + 1 * Hour } := by
      rw [hs2acc]
      apply find_append_last
      · intro y hy
        simp only [revokeAccessToken, List.mem_map] at hy
        obtain ⟨t, ht, rfl⟩ := hy
        have hfr := hfresh2 t ht
        split_ifs <;> simp [hfr]
      · simp
    have hafter : ¬ After now (renv.nowAccess + 1 * Hour) = true := by
      simpa [After] using hnow
    unfold ValidateAccessToken
    rw [hA2, hfind]
    simp only
    rw [if_neg hafter, preloadUser_users hs2users, hrtU, holdS]

/-! ## `DeleteApplication` -/

/-- The store the cascade leaves when no statement fails. -/
theorem deleteCascade_no_fault (env : DeleteEnv) (app : OAuthApplication) (tx : Store)
    (h : env.fault = none) :
    deleteCascade env app tx
      = .ok (deleteApp (deleteRefreshTokensOf (deleteAccessTokensOf
          (deleteCodesOf tx app.ClientID env.nowCodes) app.ClientID env.nowAccess)
          app.ClientID env.nowRefresh) app env.nowApp) := by
  unfold deleteCascade DeleteEnv.failure
  simp only [h]

/-- A storage fault makes the cascade return its error. -/
theorem deleteCascade_fault (env : DeleteEnv) (app : OAuthApplication) (tx : Store)
    (f : StorageFault) (h : env.fault = some f) :
    deleteCascade env app tx = .error f.message := by
  unfold deleteCascade DeleteEnv.failure
  simp only [h]
  cases hstep : f.step <;> simp

theorem find_map_none_of_unique {α : Type} (rows : List α) (key : α → String) (f : α → α)
    (p : α → Bool) (c : α) (hu : (rows.map key).Nodup) (hc : c ∈ rows)
    (hkey : ∀ x, key (f x) = key x) (hp : ∀ x, p x = true → key x = key c)
    (hfc : p (f c) = false) : (rows.map f).find? p = none := by
  rw [List.find?_eq_none]
  intro x hx hpx
  obtain ⟨y, hy, rfl⟩ := List.mem_map.mp hx
  have hk : key y = key c := (hkey y).symm.trans (hp _ hpx)
  have hyc : y = c := List.inj_on_of_nodup_map hu hy hc hk
  rw [hyc, hfc] at hpx
  exact absurd hpx (by decide)

theorem refresh_of_find_none {s : Store} {env : RefreshEnv} {req : TokenRequest}
    (hf : s.refreshTokens.find?
      (fun t => t.DeletedAt.isNone && t.Token == req.RefreshToken && !t.Revoked) = none) :
    ∃ e, RefreshAccessToken s env req = (.error e, s) := by
  unfold RefreshAccessToken
  by_cases hg : req.GrantType = "refresh_token"
  · simp only [hg, ne_eq, not_true_eq_false, if_false, hf]
    exact ⟨_, rfl⟩
  · rw [if_pos hg]
    exact ⟨_, rfl⟩

theorem validate_of_find_none {s : Store} {now : Nat} {token : String}
    (hf : s.accessTokens.find?
      (fun t => t.DeletedAt.isNone && t.Token == token && !t.Revoked) = none) :
    ValidateAccessToken s now token = (.error "invalid access token", s) := by
  unfold ValidateAccessToken
  rw [hf]

/-- Claim C19. `DeleteApplication` is all or nothing. An error of any kind
leaves the store exactly as it was; a storage fault at any step of the cascade
(codes, access tokens, refresh tokens, client, commit) gives such an error;
without a fault the deletion of a visible client succeeds. After a success the
client and every code, access token and refresh token with its client id carry
a deletion stamp, so that no query sees them: a later exchange of such a code,
refresh with such a refresh token or validation of such an access token fails
and changes nothing (the values of the respective table being unique). -/
theorem deleteApplication_atomic (s : Store) (env : DeleteEnv) (appID : Nat) :
    (∀ e, (DeleteApplication s env appID).1 = .error e → (DeleteApplication s env appID).2 = s)
    ∧ (∀ f, env.fault = some f → ∃ e, DeleteApplication s env appID = (.error e, s))
    ∧ (env.fault = none → ∀ app ∈ s.apps, app.ID = appID → app.DeletedAt = none →
        (DeleteApplication s env appID).1 = .ok ())
    ∧ (∀ s1, DeleteApplication s env appID = (.ok (), s1) →
        ∃ app ∈ s.apps, app.ID = appID ∧ app.DeletedAt = none
          ∧ (∀ a ∈ s1.apps, a.ID = appID → a.DeletedAt ≠ none)
          ∧ (∀ c ∈ s1.codes, c.ClientID = app.ClientID → c.DeletedAt ≠ none)
          ∧ (∀ t ∈ s1.accessTokens, t.ClientID = app.ClientID → t.DeletedAt ≠ none)
          ∧ (∀ t ∈ s1.refreshTokens, t.ClientID = app.ClientID → t.DeletedAt ≠ none)
          ∧ (∀ c ∈ s.codes, c.ClientID = app.ClientID → s.codesUnique →
              ∀ (xenv : ExchangeEnv) (req : TokenRequest), req.Code = c.Code →
                ∃ e, ExchangeCodeForToken s1 xenv req = (.error e, s1))
          ∧ (∀ t ∈ s.refreshTokens, t.ClientID = app.ClientID → s.refreshTokensUnique →
              ∀ (renv : RefreshEnv) (req : TokenRequest), req.RefreshToken = t.Token →
                ∃ e, RefreshAccessToken s1 renv req = (.error e, s1))
          ∧ (∀ t ∈ s.accessTokens, t.ClientID = app.ClientID → s.accessTokensUnique →
              ∀ now, ∃ e, ValidateAccessToken s1 now t.Token = (.error e, s1))) := by
  refine ⟨?_, ?_, ?_, ?_⟩
  · intro e he
    unfold DeleteApplication at he ⊢
    split
    · rfl
    · next app hf =>
      rw [hf] at he
      simp only at he
      split
      · rfl
      · next tx hc =>
        rw [hc] at he
        simp at he
  · intro f hf
    unfold DeleteApplication
    split
    · exact ⟨_, rfl⟩
    · next app _ =>
      rw [deleteCascade_fault env app s f hf]
      exact ⟨_, rfl⟩
  · intro hnf app hm hid hlive
    unfold DeleteApplication
    cases hf : s.apps.find? (fun a => a.DeletedAt.isNone && a.ID == appID) with
    | none =>
      rw [List.find?_eq_none] at hf
      exact absurd (by simp [hlive, hid]) (hf app hm)
    | some found =>
      simp only
      rw [deleteCascade_no_fault env found s hnf]
  · intro s1 h
    unfold DeleteApplication at h
    cases hf : s.apps.find? (fun a => a.DeletedAt.isNone && a.ID == appID) with
    | none =>
      rw [hf] at h
      simp at h
    | some app =>
      rw [hf] at h
      simp only at h
      have hp := List.find?_some hf
      have hm := List.mem_of_find?_eq_some hf
      simp only [Bool.and_eq_true, Option.isNone_iff_eq_none, beq_iff_eq] at hp
      cases hfault : env.fault with
      | some f =>
        rw [deleteCascade_fault env app s f hfault] at h
        simp at h
      | none =>
        rw [deleteCascade_no_fault env app s hfault] at h
        simp only [Prod.mk.injEq, true_and] at h
        subst h
        refine ⟨app, hm, hp.2, hp.1, ?_, ?_, ?_, ?_, ?_, ?_, ?_⟩
        · intro a ha hid
          simp only [deleteApp, deleteRefreshTokensOf, deleteAccessTokensOf, deleteCodesOf,
            List.mem_map] at ha
          obtain ⟨b, -, rfl⟩ := ha
          by_cases hb : b.ID = app.ID ∧ b.DeletedAt.isNone = true
          · rw [if_pos hb]
            simp
          · rw [if_neg hb] at hid ⊢
            intro hnone
            exact hb ⟨hid.trans hp.2.symm, by simp [hnone]⟩
        · intro c hc hcid
          simp only [deleteApp, deleteRefreshTokensOf, deleteAccessTokensOf, deleteCodesOf,
            List.mem_map] at hc
          obtain ⟨b, -, rfl⟩ := hc
          by_cases hb : b.ClientID = app.ClientID ∧ b.DeletedAt.isNone = true
          · rw [if_pos hb]
            simp
          · rw [if_neg hb] at hcid ⊢
            intro hnone
            exact hb ⟨hcid, by simp [hnone]⟩
        · intro c hc hcid
          simp only [deleteApp, deleteRefreshTokensOf, deleteAccessTokensOf, deleteCodesOf,
            List.mem_map] at hc
          obtain ⟨b, -, rfl⟩ := hc
          by_cases hb : b.ClientID = app.ClientID ∧ b.DeletedAt.isNone = true
          · rw [if_pos hb]
            simp
          · rw [if_neg hb] at hcid ⊢
            intro hnone
            exact hb ⟨hcid, by simp [hnone]⟩
        · intro c hc hcid
          simp only [deleteApp, deleteRefreshTokensOf, deleteAccessTokensOf, deleteCodesOf,
            List.mem_map] at hc
          obtain ⟨b, -, rfl⟩ := hc
          by_cases hb : b.ClientID = app.ClientID ∧ b.DeletedAt.isNone = true
          · rw [if_pos hb]
            simp
          · rw [if_neg hb] at hcid ⊢
            intro hnone
            exact hb ⟨hcid, by simp [hnone]⟩
        · intro c hc hcid hu xenv req hcode
          unfold ExchangeCodeForToken
          have hnone : findAuthorizationCode
              (deleteApp (deleteRefreshTokensOf (deleteAccessTokensOf
                (deleteCodesOf s app.ClientID env.nowCodes) app.ClientID env.nowAccess)
                app.ClientID env.nowRefresh) app env.nowApp) req.Code = none := by
            unfold findAuthorizationCode
            simp only [deleteApp, deleteRefreshTokensOf, deleteAccessTokensOf, deleteCodesOf]
            apply find_map_none_of_unique s.codes (·.Code) _ _ c hu hc
            · intro x
              split_ifs <;> rfl
            · intro x hx
              simp only [Bool.and_eq_true, beq_iff_eq] at hx
              exact hx.1.2.trans hcode
            · by_cases hl : c.DeletedAt.isNone = true
              · simp [hcid, hl]
              · simp [hl]
          obtain ⟨⟨e, he, -⟩, hst⟩ :=
            @exchange_error_of_find_none validatePKCE _ xenv req hnone
          exact ⟨e, Prod.ext he hst⟩
        · intro t ht hcid hu renv req htok
          apply refresh_of_find_none
          simp only [deleteApp, deleteRefreshTokensOf, deleteAccessTokensOf, deleteCodesOf]
          apply find_map_none_of_unique s.refreshTokens (·.Token) _ _ t hu ht
          · intro x
            split_ifs <;> rfl
          · intro x hx
            simp only [Bool.and_eq_true, beq_iff_eq] at hx
            exact hx.1.2.trans htok
          · by_cases hl : t.DeletedAt.isNone = true
            · simp [hcid, hl]
            · simp [hl]
        · intro t ht hcid hu now
          refine ⟨_, validate_of_find_none ?_⟩
          simp only [deleteApp, deleteRefreshTokensOf, deleteAccessTokensOf, deleteCodesOf]
          apply find_map_none_of_unique s.accessTokens (·.Token) _ _ t hu ht
          · intro x
            split_ifs <;> rfl
          · intro x hx
            simp only [Bool.and_eq_true, beq_iff_eq] at hx
            exact hx.1.2
          · by_cases hl : t.DeletedAt.isNone = true
            · simp [hcid, hl]
            · simp [hl]

/-! ## `CreateApplicationWithCustomCredentials` -/

/-- The two cases the pre-check of the client id tells apart. A client with
the supplied id that the query sees gives the conflict error and leaves the
store as it was; when no row of the table carries the id and the redirect
URIs encode, one new active client with the supplied id and secret is stored. -/
theorem createCustom_cases (jsonMarshal : List String → Except String String) (s : Store)
    (adminUserID : Nat) (req : InternalApplicationCreateRequest) :
    ((∃ a ∈ s.apps, a.DeletedAt = none ∧ a.ClientID = req.ClientID) →
        CreateApplicationWithCustomCredentials jsonMarshal s adminUserID req
          = (.error "client_id already exists", s))
    ∧ ((∀ a ∈ s.apps, a.ClientID ≠ req.ClientID) →
        ∀ text, jsonMarshal req.RedirectURIs = .ok text →
        ∃ resp, CreateApplicationWithCustomCredentials jsonMarshal s adminUserID req
          = (.ok resp, { s with apps := s.apps ++
              [{ ID := nextID (s.apps.map (·.ID)), Name := req.Name,
                 Description := req.Description, Website := req.Website,
                 ClientID := req.ClientID, ClientSecret := req.ClientSecret,
                 RedirectURIs := text,
                 Scopes := stringsJoin (if req.Scopes.length = 0 then ["read"] else req.Scopes),
                 CreatedByID := adminUserID, Trusted := req.Trusted, Active := true }] })
          ∧ resp.ClientID = req.ClientID ∧ resp.ClientSecret = req.ClientSecret
          ∧ resp.Active = true) := by
  constructor
  · rintro ⟨a, hm, hlive, hid⟩
    unfold CreateApplicationWithCustomCredentials
    cases hf : s.apps.find? (fun a => a.DeletedAt.isNone && a.ClientID == req.ClientID) with
    | none =>
      rw [List.find?_eq_none] at hf
      exact absurd (by simp [hlive, hid]) (hf a hm)
    | some b => rfl
  · intro hnone text hj
    unfold CreateApplicationWithCustomCredentials
    have hf : s.apps.find? (fun a => a.DeletedAt.isNone && a.ClientID == req.ClientID)
        = none := by
      rw [List.find?_eq_none]
      intro x hx
      simp [hnone x hx]
    have hany : (s.apps.any fun a => a.ClientID == req.ClientID) = false := by
      rw [List.any_eq_false]
      intro x hx
      simpa using hnone x hx
    rw [hf]
    simp only [hj, hany, Bool.false_eq_true, if_false]
    exact ⟨_, rfl, rfl, rfl, rfl⟩

/-- Claim C20, the failing input. After `DeleteApplication` the client X is
still a row of the table, with a deletion stamp. Creating a client with the
client id X then fails, but not with the conflict error: the pre-check does not
see the deleted row and the insert breaks the unique index. On the store
before the deletion the same request gets the conflict error. -/
theorem createCustom_deleted_client_id_not_conflict :
    deletedStore.apps.map (fun a => (a.ClientID, a.DeletedAt)) = [("X", some 43)]
      ∧ CreateApplicationWithCustomCredentials sampleMarshal deletedStore 1
          sampleInternalRequest
        = (.error "failed to create OAuth application: UNIQUE constraint failed",
            deletedStore)
      ∧ CreateApplicationWithCustomCredentials sampleMarshal exchangedStore 1
          sampleInternalRequest
        = (.error "client_id already exists", exchangedStore) := by
  decide

/-! ## At most one live access token for a refresh token, in sequential runs -/

theorem le_foldl_max (ids : List Nat) (init : Nat) :
    init ≤ ids.foldl max init ∧ ∀ x ∈ ids, x ≤ ids.foldl max init := by
  induction ids generalizing init with
  | nil => simp
  | cons y rest ih =>
    rw [List.foldl_cons]
    obtain ⟨h1, h2⟩ := ih (max init y)
    refine ⟨le_trans (le_max_left _ _) h1, ?_⟩
    intro x hx
    rcases List.mem_cons.mp hx with h | h
    · rw [h]
      exact le_trans (le_max_right _ _) h1
    · exact h2 x h

/-- The key of an insert is not in use. -/
theorem nextID_not_mem (ids : List Nat) : nextID ids ∉ ids := by
  intro h
  have := (le_foldl_max ids 0).2 _ h
  unfold nextID at this
  omega

theorem tokenInv_init (minted : List (String × String)) (h : minted = []) :
    TokenInv [] [] minted := by
  subst h
  simp [TokenInv]

/-- The invariant is kept by the two inserts of a successful exchange. -/
theorem tokenInv_exchange {acc : List OAuthAccessToken} {rts : List OAuthRefreshToken}
    {minted : List (String × String)} (tA : OAuthAccessToken) (tR : OAuthRefreshToken)
    (hinv : TokenInv acc rts minted)
    (hfA : ∀ t ∈ acc, t.Token ≠ tA.Token) (hfR : ∀ t ∈ rts, t.Token ≠ tR.Token)
    (hid : tR.ID = nextID (rts.map (·.ID))) (hptr : tR.AccessToken = tA.Token) :
    TokenInv (acc ++ [tA]) (rts ++ [tR]) (minted ++ [(tA.Token, tR.Token)]) := by
  obtain ⟨h1, h2, h3, h4, h5⟩ := hinv
  have hAnot : tA.Token ∉ acc.map (·.Token) := by
    intro h
    obtain ⟨t, ht, heq⟩ := List.mem_map.mp h
    exact hfA t ht heq
  have hRnot : tR.Token ∉ rts.map (·.Token) := by
    intro h
    obtain ⟨t, ht, heq⟩ := List.mem_map.mp h
    exact hfR t ht heq
  refine ⟨?_, ?_, ?_, ?_, ?_⟩
  · rw [List.map_append, List.map_singleton]
    exact List.Nodup.append h1 (List.nodup_singleton _)
      (by simpa [List.Disjoint] using hAnot)
  · rw [List.map_append, List.map_singleton]
    exact List.Nodup.append h2 (List.nodup_singleton _)
      (by simpa [List.Disjoint] using hRnot)
  · rw [List.map_append, List.map_singleton, hid]
    exact List.Nodup.append h3 (List.nodup_singleton _)
      (by simpa [List.Disjoint] using nextID_not_mem (rts.map (·.ID)))
  · intro p hp
    rw [List.map_append, List.map_append]
    rcases List.mem_append.mp hp with h | h
    · exact ⟨List.mem_append_left _ (h4 p h).1, List.mem_append_left _ (h4 p h).2⟩
    · rw [List.mem_singleton] at h
      rw [h]
      exact ⟨List.mem_append_right _ (by simp), List.mem_append_right _ (by simp)⟩
  · intro r hr a ha hpair hlive
    rcases List.mem_append.mp hpair with hold | hnew
    · -- a pair recorded before names stored tokens, so neither is the new one
      have hmem := h4 _ hold
      have hr2 : r ∈ rts := by
        rcases List.mem_append.mp hr with h | h
        · exact h
        · rw [List.mem_singleton] at h
          rw [h] at hmem
          exact absurd hmem.2 hRnot
      have ha2 : a ∈ acc := by
        rcases List.mem_append.mp ha with h | h
        · exact h
        · rw [List.mem_singleton] at h
          rw [h] at hmem
          exact absurd hmem.1 hAnot
      exact h5 r hr2 a ha2 hold hlive
    · rw [List.mem_singleton] at hnew
      have hrtok : r.Token = tR.Token := (Prod.mk.inj hnew).2
      have hatok : a.Token = tA.Token := (Prod.mk.inj hnew).1
      have hr2 : r = tR := by
        rcases List.mem_append.mp hr with h | h
        · exact absurd hrtok (hfR r h)
        · exact List.mem_singleton.mp h
      rw [hr2, hptr, hatok]

/-- The invariant is kept by the revocation, the insert and the repointing of a
successful refresh. -/
theorem tokenInv_refresh {acc : List OAuthAccessToken} {rts : List OAuthRefreshToken}
    {minted : List (String × String)} (rt : OAuthRefreshToken) (old tA : OAuthAccessToken)
    (hinv : TokenInv acc rts minted)
    (hrt : rt ∈ rts) (hrlive : rt.DeletedAt = none)
    (hold : old ∈ acc) (holive : old.DeletedAt = none) (hotok : old.Token = rt.AccessToken)
    (hfA : ∀ t ∈ acc, t.Token ≠ tA.Token) :
    TokenInv
      (acc.map (fun t =>
          if t.ID = old.ID ∧ t.DeletedAt.isNone then { t with Revoked := true } else t) ++ [tA])
      (rts.map (fun t =>
          if t.ID = rt.ID ∧ t.DeletedAt.isNone then { t with AccessToken := tA.Token } else t))
      (minted ++ [(tA.Token, rt.Token)]) := by
  obtain ⟨h1, h2, h3, h4, h5⟩ := hinv
  have hAnot : tA.Token ∉ acc.map (·.Token) := by
    intro h
    obtain ⟨t, ht, heq⟩ := List.mem_map.mp h
    exact hfA t ht heq
  have hacctok : (acc.map (fun t =>
      if t.ID = old.ID ∧ t.DeletedAt.isNone then { t with Revoked := true } else t)).map
      (·.Token) = acc.map (·.Token) := by
    rw [List.map_map]
    apply List.map_congr_left
    intro t _
    simp only [Function.comp]
    split_ifs <;> rfl
  have hrtstok : (rts.map (fun t =>
      if t.ID = rt.ID ∧ t.DeletedAt.isNone then { t with AccessToken := tA.Token } else t)).map
      (·.Token) = rts.map (·.Token) := by
    rw [List.map_map]
    apply List.map_congr_left
    intro t _
    simp only [Function.comp]
    split_ifs <;> rfl
  have hrtsid : (rts.map (fun t =>
      if t.ID = rt.ID ∧ t.DeletedAt.isNone then { t with AccessToken := tA.Token } else t)).map
      (·.ID) = rts.map (·.ID) := by
    rw [List.map_map]
    apply List.map_congr_left
    intro t _
    simp only [Function.comp]
    split_ifs <;> rfl
  refine ⟨?_, ?_, ?_, ?_, ?_⟩
  · rw [List.map_append, List.map_singleton, hacctok]
    exact List.Nodup.append h1 (List.nodup_singleton _)
      (by simpa [List.Disjoint] using hAnot)
  · rw [hrtstok]
    exact h2
  · rw [hrtsid]
    exact h3
  · intro p hp
    rw [List.map_append, hacctok, hrtstok]
    rcases List.mem_append.mp hp with h | h
    · exact ⟨List.mem_append_left _ (h4 p h).1, (h4 p h).2⟩
    · rw [List.mem_singleton] at h
      rw [h]
      exact ⟨List.mem_append_right _ (by simp), List.mem_map_of_mem _ hrt⟩
  · intro r2 hr2 a2 ha2 hpair hlive
    obtain ⟨r, hr, rfl⟩ := List.mem_map.mp hr2
    have hr2tok : (if r.ID = rt.ID ∧ r.DeletedAt.isNone = true
        then { r with AccessToken := tA.Token } else r).Token = r.Token := by
      split_ifs <;> rfl
    rw [hr2tok] at hpair
    rcases List.mem_append.mp ha2 with ha | ha
    · -- an access token stored before
      obtain ⟨a, ham, rfl⟩ := List.mem_map.mp ha
      by_cases hrev : a.ID = old.ID ∧ a.DeletedAt.isNone = true
      · rw [if_pos hrev] at hlive
        exact absurd hlive (by simp)
      · rw [if_neg hrev] at hlive hpair ⊢
        have hpold : (a.Token, r.Token) ∈ minted := by
          rcases List.mem_append.mp hpair with h | h
          · exact h
          · rw [List.mem_singleton] at h
            exact absurd (Prod.mk.inj h).1 (hfA a ham)
        have hptr := h5 r hr a ham hpold hlive
        by_cases hrep : r.ID = rt.ID ∧ r.DeletedAt.isNone = true
        · exfalso
          have hrr : r = rt := List.inj_on_of_nodup_map h3 hr hrt hrep.1
          have hao : a = old := by
            apply List.inj_on_of_nodup_map h1 ham hold
            rw [hptr, hrr, hotok]
          apply hrev
          rw [hao]
          exact ⟨rfl, by simp [holive]⟩
        · rw [if_neg hrep]
          exact hptr
    · -- the access token the refresh minted
      rw [List.mem_singleton] at ha
      subst ha
      have hrr : r.Token = rt.Token := by
        rcases List.mem_append.mp hpair with h | h
        · exact absurd (h4 _ h).1 hAnot
        · rw [List.mem_singleton] at h
          exact (Prod.mk.inj h).2
      have hreq : r = rt := List.inj_on_of_nodup_map h2 hr hrt hrr
      rw [hreq, if_pos ⟨rfl, by simp [hrlive]⟩]

theorem createAuthorizationCode_tokens (s : Store) (code : String) (now userID : Nat)
    (app : OAuthApplication) (req : AuthorizeRequest) :
    (CreateAuthorizationCode s code now userID app req).2.accessTokens = s.accessTokens
      ∧ (CreateAuthorizationCode s code now userID app req).2.refreshTokens
          = s.refreshTokens := by
  unfold CreateAuthorizationCode
  simp only
  split_ifs
  · exact ⟨rfl, rfl⟩
  · exact ⟨rfl, rfl⟩

theorem createAccessToken_fresh {s : Store} {token : String} (clientID : String) (userID : Nat)
    (scopes : String) (expiresAt : Nat) (h : ∀ t ∈ s.accessTokens, t.Token ≠ token) :
    ∃ s2, createAccessToken s token clientID userID scopes expiresAt = some s2 := by
  unfold createAccessToken
  have hany : (s.accessTokens.any fun t => t.Token == token) = false := by
    rw [List.any_eq_false]
    intro t ht
    simpa using h t ht
  rw [hany]
  exact ⟨_, rfl⟩

theorem createRefreshToken_fresh {s : Store} {token : String} (clientID : String) (userID : Nat)
    (accessToken : String) (expiresAt : Nat) (h : ∀ t ∈ s.refreshTokens, t.Token ≠ token) :
    ∃ s2, createRefreshToken s token clientID userID accessToken expiresAt = some s2 := by
  unfold createRefreshToken
  have hany : (s.refreshTokens.any fun t => t.Token == token) = false := by
    rw [List.any_eq_false]
    intro t ht
    simpa using h t ht
  rw [hany]
  exact ⟨_, rfl⟩

/-- With new token values a failing exchange fails before its first write. -/
theorem exchange_fresh_error {s s1 : Store} {env : ExchangeEnv} {req : TokenRequest} {e : String}
    (hA : ∀ t ∈ s.accessTokens, t.Token ≠ env.accessToken)
    (hR : ∀ t ∈ s.refreshTokens, t.Token ≠ env.refreshToken)
    (h : ExchangeCodeForToken s env req = (.error e, s1)) : s1 = s := by
  unfold ExchangeCodeForToken ExchangeCodeForTokenWith at h
  split at h
  · exact (congrArg Prod.snd h).symm
  · split at h
    · exact (congrArg Prod.snd h).symm
    · next a _ =>
      split at h
      · exact (congrArg Prod.snd h).symm
      · split at h
        · exact (congrArg Prod.snd h).symm
        · exfalso
          unfold issueTokens at h
          simp only at h
          have hA1 : ∀ t ∈ (markCodeUsed s a).accessTokens, t.Token ≠ env.accessToken := hA
          obtain ⟨s2, h2⟩ := createAccessToken_fresh req.ClientID
            a.UserID a.Scopes (env.nowAccess + 1 * Hour) hA1
          rw [h2] at h
          simp only at h
          have hR2 : ∀ t ∈ s2.refreshTokens, t.Token ≠ env.refreshToken := by
            rw [(createAccessToken_some h2).2.2.1]
            exact hR
          obtain ⟨s3, h3⟩ := createRefreshToken_fresh req.ClientID a.UserID env.accessToken
            (env.nowRefresh + 24 * 30 * Hour) hR2
          rw [h3] at h
          simp at h

/-- With a new token value a failing refresh fails before its first write. -/
theorem refresh_fresh_error {s s1 : Store} {env : RefreshEnv} {req : TokenRequest} {e : String}
    (hA : ∀ t ∈ s.accessTokens, t.Token ≠ env.accessToken)
    (h : RefreshAccessToken s env req = (.error e, s1)) : s1 = s := by
  unfold RefreshAccessToken at h
  split at h
  · exact (congrArg Prod.snd h).symm
  · split at h
    · exact (congrArg Prod.snd h).symm
    · next rt _ =>
      split at h
      · exact (congrArg Prod.snd h).symm
      · split at h
        · exact (congrArg Prod.snd h).symm
        · split at h
          · exact (congrArg Prod.snd h).symm
          · next old _ =>
            exfalso
            have hA2 : ∀ t ∈ (revokeAccessToken s old).accessTokens,
                t.Token ≠ env.accessToken := by
              intro t ht
              have hm : t.Token ∈ (revokeAccessToken s old).accessTokens.map (·.Token) :=
                List.mem_map_of_mem _ ht
              rw [revoke_tokens] at hm
              obtain ⟨t2, ht2, heq⟩ := List.mem_map.mp hm
              rw [← heq]
              exact hA t2 ht2
            obtain ⟨s2, h2⟩ := createAccessToken_fresh req.ClientID rt.UserID old.Scopes
              (env.nowAccess + 1 * Hour) hA2
            simp only at h
            rw [h2] at h
            simp at h

/-- A call with new token values keeps the invariant of the token tables. -/
theorem tokenInv_step (t : Traced) (op : TokenOp)
    (hinv : TokenInv t.store.accessTokens t.store.refreshTokens t.minted)
    (hfresh : op.fresh t.store = true) :
    TokenInv (t.step op).store.accessTokens (t.step op).store.refreshTokens
      (t.step op).minted := by
  cases op with
  | issue code now userID app req =>
    simp only [Traced.step]
    rw [(createAuthorizationCode_tokens t.store code now userID app req).1,
      (createAuthorizationCode_tokens t.store code now userID app req).2]
    exact hinv
  | exchange env req =>
    simp only [TokenOp.fresh, Bool.and_eq_true, List.all_eq_true, bne_iff_ne, ne_eq] at hfresh
    obtain ⟨hA, hR⟩ := hfresh
    cases h : ExchangeCodeForToken t.store env req with
    | mk res s1 =>
      cases res with
      | error e =>
        have hs := exchange_fresh_error hA hR h
        simp only [Traced.step, h]
        rw [hs]
        exact hinv
      | ok resp =>
        obtain ⟨a, -, -, hresp, -, -, hs1⟩ := exchange_ok_full h
        simp only [Traced.step, h]
        rw [hs1, hresp]
        exact tokenInv_exchange
          { ID := nextID (t.store.accessTokens.map (·.ID)), Token := env.accessToken,
            ClientID := req.ClientID, UserID := a.UserID, Scopes := a.Scopes,
            ExpiresAt := env.nowAccess + 1 * Hour }
          { ID := nextID (t.store.refreshTokens.map (·.ID)), Token := env.refreshToken,
            ClientID := req.ClientID, UserID := a.UserID, AccessToken := env.accessToken,
            ExpiresAt := env.nowRefresh + 24 * 30 * Hour }
          hinv hA hR rfl rfl
  | refresh env req =>
    simp only [TokenOp.fresh, List.all_eq_true, bne_iff_ne, ne_eq] at hfresh
    cases h : RefreshAccessToken t.store env req with
    | mk res s1 =>
      cases res with
      | error e =>
        have hs := refresh_fresh_error hfresh h
        simp only [Traced.step, h]
        rw [hs]
        exact hinv
      | ok resp =>
        obtain ⟨-, rt, old, hfr, -, -, hfo, -, hresp, hs1⟩ := refresh_ok_inv h
        obtain ⟨hrm, hrlive, hrtok, -⟩ := find_refresh_some hfr
        obtain ⟨hom, holive, hotok⟩ := find_associated_some hfo
        simp only [Traced.step, h]
        rw [hs1, hresp, ← hrtok]
        exact tokenInv_refresh rt old
          { ID := nextID (t.store.accessTokens.map (·.ID)), Token := env.accessToken,
            ClientID := req.ClientID, UserID := rt.UserID, Scopes := old.Scopes,
            ExpiresAt := env.nowAccess + 1 * Hour }
          hinv hrm hrlive hom holive hotok hfresh

theorem tokenInv_run (ops : List TokenOp) (t t1 : Traced)
    (hinv : TokenInv t.store.accessTokens t.store.refreshTokens t.minted)
    (hrun : t.run ops = some t1) :
    TokenInv t1.store.accessTokens t1.store.refreshTokens t1.minted := by
  induction ops generalizing t with
  | nil =>
    simp only [Traced.run, Option.some.injEq] at hrun
    rw [← hrun]
    exact hinv
  | cons op rest ih =>
    simp only [Traced.run] at hrun
    split_ifs at hrun with hfresh
    exact ih (t.step op) (tokenInv_step t op hinv hfresh) hrun

/-- Calls that do not overlap keep one live access token for a refresh token.
In every state reached from a store with empty token tables by a sequential
run of code issues, code exchanges and refreshes whose generated values are
new (`Traced.run`, every call ending before the next one starts), for each
refresh token row: every unrevoked access token among those minted for it is
the one its `AccessToken` field holds, and two unrevoked access tokens minted
for it are the same row. -/
theorem live_access_token_unique (s : Store) (ops : List TokenOp) (t : Traced)
    (ha : s.accessTokens = []) (hr : s.refreshTokens = [])
    (hrun : Traced.run { store := s } ops = some t) :
    ∀ r ∈ t.store.refreshTokens,
      (∀ a ∈ t.store.accessTokens, t.mintedFor a r → a.Revoked = false →
          a.Token = r.AccessToken)
      ∧ (∀ a1 ∈ t.store.accessTokens, ∀ a2 ∈ t.store.accessTokens,
          t.mintedFor a1 r → t.mintedFor a2 r → a1.Revoked = false → a2.Revoked = false →
          a1 = a2) := by
  have hinit : TokenInv ({ store := s } : Traced).store.accessTokens
      ({ store := s } : Traced).store.refreshTokens ({ store := s } : Traced).minted := by
    show TokenInv s.accessTokens s.refreshTokens []
    rw [ha, hr]
    exact tokenInv_init [] rfl
  obtain ⟨h1, -, -, -, h5⟩ := tokenInv_run ops _ t hinit hrun
  intro r hrm
  refine ⟨fun a ham hm hlive => h5 r hrm a ham hm hlive, ?_⟩
  intro a1 ham1 a2 ham2 hm1 hm2 hl1 hl2
  apply List.inj_on_of_nodup_map h1 ham1 ham2
  rw [h5 r hrm a1 ham1 hm1 hl1, h5 r hrm a2 ham2 hm2 hl2]

/-- A sequential run of four operations over the sample store: three access
tokens are minted for R1 and only the last one, which R1 points at, is live. -/
theorem live_access_token_unique_witness :
    ∃ t, Traced.run { store := sampleStore } sampleOps = some t
      ∧ t.minted = [("A1", "R1"), ("A3", "R1"), ("A4", "R1")]
      ∧ t.store.accessTokens.map (fun a => (a.Token, a.Revoked))
          = [("A1", true), ("A3", true), ("A4", false)]
      ∧ ∀ r ∈ t.store.refreshTokens, ∀ a ∈ t.store.accessTokens,
          t.mintedFor a r → a.Revoked = false → a.Token = r.AccessToken := by
  cases hrun : Traced.run { store := sampleStore } sampleOps with
  | none => exact absurd hrun (by decide)
  | some t =>
    have hmint : (Traced.run { store := sampleStore } sampleOps).map (·.minted)
        = some [("A1", "R1"), ("A3", "R1"), ("A4", "R1")] := by decide
    have hacc : (Traced.run { store := sampleStore } sampleOps).map
        (fun t => t.store.accessTokens.map (fun a => (a.Token, a.Revoked)))
        = some [("A1", true), ("A3", true), ("A4", false)] := by decide
    rw [hrun] at hmint hacc
    refine ⟨t, rfl, Option.some.inj hmint, Option.some.inj hacc, ?_⟩
    intro r hrm
    exact (live_access_token_unique sampleStore sampleOps t rfl rfl hrun r hrm).1

/-! ## Two concurrent refreshes -/

theorem refreshSteps_succ (env : RefreshEnv) (req : TokenRequest) (n : Nat) (ph : RefreshPhase)
    (s : Store) :
    refreshSteps env req (n + 1) (ph, s) = refreshSteps env req n (refreshStep env req s ph) :=
  rfl

theorem refreshSteps_done (env : RefreshEnv) (req : TokenRequest) (n : Nat)
    (r : Except String TokenResponse) (s : Store) :
    refreshSteps env req n (.done r, s) = (.done r, s) := by
  induction n with
  | zero => rfl
  | succ n ih => rw [refreshSteps_succ, refreshStep, ih]

/-- Run alone, the five steps of a call are the method `RefreshAccessToken`. -/
theorem refreshSteps_sequential (s : Store) (env : RefreshEnv) (req : TokenRequest) :
    refreshSteps env req 5 (.atLookup, s)
      = (.done (RefreshAccessToken s env req).1, (RefreshAccessToken s env req).2) := by
  unfold RefreshAccessToken
  rw [refreshSteps_succ, refreshStep]
  by_cases hg : req.GrantType ≠ "refresh_token"
  · rw [if_pos hg, if_pos hg, refreshSteps_done]
  · rw [if_neg hg, if_neg hg]
    cases s.refreshTokens.find?
        (fun t => t.DeletedAt.isNone && t.Token == req.RefreshToken && !t.Revoked) with
    | none => exact refreshSteps_done env req 4 _ s
    | some rt =>
      simp only
      by_cases h1 : After env.now rt.ExpiresAt = true
      · rw [if_pos h1, if_pos h1, refreshSteps_done]
      · rw [if_neg h1, if_neg h1]
        by_cases h2 : rt.ClientID ≠ req.ClientID
        · rw [if_pos h2, if_pos h2, refreshSteps_done]
        · rw [if_neg h2, if_neg h2, refreshSteps_succ, refreshStep]
          cases s.accessTokens.find?
              (fun t => t.DeletedAt.isNone && t.Token == rt.AccessToken) with
          | none => exact refreshSteps_done env req 3 _ s
          | some old =>
            simp only
            rw [refreshSteps_succ, refreshStep, refreshSteps_succ, refreshStep]
            cases createAccessToken (revokeAccessToken s old) env.accessToken req.ClientID
                rt.UserID old.Scopes (env.nowAccess + 1 * Hour) with
            | none => exact refreshSteps_done env req 1 _ _
            | some s2 =>
              simp only
              rw [refreshSteps_succ, refreshStep]
              rfl

/-- Claim C16, at two refreshes that overlap. The store after the sample
exchange is reached from empty token tables and holds the access token A1 and
the refresh token R1 that points at it. Two calls of `RefreshAccessToken` with
R1 are started on it, generating the new values A3 and A4, and both run their
two lookups before either one writes. Both calls return a token response with
the refresh token R1, so A3 and A4 are both minted for R1. In the final store
A3 and A4 are both unrevoked while R1 points at A4: the refresh token has two
live access tokens, and the live token A3 is not the one its `AccessToken`
field holds. The claim, which allows one live token at most, fails on this
schedule. -/
theorem refresh_race_two_live_tokens :
    sampleStore.accessTokens = [] ∧ sampleStore.refreshTokens = []
      ∧ exchangedStore.accessTokens.map (fun t => (t.Token, t.Revoked)) = [("A1", false)]
      ∧ exchangedStore.refreshTokens.map (fun t => (t.Token, t.AccessToken)) = [("R1", "A1")]
      ∧ (refreshRaceRun sampleRefreshEnv sampleRefreshRequest sampleRefreshEnv2
            sampleRefreshRequest exchangedStore refreshRaceSchedule).first
          = .done (.ok { AccessToken := "A3", TokenType := "Bearer", ExpiresIn := 3600,
                         RefreshToken := "R1", Scope := "read" })
      ∧ (refreshRaceRun sampleRefreshEnv sampleRefreshRequest sampleRefreshEnv2
            sampleRefreshRequest exchangedStore refreshRaceSchedule).second
          = .done (.ok { AccessToken := "A4", TokenType := "Bearer", ExpiresIn := 3600,
                         RefreshToken := "R1", Scope := "read" })
      ∧ (refreshRaceRun sampleRefreshEnv sampleRefreshRequest sampleRefreshEnv2
            sampleRefreshRequest exchangedStore refreshRaceSchedule).store.accessTokens.map
            (fun t => (t.Token, t.Revoked))
          = [("A1", true), ("A3", false), ("A4", false)]
      ∧ (refreshRaceRun sampleRefreshEnv sampleRefreshRequest sampleRefreshEnv2
            sampleRefreshRequest exchangedStore refreshRaceSchedule).store.refreshTokens.map
            (fun t => (t.Token, t.AccessToken, t.Revoked))
          = [("R1", "A4", false)]
      ∧ ¬ TokenInv
          (refreshRaceRun sampleRefreshEnv sampleRefreshRequest sampleRefreshEnv2
            sampleRefreshRequest exchangedStore refreshRaceSchedule).store.accessTokens
          (refreshRaceRun sampleRefreshEnv sampleRefreshRequest sampleRefreshEnv2
            sampleRefreshRequest exchangedStore refreshRaceSchedule).store.refreshTokens
          [("A1", "R1"), ("A3", "R1"), ("A4", "R1")] := by
  refine ⟨by decide, by decide, by decide, by decide, by decide, by decide, by decide, by decide,
    ?_⟩
  intro hinv
  have h5 := hinv.2.2.2.2
  have hr : ({ ID := 1, Token := "R1", AccessToken := "A4", ClientID := "X", UserID := 7,
               ExpiresAt := 2592000000000012 } : OAuthRefreshToken)
      ∈ (refreshRaceRun sampleRefreshEnv sampleRefreshRequest sampleRefreshEnv2
          sampleRefreshRequest exchangedStore refreshRaceSchedule).store.refreshTokens := by
    decide
  have ha : ({ ID := 2, Token := "A3", ClientID := "X", UserID := 7, Scopes := "read",
               ExpiresAt := 3600000000031 } : OAuthAccessToken)
      ∈ (refreshRaceRun sampleRefreshEnv sampleRefreshRequest sampleRefreshEnv2
          sampleRefreshRequest exchangedStore refreshRaceSchedule).store.accessTokens := by
    decide
  exact absurd (h5 _ hr _ ha (by decide) rfl) (by decide)

/-! ## Witnesses on the sample data -/

/-- Claim C13 on the store after the sample exchange: R1 presented by another
client. -/
theorem refresh_rejects_bad_token_witness :
    (∀ t ∈ exchangedStore.refreshTokens, t.Token = "R1" →
        t.Revoked = true ∨ t.ExpiresAt < 30 ∨ t.ClientID ≠ "Y")
      ∧ RefreshAccessToken exchangedStore sampleRefreshEnv
          { sampleRefreshRequest with ClientID := "Y" }
        = (.error "client_id mismatch", exchangedStore) := by
  have hbad : ∀ t ∈ exchangedStore.refreshTokens, t.Token = "R1" →
      t.Revoked = true ∨ t.ExpiresAt < 30 ∨ t.ClientID ≠ "Y" := by decide
  have h := refresh_rejects_bad_token exchangedStore sampleRefreshEnv
    { sampleRefreshRequest with ClientID := "Y" } hbad
  have he : (RefreshAccessToken exchangedStore sampleRefreshEnv
      { sampleRefreshRequest with ClientID := "Y" }).1 = .error "client_id mismatch" := by
    decide
  exact ⟨hbad, Prod.ext he h.2⟩

/-- Claim C14 on the store after the sample exchange: refreshing with R1 revokes
A1, stores A3 and points R1 at A3. -/
theorem refresh_success_effect_witness :
    RefreshAccessToken exchangedStore sampleRefreshEnv sampleRefreshRequest
        = (.ok { AccessToken := "A3", TokenType := "Bearer", ExpiresIn := 3600,
                 RefreshToken := "R1", Scope := "read" }, refreshedStore)
      ∧ refreshedStore.accessTokens.map
          (fun t => (t.Token, t.Revoked, t.ClientID, t.UserID, t.Scopes, t.ExpiresAt))
        = [("A1", true, "X", 7, "read", 3600000000011),
           ("A3", false, "X", 7, "read", 3600000000031)]
      ∧ refreshedStore.refreshTokens.map (fun t => (t.Token, t.AccessToken)) = [("R1", "A3")]
      ∧ ∃ rt old, rt ∈ exchangedStore.refreshTokens ∧ old ∈ exchangedStore.accessTokens
          ∧ { old with Revoked := true } ∈ refreshedStore.accessTokens
          ∧ { rt with AccessToken := "A3" } ∈ refreshedStore.refreshTokens := by
  have h : RefreshAccessToken exchangedStore sampleRefreshEnv sampleRefreshRequest
      = (.ok { AccessToken := "A3", TokenType := "Bearer", ExpiresIn := 3600,
               RefreshToken := "R1", Scope := "read" }, refreshedStore) := by decide
  obtain ⟨rt, old, hrm, -, -, -, hom, -, -, -, hrev, -, -, hptr, -, -, -⟩ :=
    refresh_success_effect exchangedStore refreshedStore sampleRefreshEnv sampleRefreshRequest
      _ h
  exact ⟨h, by decide, by decide, rt, old, hrm, hom, hrev, hptr⟩

/-- Claim C15 on the sample exchange followed by the sample refresh. -/
theorem refresh_rotates_access_token_witness :
    ExchangeCodeForToken { sampleStore with users := [sampleUser] } sampleEnv sampleRequest
        = (.ok sampleResponse, exchangedStore)
      ∧ RefreshAccessToken exchangedStore sampleRefreshEnv sampleRefreshRequest
        = (.ok { AccessToken := "A3", TokenType := "Bearer", ExpiresIn := 3600,
                 RefreshToken := "R1", Scope := "read" }, refreshedStore)
      ∧ ValidateAccessToken refreshedStore 50 "A1"
        = (.error "invalid access token", refreshedStore)
      ∧ ValidateAccessToken refreshedStore 50 "A3"
        = (.ok (sampleUser, ["read"]), refreshedStore) := by
  have h1 : ExchangeCodeForToken { sampleStore with users := [sampleUser] } sampleEnv
      sampleRequest = (.ok sampleResponse, exchangedStore) := by decide
  have h2 : RefreshAccessToken exchangedStore sampleRefreshEnv sampleRefreshRequest
      = (.ok { AccessToken := "A3", TokenType := "Bearer", ExpiresIn := 3600,
               RefreshToken := "R1", Scope := "read" }, refreshedStore) := by decide
  obtain ⟨-, -, hold, a, hfa, -, -, hnew⟩ :=
    refresh_rotates_access_token _ _ _ sampleEnv sampleRequest sampleResponse sampleRefreshEnv
      sampleRefreshRequest _ h1 rfl h2
  have ha : a = sampleCode := by
    have hf2 : findAuthorizationCode { sampleStore with users := [sampleUser] }
        sampleRequest.Code = some sampleCode := by decide
    rw [hf2] at hfa
    exact (Option.some.inj hfa).symm
  subst ha
  refine ⟨h1, h2, hold 50, ?_⟩
  have h3 := hnew 50 (by decide)
  rw [h3]
  decide

/-- Claim C17 on the store after the sample refresh, holding a second user
before the user of the tokens: A3 validates and gives the user with the key
of its row and the scope `read`, the revoked A1 and an unknown value give an
error, and once the row of that user is gone A3 gives the zero user. -/
theorem validateAccessToken_spec_witness :
    validationStore.accessTokensUnique ∧ validationStore.userIDsUnique
      ∧ validationStore.users.map (fun u => (u.ID, u.Username)) = [(3, "bob"), (7, "alice")]
      ∧ (ValidateAccessToken validationStore 50 "A3").1 = .ok (sampleUser, ["read"])
      ∧ (∃ e, (ValidateAccessToken validationStore 50 "A1").1 = .error e)
      ∧ (∃ e, (ValidateAccessToken validationStore 50 "unknown").1 = .error e)
      ∧ (ValidateAccessToken orphanTokenStore 50 "A3").1
          = .ok ({ ID := 0, DeletedAt := none, Username := "", Email := "",
                   PasswordHash := "", Role := "" }, ["read"]) := by
  have hu : validationStore.accessTokensUnique := by decide
  have hk : validationStore.userIDsUnique := by decide
  have hu2 : orphanTokenStore.accessTokensUnique := by decide
  have hk2 : orphanTokenStore.userIDsUnique := by decide
  refine ⟨hu, hk, by decide, ?_, ?_, ?_, ?_⟩
  · apply ((validateAccessToken_spec validationStore 50 "A3" hu hk).1 sampleUser ["read"]).mpr
    refine ⟨{ ID := 2, Token := "A3", ClientID := "X", UserID := 7, Scopes := "read",
              ExpiresAt := 3600000000031 }, by decide, rfl, rfl, rfl, by decide, by decide,
            Or.inl ⟨by decide, rfl, rfl⟩⟩
  · obtain ⟨e, he, -⟩ := (validateAccessToken_spec validationStore 50 "A1" hu hk).2 (by decide)
    exact ⟨e, he⟩
  · obtain ⟨e, he, -⟩ :=
      (validateAccessToken_spec validationStore 50 "unknown" hu hk).2 (by decide)
    exact ⟨e, he⟩
  · apply ((validateAccessToken_spec orphanTokenStore 50 "A3" hu2 hk2).1 _ ["read"]).mpr
    refine ⟨{ ID := 2, Token := "A3", ClientID := "X", UserID := 7, Scopes := "read",
              ExpiresAt := 3600000000031 }, by decide, rfl, rfl, rfl, by decide, by decide,
            Or.inr ⟨by decide, rfl⟩⟩

/-- Claim C19 on the store after the sample exchange: the deletion of client 1
succeeds and its code, refresh token and access token are of no use afterwards;
with a fault at the refresh token step the store is untouched. -/
theorem deleteApplication_atomic_witness :
    DeleteApplication exchangedStore sampleDeleteEnv 1 = (.ok (), deletedStore)
      ∧ (∃ e, ExchangeCodeForToken deletedStore sampleEnv2 samplePkceRequest
          = (.error e, deletedStore))
      ∧ (∃ e, RefreshAccessToken deletedStore sampleRefreshEnv sampleRefreshRequest
          = (.error e, deletedStore))
      ∧ (∃ e, ValidateAccessToken deletedStore 50 "A1" = (.error e, deletedStore))
      ∧ (∃ e, DeleteApplication exchangedStore
          { sampleDeleteEnv with fault := some { step := .refreshTokens, message := "disk I/O error" } }
          1 = (.error e, exchangedStore)) := by
  have h : DeleteApplication exchangedStore sampleDeleteEnv 1 = (.ok (), deletedStore) := by
    decide
  have hall := deleteApplication_atomic exchangedStore sampleDeleteEnv 1
  obtain ⟨app, hm, -, -, -, -, -, -, hx, hr, hv⟩ := hall.2.2.2 deletedStore h
  have happ : app = sampleApp := by
    have hmem : ∀ a ∈ exchangedStore.apps, a = sampleApp := by decide
    exact hmem app hm
  subst happ
  refine ⟨h, ?_, ?_, ?_, ?_⟩
  · exact hx samplePkceCode (by decide) rfl (by decide) sampleEnv2 samplePkceRequest rfl
  · exact hr { ID := 1, Token := "R1", ClientID := "X", UserID := 7, AccessToken := "A1",
               ExpiresAt := 2592000000000012 } (by decide) rfl (by decide) sampleRefreshEnv
      sampleRefreshRequest rfl
  · exact hv { ID := 1, Token := "A1", ClientID := "X", UserID := 7, Scopes := "read",
               ExpiresAt := 3600000000011 } (by decide) rfl (by decide) 50
  · exact (deleteApplication_atomic exchangedStore
      { sampleDeleteEnv with fault := some { step := .refreshTokens, message := "disk I/O error" } }
      1).2.1 _ rfl

/-! ## The client registry -/

theorem find_by_id_some {s : Store} {appID : Nat} {app : OAuthApplication}
    (h : s.apps.find? (fun a => a.DeletedAt.isNone && a.ID == appID) = some app) :
    app ∈ s.apps ∧ app.DeletedAt = none ∧ app.ID = appID := by
  have hp := List.find?_some h
  simp only [Bool.and_eq_true, Option.isNone_iff_eq_none, beq_iff_eq] at hp
  exact ⟨List.mem_of_find?_eq_some h, hp.1, hp.2⟩

/-- A `Save` that keeps the key and the credentials of the record it read
keeps the credentials of the table. -/
theorem save_credentials {s : Store} (hid : s.appIDsUnique) {found app : OAuthApplication}
    (hm : found ∈ s.apps) (h1 : app.ID = found.ID) (h2 : app.ClientID = found.ClientID)
    (h3 : app.ClientSecret = found.ClientSecret) :
    Store.credentials { s with apps := s.apps.map fun a =>
        if a.ID = app.ID ∧ a.DeletedAt.isNone then app else a } = s.credentials := by
  unfold Store.credentials
  simp only [List.map_map]
  apply List.map_congr_left
  intro a ha
  simp only [Function.comp]
  by_cases hc : a.ID = app.ID ∧ a.DeletedAt.isNone
  · rw [if_pos hc]
    have hfa : a = found := List.inj_on_of_nodup_map hid ha hm (hc.1.trans h1)
    rw [hfa, h1, h2, h3]
  · rw [if_neg hc]

theorem update_credentials (jsonMarshal : List String → Except String String) {s : Store}
    (hid : s.appIDsUnique) (appID : Nat) (req : ApplicationCreateRequest) :
    (UpdateApplication jsonMarshal s appID req).2.credentials = s.credentials := by
  unfold UpdateApplication
  split
  · rfl
  · next found hf =>
    split
    · rfl
    · exact save_credentials hid (find_by_id_some hf).1 rfl rfl rfl

theorem toggleStatus_credentials {s : Store} (hid : s.appIDsUnique) (appID : Nat) :
    (ToggleApplicationStatus s appID).2.credentials = s.credentials := by
  unfold ToggleApplicationStatus
  split
  · rfl
  · next found hf =>
    exact @save_credentials s hid found { found with Active := !found.Active }
      (find_by_id_some hf).1 rfl rfl rfl

theorem toggleTrusted_credentials {s : Store} (hid : s.appIDsUnique) (appID : Nat) :
    (ToggleApplicationTrustedStatus s appID).2.credentials = s.credentials := by
  unfold ToggleApplicationTrustedStatus
  split
  · rfl
  · next found hf =>
    exact @save_credentials s hid found { found with Trusted := !found.Trusted }
      (find_by_id_some hf).1 rfl rfl rfl

theorem deleteApplication_credentials (s : Store) (env : DeleteEnv) (appID : Nat) :
    (DeleteApplication s env appID).2.credentials = s.credentials := by
  unfold DeleteApplication
  split
  · rfl
  · next app hf =>
    cases hfault : env.fault with
    | some f => rw [deleteCascade_fault env app s f hfault]
    | none =>
      rw [deleteCascade_no_fault env app s hfault]
      unfold Store.credentials deleteApp deleteRefreshTokensOf deleteAccessTokensOf
        deleteCodesOf
      simp only [List.map_map]
      apply List.map_congr_left
      intro a _
      simp only [Function.comp]
      split_ifs <;> rfl

/-- The credentials of the table and the two keys of its rows. -/
theorem credentials_keys (s : Store) :
    s.credentials.map (·.1) = s.apps.map (·.ID)
      ∧ s.credentials.map (·.2.1) = s.apps.map (·.ClientID) := by
  unfold Store.credentials
  simp only [List.map_map]
  exact ⟨rfl, rfl⟩

/-- What an insert into the client table does to the credentials: nothing
(the call failed), or one row with an unused key and an unused client id. -/
theorem create_credentials (jsonMarshal : List String → Except String String) (s : Store)
    (adminUserID : Nat) (clientID clientSecret : String) (req : ApplicationCreateRequest) :
    (CreateApplication jsonMarshal s adminUserID clientID clientSecret req).2 = s
      ∨ ((CreateApplication jsonMarshal s adminUserID clientID clientSecret req).2.credentials
            = s.credentials ++ [(nextID (s.apps.map (·.ID)), clientID, clientSecret)]
          ∧ clientID ∉ s.apps.map (·.ClientID)) := by
  unfold CreateApplication
  split
  · exact Or.inl rfl
  · simp only
    by_cases hany : (s.apps.any fun a => a.ClientID == clientID) = true
    · rw [if_pos hany]
      exact Or.inl rfl
    · rw [if_neg hany]
      refine Or.inr ⟨?_, ?_⟩
      · simp [Store.credentials]
      · intro hmem
        obtain ⟨a, ha, haid⟩ := List.mem_map.mp hmem
        apply hany
        rw [List.any_eq_true]
        exact ⟨a, ha, by simp [haid]⟩

theorem createCustom_credentials (jsonMarshal : List String → Except String String) (s : Store)
    (adminUserID : Nat) (req : InternalApplicationCreateRequest) :
    (CreateApplicationWithCustomCredentials jsonMarshal s adminUserID req).2 = s
      ∨ ((CreateApplicationWithCustomCredentials jsonMarshal s adminUserID req).2.credentials
            = s.credentials ++ [(nextID (s.apps.map (·.ID)), req.ClientID, req.ClientSecret)]
          ∧ req.ClientID ∉ s.apps.map (·.ClientID)) := by
  unfold CreateApplicationWithCustomCredentials
  split
  · exact Or.inl rfl
  · split
    · exact Or.inl rfl
    · simp only
      by_cases hany : (s.apps.any fun a => a.ClientID == req.ClientID) = true
      · rw [if_pos hany]
        exact Or.inl rfl
      · rw [if_neg hany]
        refine Or.inr ⟨?_, ?_⟩
        · simp [Store.credentials]
        · intro hmem
          obtain ⟨a, ha, haid⟩ := List.mem_map.mp hmem
          apply hany
          rw [List.any_eq_true]
          exact ⟨a, ha, by simp [haid]⟩

/-- The two unique keys of a table are read off its credentials. -/
theorem unique_of_credentials {s t : Store} (h : t.credentials = s.credentials)
    (hid : s.appIDsUnique) (hu : s.clientIDsUnique) : t.appIDsUnique ∧ t.clientIDsUnique := by
  unfold Store.appIDsUnique Store.clientIDsUnique at *
  rw [← (credentials_keys t).1, ← (credentials_keys t).2, h, (credentials_keys s).1,
    (credentials_keys s).2]
  exact ⟨hid, hu⟩

theorem unique_of_credentials_append {s t : Store} {clientID clientSecret : String}
    (h : t.credentials = s.credentials ++ [(nextID (s.apps.map (·.ID)), clientID, clientSecret)])
    (hfresh : clientID ∉ s.apps.map (·.ClientID))
    (hid : s.appIDsUnique) (hu : s.clientIDsUnique) : t.appIDsUnique ∧ t.clientIDsUnique := by
  unfold Store.appIDsUnique Store.clientIDsUnique at *
  rw [← (credentials_keys t).1, ← (credentials_keys t).2, h, List.map_append, List.map_append,
    (credentials_keys s).1, (credentials_keys s).2]
  constructor
  · rw [List.nodup_append]
    refine ⟨hid, by simp, ?_⟩
    intro x hx hx2
    simp only [List.map_cons, List.map_nil, List.mem_singleton] at hx2
    rw [hx2] at hx
    exact nextID_not_mem _ hx
  · rw [List.nodup_append]
    refine ⟨hu, by simp, ?_⟩
    intro x hx hx2
    simp only [List.map_cons, List.map_nil, List.mem_singleton] at hx2
    rw [hx2] at hx
    exact hfresh hx

/-- Every registry call keeps the two unique keys of the client table. -/
theorem registry_step_unique (jsonMarshal : List String → Except String String) (s : Store)
    (op : RegistryOp) (hid : s.appIDsUnique) (hu : s.clientIDsUnique) :
    (RegistryOp.step jsonMarshal s op).appIDsUnique
      ∧ (RegistryOp.step jsonMarshal s op).clientIDsUnique := by
  cases op with
  | create adminUserID clientID clientSecret req =>
    rcases create_credentials jsonMarshal s adminUserID clientID clientSecret req with h | h
    · simp only [RegistryOp.step, h]
      exact ⟨hid, hu⟩
    · exact unique_of_credentials_append h.1 h.2 hid hu
  | createWithCustomCredentials adminUserID req =>
    rcases createCustom_credentials jsonMarshal s adminUserID req with h | h
    · simp only [RegistryOp.step, h]
      exact ⟨hid, hu⟩
    · exact unique_of_credentials_append h.1 h.2 hid hu
  | update appID req => exact unique_of_credentials (update_credentials jsonMarshal hid appID req) hid hu
  | delete env appID => exact unique_of_credentials (deleteApplication_credentials s env appID) hid hu
  | toggleStatus appID => exact unique_of_credentials (toggleStatus_credentials hid appID) hid hu
  | toggleTrusted appID => exact unique_of_credentials (toggleTrusted_credentials hid appID) hid hu

theorem registry_run_unique (jsonMarshal : List String → Except String String)
    (ops : List RegistryOp) (s : Store) (hid : s.appIDsUnique) (hu : s.clientIDsUnique) :
    (RegistryOp.run jsonMarshal s ops).appIDsUnique
      ∧ (RegistryOp.run jsonMarshal s ops).clientIDsUnique := by
  induction ops generalizing s with
  | nil => exact ⟨hid, hu⟩
  | cons op rest ih =>
    obtain ⟨h1, h2⟩ := registry_step_unique jsonMarshal s op hid hu
    exact ih _ h1 h2

/-- Claim C21. On a store whose primary keys and client ids are unique,
`UpdateApplication`, `ToggleApplicationStatus` and
`ToggleApplicationTrustedStatus` leave the primary key, the client id and the
client secret of every row of the client table as they were, whatever they
return; and after every run of registry calls (create, create with custom
credentials, update, delete, the two toggles) no two rows of the table, active
or not, deleted or not, share a client id. -/
theorem client_id_immutable_and_unique (jsonMarshal : List String → Except String String)
    (s : Store) (hid : s.appIDsUnique) (hu : s.clientIDsUnique) :
    (∀ appID req, (UpdateApplication jsonMarshal s appID req).2.credentials = s.credentials)
      ∧ (∀ appID, (ToggleApplicationStatus s appID).2.credentials = s.credentials)
      ∧ (∀ appID, (ToggleApplicationTrustedStatus s appID).2.credentials = s.credentials)
      ∧ ∀ ops, ∀ a ∈ (RegistryOp.run jsonMarshal s ops).apps,
          ∀ b ∈ (RegistryOp.run jsonMarshal s ops).apps, a.ClientID = b.ClientID → a = b := by
  refine ⟨fun appID req => update_credentials jsonMarshal hid appID req,
    fun appID => toggleStatus_credentials hid appID,
    fun appID => toggleTrusted_credentials hid appID, ?_⟩
  intro ops a ha b hb hab
  exact List.inj_on_of_nodup_map (registry_run_unique jsonMarshal ops s hid hu).2 ha hb hab

/-! ## The handlers of the authorize and token endpoints -/

/-- Request validation reads the store and leaves it as it was. -/
theorem validateAuthorizationRequest_store
    (jsonUnmarshal : String → Except String (List String)) (s : Store) (req : AuthorizeRequest) :
    (ValidateAuthorizationRequest jsonUnmarshal s req).2 = s := by
  unfold ValidateAuthorizationRequest
  by_cases h1 : req.ResponseType ≠ "code"
  · rw [if_pos h1]
  · rw [if_neg h1]
    split
    · rfl
    · split
      · rfl
      · split_ifs <;> rfl

/-- An accepted request that carries a PKCE challenge names no method, `plain`
or `S256`. -/
theorem validateAuthorizationRequest_method
    {jsonUnmarshal : String → Except String (List String)} {s : Store} {req : AuthorizeRequest}
    {app : OAuthApplication}
    (h : (ValidateAuthorizationRequest jsonUnmarshal s req).1 = .ok app)
    (hc : req.CodeChallenge ≠ "") :
    req.CodeChallengeMethod = "" ∨ req.CodeChallengeMethod = "plain"
      ∨ req.CodeChallengeMethod = "S256" := by
  by_contra hn
  push_neg at hn
  have hbad : req.CodeChallenge ≠ "" ∧ req.CodeChallengeMethod ≠ ""
      ∧ req.CodeChallengeMethod ≠ "plain" ∧ req.CodeChallengeMethod ≠ "S256" :=
    ⟨hc, hn.1, hn.2.1, hn.2.2⟩
  unfold ValidateAuthorizationRequest at h
  by_cases h1 : req.ResponseType ≠ "code"
  · rw [if_pos h1] at h
    simp at h
  · rw [if_neg h1] at h
    split at h
    · simp at h
    · split at h
      · simp at h
      · rw [if_pos hbad] at h
        split_ifs at h

/-- Claim C22. For a request that passed the binding validator and that
`ValidateAuthorizationRequest` accepts for the client `app`, made by a logged-in
user: when the client is trusted and the generated code value is new,
`OAuthAuthorize` stores the code at once and redirects with status 302 to the
redirect URI followed by `?code=` and the code, and by `&state=` and the state
when the state is not empty; when the client is not trusted it answers 200 with
the consent payload and leaves the store as it was, so no code is issued. -/
theorem authorize_trusted_skips_consent (validate : AuthorizeRequest → Except String Unit)
    (jsonUnmarshal : String → Except String (List String)) (s : Store) (user : User)
    (code : String) (now : Nat) (req : AuthorizeRequest) (app : OAuthApplication)
    (hv : validate req = .ok ())
    (hvalid : (ValidateAuthorizationRequest jsonUnmarshal s req).1 = .ok app) :
    (app.Trusted = true → (∀ c ∈ s.codes, c.Code ≠ code) →
        OAuthAuthorize validate jsonUnmarshal s (some user) code now req
          = (.redirect StatusFound
              (if req.State ≠ "" then req.RedirectURI ++ "?code=" ++ code ++ "&state=" ++ req.State
               else req.RedirectURI ++ "?code=" ++ code),
             { s with codes := s.codes ++
                [{ ID := nextID (s.codes.map (·.ID)), Code := code, ClientID := app.ClientID,
                   UserID := user.ID, RedirectURI := req.RedirectURI,
                   Scopes := stringsJoin (grantedScopes req.Scope app.Scopes),
                   ExpiresAt := now + 10 * Minute, Used := false,
                   CodeChallenge := req.CodeChallenge,
                   CodeChallengeMethod := req.CodeChallengeMethod }] }))
      ∧ (app.Trusted = false →
          ∃ payload, OAuthAuthorize validate jsonUnmarshal s (some user) code now req
              = (.json StatusOK (.fields payload), s)
            ∧ payload.map (·.1) = ["client_name", "client_id", "redirect_uri", "scope", "state",
                "response_type", "code_challenge", "code_challenge_method", "user"]
            ∧ mapGet payload "client_id" = some (.scalar (.str app.ClientID))
            ∧ mapGet payload "redirect_uri" = some (.scalar (.str req.RedirectURI))
            ∧ mapGet payload "scope" = some (.scalar (.str req.Scope))
            ∧ mapGet payload "state" = some (.scalar (.str req.State))) := by
  have hres : ValidateAuthorizationRequest jsonUnmarshal s req = (.ok app, s) :=
    Prod.ext hvalid (validateAuthorizationRequest_store jsonUnmarshal s req)
  constructor
  · intro ht hfresh
    have hany : (s.codes.any fun c => c.Code == code) = false := by
      rw [List.any_eq_false]
      intro c hc
      simpa using hfresh c hc
    unfold OAuthAuthorize
    rw [hv]
    simp only
    rw [hres]
    simp only
    rw [if_pos ht]
    unfold CreateAuthorizationCode
    simp only [hany, Bool.false_eq_true, if_false]
  · intro ht
    unfold OAuthAuthorize
    rw [hv]
    simp only
    rw [hres]
    simp only
    rw [if_neg (by simp [ht])]
    exact ⟨_, rfl, rfl, rfl, rfl, rfl, rfl⟩

/-- Claim C23, as amended. For a request that passed the binding validator, the
token endpoint answers every error of `ExchangeCodeForToken` and of
`RefreshAccessToken` with status 400, the error code `invalid_request` and the
message of the service as description; a grant type other than
`authorization_code` and `refresh_token` gets status 400 with the error code
`unsupported_grant_type`; and a JSON answer of the handler is one of these two
or the token response with status 200. -/
theorem token_endpoint_reports_invalid_request (validate : TokenRequest → Except String Unit)
    (s : Store) (env : TokenEnv) (req : TokenRequest) (hv : validate req = .ok ()) :
    (req.GrantType = "authorization_code" → ∀ e,
        (ExchangeCodeForToken s env.exchange req).1 = .error e →
        (OAuthToken validate s env req).1
          = .json StatusBadRequest (errorBody "invalid_request" e))
      ∧ (req.GrantType = "refresh_token" → ∀ e,
          (RefreshAccessToken s env.refresh req).1 = .error e →
          (OAuthToken validate s env req).1
            = .json StatusBadRequest (errorBody "invalid_request" e))
      ∧ (req.GrantType ≠ "authorization_code" → req.GrantType ≠ "refresh_token" →
          OAuthToken validate s env req
            = (.json StatusBadRequest
                (.fields [("error", .scalar (.str "unsupported_grant_type"))]), s))
      ∧ (∀ status body, (OAuthToken validate s env req).1 = .json status body →
          body ≠ .fields [("error", .scalar (.str "unsupported_grant_type"))] →
          (∃ r, status = StatusOK ∧ body = .token r)
            ∨ ∃ e, status = StatusBadRequest ∧ body = errorBody "invalid_request" e) := by
  refine ⟨?_, ?_, ?_, ?_⟩
  · intro hg e he
    unfold OAuthToken
    rw [hv]
    simp only []
    rw [if_pos hg]
    cases hx : ExchangeCodeForToken s env.exchange req with
    | mk r s1 =>
      rw [hx] at he
      simp only at he
      rw [he]
  · intro hg e he
    have hg2 : req.GrantType ≠ "authorization_code" := by rw [hg]; decide
    unfold OAuthToken
    rw [hv]
    simp only []
    rw [if_neg hg2, if_pos hg]
    cases hx : RefreshAccessToken s env.refresh req with
    | mk r s1 =>
      rw [hx] at he
      simp only at he
      rw [he]
  · intro h1 h2
    unfold OAuthToken
    rw [hv]
    simp only [h1, h2, if_false]
  · intro status body h hne
    unfold OAuthToken at h
    rw [hv] at h
    simp only at h
    split at h
    · simp only [HTTPResponse.json.injEq] at h
      exact absurd h.2.symm hne
    · simp only [HTTPResponse.json.injEq] at h
      exact Or.inr ⟨_, h.1.symm, h.2.symm⟩
    · simp only [HTTPResponse.json.injEq] at h
      exact Or.inl ⟨_, h.1.symm, h.2.symm⟩

/-! ## The userinfo endpoint -/

theorem find_key_map_ne (m : List (String × JSONValue)) (k k2 : String) (v : JSONValue)
    (hne : k2 ≠ k) :
    (m.map fun e => if e.1 = k then (k, v) else e).find? (fun e => e.1 == k2)
      = m.find? (fun e => e.1 == k2) := by
  induction m with
  | nil => rfl
  | cons e rest ih =>
    rw [List.map_cons, List.find?_cons, List.find?_cons, ih]
    by_cases hk : e.1 = k
    · rw [if_pos hk]
      have h1 : ((k, v).1 == k2) = false := by simpa using fun h => hne h.symm
      have h2 : (e.1 == k2) = false := by
        rw [hk]
        simpa using fun h => hne h.symm
      rw [h1, h2]
    · rw [if_neg hk]

theorem find_key_map_eq (m : List (String × JSONValue)) (k : String) (v : JSONValue)
    (hany : m.any (fun e => e.1 == k) = true) :
    (m.map fun e => if e.1 = k then (k, v) else e).find? (fun e => e.1 == k) = some (k, v) := by
  induction m with
  | nil => simp at hany
  | cons e rest ih =>
    rw [List.map_cons, List.find?_cons]
    by_cases hk : e.1 = k
    · rw [if_pos hk]
      simp
    · rw [if_neg hk]
      have h2 : (e.1 == k) = false := by simpa using hk
      rw [h2]
      apply ih
      rw [List.any_cons, h2] at hany
      simpa using hany

/-- Reading a Go map after an assignment. -/
theorem mapGet_mapSet (m : List (String × JSONValue)) (k k2 : String) (v : JSONValue) :
    mapGet (mapSet m k v) k2 = if k2 = k then some v else mapGet m k2 := by
  unfold mapGet mapSet
  by_cases hany : m.any (fun e => e.1 == k) = true
  · rw [if_pos hany]
    by_cases hk : k2 = k
    · rw [if_pos hk, hk, find_key_map_eq m k v hany]
      rfl
    · rw [if_neg hk, find_key_map_ne m k k2 v hk]
  · rw [if_neg hany, List.find?_append]
    have hnone : m.find? (fun e => e.1 == k) = none := by
      rw [List.find?_eq_none]
      intro x hx hp
      apply hany
      rw [List.any_eq_true]
      exact ⟨x, hx, hp⟩
    by_cases hk : k2 = k
    · rw [if_pos hk, hk, hnone]
      simp
    · rw [if_neg hk]
      have h1 : ([(k, v)] : List (String × JSONValue)).find? (fun e => e.1 == k2) = none := by
        rw [List.find?_eq_none]
        intro x hx
        rw [List.mem_singleton] at hx
        rw [hx]
        simpa using fun h => hk h.symm
      rw [h1]
      simp

/-- The specified field set after one more scope that is neither `profile`
nor `read`. -/
theorem userInfoSpec_other (s : Store) (user : User) (seen : List String) (scope k : String)
    (hp : scope ≠ "profile") (hr : scope ≠ "read") :
    userInfoSpec s user (seen ++ [scope]) k = userInfoSpec s user seen k := by
  have h1 : ("profile" ∈ seen ++ [scope]) = ("profile" ∈ seen) := by
    simp [List.mem_append, Ne.symm hp]
  have h2 : ("read" ∈ seen ++ [scope]) = ("read" ∈ seen) := by
    simp [List.mem_append, Ne.symm hr]
  unfold userInfoSpec
  simp only [h1, h2]

/-- The specified field set after one more scope `profile`. -/
theorem userInfoSpec_profile (s : Store) (user : User) (seen : List String) (k : String) :
    userInfoSpec s user (seen ++ ["profile"]) k
      = if k = "email" then some (.scalar (.str user.Email))
        else if k = "username" then some (.scalar (.str user.Username))
        else userInfoSpec s user seen k := by
  have h1 : ("profile" ∈ seen ++ ["profile"]) = True := by simp
  have h2 : ("read" ∈ seen ++ ["profile"]) = ("read" ∈ seen) := by simp
  unfold userInfoSpec
  simp only [h1, h2, if_true]
  by_cases k1 : k = "email"
  · subst k1
    simp
  · by_cases k2 : k = "username"
    · subst k2
      simp
    · simp only [k1, k2, if_false]

/-- The specified field set after one more scope `read`. -/
theorem userInfoSpec_read (s : Store) (user : User) (seen : List String) (k : String) :
    userInfoSpec s user (seen ++ ["read"]) k
      = if k = "organizations" then
          match (GetUserOrgsWithRoles s user.ID).1 with
          | .ok orgs => if orgs.length > 0 then some (.array (orgs.map orgInfoEntry)) else none
          | .error _ => none
        else if k = "role" then some (.scalar (.str user.Role))
        else if k = "id" then some (.scalar (.num user.ID))
        else userInfoSpec s user seen k := by
  have h1 : ("read" ∈ seen ++ ["read"]) = True := by simp
  have h2 : ("profile" ∈ seen ++ ["read"]) = ("profile" ∈ seen) := by simp
  unfold userInfoSpec
  simp only [h1, h2, if_true, true_and]
  by_cases k1 : k = "organizations"
  · subst k1
    simp
  · by_cases k2 : k = "role"
    · subst k2
      simp
    · by_cases k3 : k = "id"
      · subst k3
        simp
      · simp only [k1, k2, k3, if_false]

/-- One turn of the loop keeps the response equal to the specified field set
of the scopes seen so far. -/
theorem userInfoStep_spec (s : Store) (user : User) (seen : List String)
    (userInfo : List (String × JSONValue)) (scope : String)
    (h : ∀ k, mapGet userInfo k = userInfoSpec s user seen k) (k : String) :
    mapGet (userInfoStep s user userInfo scope) k = userInfoSpec s user (seen ++ [scope]) k := by
  unfold userInfoStep
  by_cases hp : scope = "profile"
  · rw [if_pos hp, mapGet_mapSet, mapGet_mapSet, h k, hp, userInfoSpec_profile]
  · rw [if_neg hp]
    by_cases hr : scope = "read"
    · rw [if_pos hr, hr, userInfoSpec_read]
      cases horgs : (GetUserOrgsWithRoles s user.ID).1 with
      | error e =>
        simp only
        rw [mapGet_mapSet, mapGet_mapSet, h k]
        by_cases k1 : k = "organizations"
        · rw [if_pos k1, k1]
          simp [userInfoSpec, horgs]
        · rw [if_neg k1]
      | ok orgs =>
        simp only
        by_cases hlen : orgs.length > 0
        · rw [if_pos hlen, if_pos hlen, mapGet_mapSet, mapGet_mapSet, mapGet_mapSet, h k]
        · rw [if_neg hlen, if_neg hlen, mapGet_mapSet, mapGet_mapSet, h k]
          by_cases k1 : k = "organizations"
          · rw [if_pos k1, k1]
            simp [userInfoSpec, horgs, hlen]
          · rw [if_neg k1]
    · rw [if_neg hr, h k, userInfoSpec_other s user seen scope k hp hr]

theorem userInfo_fold_spec (s : Store) (user : User) (rest seen : List String)
    (userInfo : List (String × JSONValue))
    (h : ∀ k, mapGet userInfo k = userInfoSpec s user seen k) (k : String) :
    mapGet (rest.foldl (userInfoStep s user) userInfo) k
      = userInfoSpec s user (seen ++ rest) k := by
  induction rest generalizing seen userInfo with
  | nil => rw [List.foldl_nil, List.append_nil, h k]
  | cons x rest ih =>
    rw [List.foldl_cons, ih (seen ++ [x]) _ (userInfoStep_spec s user seen userInfo x h),
      List.append_assoc]
    rfl

theorem validateAccessToken_store (s : Store) (now : Nat) (token : String) :
    (ValidateAccessToken s now token).2 = s := by
  unfold ValidateAccessToken
  split
  · rfl
  · split_ifs <;> rfl

/-- The response before the loop has the specified field set of no scope. -/
theorem userInfo_init_spec (s : Store) (user : User) (k : String) :
    mapGet [("sub", .scalar (.num user.ID))] k = userInfoSpec s user [] k := by
  unfold userInfoSpec mapGet
  by_cases k1 : k = "sub"
  · subst k1
    simp
  · have hb : (("sub" : String) == k) = false := by simpa using fun h => k1 h.symm
    simp only [List.find?_cons, hb, List.find?_nil, Option.map_none', k1, if_false,
      List.not_mem_nil, false_and]
    cases (GetUserOrgsWithRoles s user.ID).1 <;> simp

/-- The bearer token of a header `Bearer <token>`. -/
theorem bearer_header (token : String) :
    "Bearer " ++ token ≠ ""
      ∧ ¬ (("Bearer " ++ token).length < 7
            ∨ String.mk (("Bearer " ++ token).toList.take 7) ≠ "Bearer ")
      ∧ String.mk (("Bearer " ++ token).toList.drop 7) = token := by
  have hd : ("Bearer " ++ token).toList = 'B' :: 'e' :: 'a' :: 'r' :: 'e' :: 'r' :: ' ' :: token.toList := by
    simp [String.toList, String.data_append]
  refine ⟨?_, ?_, ?_⟩
  · intro h
    have := congrArg String.toList h
    rw [hd] at this
    simp [String.toList] at this
  · rw [hd]
    have hl : ("Bearer " ++ token).length = 7 + token.length := by
      rw [String.length_append]
      rfl
    rw [hl]
    simp
  · rw [hd]
    simp [String.toList]

/-- Claim C24. For a header `Bearer <token>` whose token `ValidateAccessToken`
accepts with `user` and `scopes`, `OAuthUserInfo` answers 200 with a map whose
entries are those of `userInfoSpec`: `sub` is the id of the user; `username`
and `email` are present exactly when the scopes include `profile`; `id` and
`role` exactly when they include `read`; and `organizations` is present only
when the scopes include `read` and the user has a membership that is not
deleted. The store is left as it was. -/
theorem userinfo_field_set (s : Store) (now : Nat) (token : String) (user : User)
    (scopes : List String) (h : (ValidateAccessToken s now token).1 = .ok (user, scopes)) :
    ∃ info, OAuthUserInfo s now ("Bearer " ++ token) = (.json StatusOK (.fields info), s)
      ∧ (∀ k, mapGet info k = userInfoSpec s user scopes k)
      ∧ mapGet info "sub" = some (.scalar (.num user.ID))
      ∧ ((mapGet info "username").isSome ↔ "profile" ∈ scopes)
      ∧ ((mapGet info "email").isSome ↔ "profile" ∈ scopes)
      ∧ ((mapGet info "id").isSome ↔ "read" ∈ scopes)
      ∧ ((mapGet info "role").isSome ↔ "read" ∈ scopes)
      ∧ ((mapGet info "organizations").isSome →
          "read" ∈ scopes ∧ ∃ m ∈ s.orgMembers, m.UserID = user.ID ∧ m.DeletedAt = none) := by
  obtain ⟨h1, h2, h3⟩ := bearer_header token
  have hres : ValidateAccessToken s now token = (.ok (user, scopes), s) :=
    Prod.ext h (validateAccessToken_store s now token)
  have hspec : ∀ k, mapGet (scopes.foldl (userInfoStep s user) [("sub", .scalar (.num user.ID))]) k
      = userInfoSpec s user scopes k := by
    intro k
    have := userInfo_fold_spec s user scopes [] _ (userInfo_init_spec s user) k
    rwa [List.nil_append] at this
  refine ⟨scopes.foldl (userInfoStep s user) [("sub", .scalar (.num user.ID))], ?_, hspec, ?_, ?_,
    ?_, ?_, ?_, ?_⟩
  · unfold OAuthUserInfo
    rw [if_neg h1, if_neg h2]
    simp only [h3, hres]
  · rw [hspec]
    simp [userInfoSpec]
  · rw [hspec]
    simp [userInfoSpec]
  · rw [hspec]
    simp [userInfoSpec]
  · rw [hspec]
    simp [userInfoSpec]
  · rw [hspec]
    simp [userInfoSpec]
  · rw [hspec]
    intro hsome
    unfold userInfoSpec GetUserOrgsWithRoles at hsome
    simp only [String.reduceEq, if_false, if_true] at hsome
    split_ifs at hsome with hc
    · refine ⟨hc.1, ?_⟩
      have hne : (s.orgs.flatMap fun o =>
          (s.orgMembers.filter fun m =>
              m.OrgID == o.ID && m.UserID == user.ID && m.DeletedAt.isNone).map
            fun m => ({ org := o, Role := m.Role } : OrgWithRole)) ≠ [] := by
        intro he
        rw [he] at hc
        simp at hc
      obtain ⟨x, hx⟩ := List.exists_mem_of_ne_nil _ hne
      rw [List.mem_flatMap] at hx
      obtain ⟨o, -, hx⟩ := hx
      rw [List.mem_map] at hx
      obtain ⟨m, hm, -⟩ := hx
      rw [List.mem_filter] at hm
      simp only [Bool.and_eq_true, beq_iff_eq, Option.isNone_iff_eq_none] at hm
      exact ⟨m, hm.1, hm.2.1.2, hm.2.2⟩
    · simp at hsome

/-! ## The PKCE method of stored codes -/

theorem refresh_codes (s : Store) (env : RefreshEnv) (req : TokenRequest) :
    (RefreshAccessToken s env req).2.codes = s.codes := by
  unfold RefreshAccessToken
  split_ifs
  · rfl
  · split
    · rfl
    · split_ifs
      · rfl
      · rfl
      · split
        · rfl
        · simp only
          split
          · rfl
          · next s2 h2 =>
            have := (createAccessToken_some h2).2.1
            simp only [repointRefreshToken]
            rw [this]
            rfl

theorem markCodeUsed_methods {s : Store} (a : OAuthAuthorizationCode)
    (h : s.pkceMethodsKnown) : (markCodeUsed s a).pkceMethodsKnown := by
  intro c hc
  simp only [markCodeUsed, List.mem_map] at hc
  obtain ⟨d, hd, rfl⟩ := hc
  by_cases hcond : d.ID = a.ID ∧ d.DeletedAt.isNone
  · rw [if_pos hcond]
    exact h d hd
  · rw [if_neg hcond]
    exact h d hd

theorem exchange_methods {s : Store} (env : ExchangeEnv) (req : TokenRequest)
    (h : s.pkceMethodsKnown) : (ExchangeCodeForToken s env req).2.pkceMethodsKnown := by
  unfold ExchangeCodeForToken ExchangeCodeForTokenWith
  split_ifs
  · exact h
  · split
    · exact h
    · next a _ =>
      split
      · exact h
      · split
        · exact h
        · have hc := (issueTokens_codes s env req a).1
          intro c hcm
          rw [hc] at hcm
          exact markCodeUsed_methods a h c hcm

theorem flow_step_methods (jsonUnmarshal : String → Except String (List String)) {s : Store}
    (op : FlowOp) (h : s.pkceMethodsKnown) : (FlowOp.step jsonUnmarshal s op).pkceMethodsKnown := by
  cases op with
  | authorize req code now userID =>
    simp only [FlowOp.step]
    cases hv : ValidateAuthorizationRequest jsonUnmarshal s req with
    | mk r s1 =>
      have hs1 : s1 = s := by
        have := validateAuthorizationRequest_store jsonUnmarshal s req
        rw [hv] at this
        exact this
      subst hs1
      cases r with
      | error e => exact h
      | ok app =>
        simp only
        have hok : (ValidateAuthorizationRequest jsonUnmarshal s1 req).1 = .ok app := by rw [hv]
        unfold CreateAuthorizationCode
        simp only
        split_ifs
        · exact h
        · intro c hc
          simp only [List.mem_append, List.mem_singleton] at hc
          rcases hc with hc | hc
          · exact h c hc
          · rw [hc]
            exact fun hne => validateAuthorizationRequest_method hok hne
  | exchange env req => exact exchange_methods env req h
  | refresh env req =>
    intro c hc
    simp only [FlowOp.step] at hc
    rw [refresh_codes] at hc
    exact h c hc

theorem flow_run_methods (jsonUnmarshal : String → Except String (List String))
    (ops : List FlowOp) (s : Store) (h : s.pkceMethodsKnown) :
    (FlowOp.run jsonUnmarshal s ops).pkceMethodsKnown := by
  induction ops generalizing s with
  | nil => exact h
  | cons op rest ih => exact ih _ (flow_step_methods jsonUnmarshal op h)

/-- On a store whose codes name known methods the exchange does not depend on
what the verifier returns for another method. -/
theorem exchange_pkce_agree {s : Store} (h : s.pkceMethodsKnown)
    (pkce : String → String → String → Bool)
    (hp : ∀ ch m v, m = "" ∨ m = "plain" ∨ m = "S256" → pkce ch m v = validatePKCE ch m v)
    (env : ExchangeEnv) (req : TokenRequest) :
    ExchangeCodeForTokenWith pkce s env req = ExchangeCodeForToken s env req := by
  unfold ExchangeCodeForToken ExchangeCodeForTokenWith
  split_ifs
  · rfl
  · cases hf : findAuthorizationCode s req.Code with
    | none => rfl
    | some a =>
      have ham := (findAuthorizationCode_some hf).1
      have hcheck : checkAuthorizationCode pkce env.now req a
          = checkAuthorizationCode validatePKCE env.now req a := by
        unfold checkAuthorizationCode
        by_cases hc : a.CodeChallenge ≠ ""
        · rw [hp _ _ _ (h a ham hc)]
        · simp only [hc, if_false]
      simp only [hcheck]

/-- Claim C25. A request with a PKCE challenge and a method other than the
empty one, `plain` and `S256` is turned down by `ValidateAuthorizationRequest`.
After every run of authorizations (validate, then issue), exchanges and
refreshes from a store without codes, each stored code with a challenge names
one of the three methods, so `ExchangeCodeForToken` returns the same result
whatever the verifier would answer for another method: the last branch of
`validatePKCE` never decides an exchange. -/
theorem pkce_fallthrough_unreachable (jsonUnmarshal : String → Except String (List String))
    (s0 : Store) (ops : List FlowOp) (h0 : s0.codes = []) :
    (∀ s req, req.CodeChallenge ≠ "" → req.CodeChallengeMethod ≠ "" →
        req.CodeChallengeMethod ≠ "plain" → req.CodeChallengeMethod ≠ "S256" →
        ∃ e, ValidateAuthorizationRequest jsonUnmarshal s req = (.error e, s))
      ∧ (∀ c ∈ (FlowOp.run jsonUnmarshal s0 ops).codes, c.CodeChallenge ≠ "" →
          c.CodeChallengeMethod = "" ∨ c.CodeChallengeMethod = "plain"
            ∨ c.CodeChallengeMethod = "S256")
      ∧ ∀ pkce : String → String → String → Bool,
          (∀ ch m v, m = "" ∨ m = "plain" ∨ m = "S256" → pkce ch m v = validatePKCE ch m v) →
          ∀ env req, ExchangeCodeForTokenWith pkce (FlowOp.run jsonUnmarshal s0 ops) env req
            = ExchangeCodeForToken (FlowOp.run jsonUnmarshal s0 ops) env req := by
  have hinit : s0.pkceMethodsKnown := by
    intro c hc
    rw [h0] at hc
    exact absurd hc (List.not_mem_nil c)
  have hrun := flow_run_methods jsonUnmarshal ops s0 hinit
  refine ⟨?_, hrun, fun pkce hp env req => exchange_pkce_agree hrun pkce hp env req⟩
  intro s req h1 h2 h3 h4
  cases hres : (ValidateAuthorizationRequest jsonUnmarshal s req).1 with
  | error e =>
    exact ⟨e, Prod.ext hres (validateAuthorizationRequest_store jsonUnmarshal s req)⟩
  | ok app =>
    rcases validateAuthorizationRequest_method hres h1 with h | h | h
    · exact absurd h h2
    · exact absurd h h3
    · exact absurd h h4

/-! ## `DeleteOrg` -/

/-- Claim C26. `DeleteOrg` succeeds, and in the store it leaves the membership
count of the organization is 0, `GetOrgMembers` returns no row, every
membership and every organization row with that id carries a deletion stamp,
`GetOrgByID` finds no record, and the user table and the count of every user
are as before. -/
theorem deleteOrg_removes_memberships (s : Store) (nowMembers nowOrg id : Nat) :
    ∃ s1, DeleteOrg s nowMembers nowOrg id = (.ok (), s1)
      ∧ countOrgMembers s1 id = 0
      ∧ (GetOrgMembers s1 id).1 = .ok []
      ∧ (∀ m ∈ s1.orgMembers, m.OrgID = id → m.DeletedAt ≠ none)
      ∧ (GetOrgByID s1 id).1 = .error errRecordNotFound
      ∧ (∀ o ∈ s1.orgs, o.ID = id → o.DeletedAt ≠ none)
      ∧ s1.users = s.users
      ∧ ∀ userID, countUsers s1 userID = countUsers s userID := by
  have hmem : ∀ m ∈ (s.orgMembers.map fun m =>
      if m.OrgID = id ∧ m.DeletedAt.isNone then { m with DeletedAt := some nowMembers } else m),
      m.OrgID = id → m.DeletedAt ≠ none := by
    intro m hm hid
    obtain ⟨x, -, rfl⟩ := List.mem_map.mp hm
    by_cases hc : x.OrgID = id ∧ x.DeletedAt.isNone
    · rw [if_pos hc]
      simp
    · rw [if_neg hc] at hid ⊢
      intro hnone
      exact hc ⟨hid, by simp [hnone]⟩
  have horg : ∀ o ∈ (s.orgs.map fun o =>
      if o.ID = id ∧ o.DeletedAt.isNone then { o with DeletedAt := some nowOrg } else o),
      o.ID = id → o.DeletedAt ≠ none := by
    intro o ho hid
    obtain ⟨x, -, rfl⟩ := List.mem_map.mp ho
    by_cases hc : x.ID = id ∧ x.DeletedAt.isNone
    · rw [if_pos hc]
      simp
    · rw [if_neg hc] at hid ⊢
      intro hnone
      exact hc ⟨hid, by simp [hnone]⟩
  have hfilter : (s.orgMembers.map fun m =>
      if m.OrgID = id ∧ m.DeletedAt.isNone then { m with DeletedAt := some nowMembers }
      else m).filter (fun m => m.DeletedAt.isNone && m.OrgID == id) = [] := by
    rw [List.filter_eq_nil_iff]
    intro m hm hp
    simp only [Bool.and_eq_true, Option.isNone_iff_eq_none, beq_iff_eq] at hp
    exact hmem m hm hp.2 hp.1
  refine ⟨_, rfl, ?_, ?_, hmem, ?_, horg, rfl, fun _ => rfl⟩
  · unfold countOrgMembers
    simp only
    rw [hfilter]
    rfl
  · unfold GetOrgMembers
    simp only
    rw [hfilter]
  · unfold GetOrgByID
    simp only
    have hnone : (s.orgs.map fun o =>
        if o.ID = id ∧ o.DeletedAt.isNone then { o with DeletedAt := some nowOrg } else o).find?
        (fun o => o.DeletedAt.isNone && o.ID == id) = none := by
      rw [List.find?_eq_none]
      intro o ho hp
      simp only [Bool.and_eq_true, Option.isNone_iff_eq_none, beq_iff_eq] at hp
      exact horg o ho hp.2 hp.1
    rw [hnone]

/-! ## A failed check of `ExchangeCodeForToken` -/

theorem check_ok_pkce {pkce : String → String → String → Bool} {now : Nat} {req : TokenRequest}
    {a : OAuthAuthorizationCode} (h : checkAuthorizationCode pkce now req a = .ok ())
    (hc : a.CodeChallenge ≠ "") :
    req.CodeVerifier ≠ "" ∧ pkce a.CodeChallenge a.CodeChallengeMethod req.CodeVerifier = true := by
  unfold checkAuthorizationCode at h
  by_cases h1 : After now a.ExpiresAt = true
  · rw [if_pos h1] at h
    simp at h
  · rw [if_neg h1] at h
    by_cases h2 : a.ClientID ≠ req.ClientID
    · rw [if_pos h2] at h
      simp at h
    · rw [if_neg h2] at h
      by_cases h3 : a.RedirectURI ≠ req.RedirectURI
      · rw [if_pos h3] at h
        simp at h
      · rw [if_neg h3, if_pos hc] at h
        by_cases h4 : req.CodeVerifier = ""
        · rw [if_pos h4] at h
          simp at h
        · rw [if_neg h4] at h
          refine ⟨h4, ?_⟩
          by_cases h5 : pkce a.CodeChallenge a.CodeChallengeMethod req.CodeVerifier = true
          · exact h5
          · simp [h5] at h

theorem secret_error_of_wrong {s : Store} {req : TokenRequest} (hs : req.ClientSecret ≠ "")
    (hw : ∀ app ∈ s.apps, app.DeletedAt = none → app.ClientID = req.ClientID →
      app.ClientSecret ≠ req.ClientSecret) :
    ∃ e, checkClientSecret s req = .error e := by
  unfold checkClientSecret
  rw [if_pos hs]
  cases hf : s.apps.find? (fun a => a.DeletedAt.isNone && a.ClientID == req.ClientID) with
  | none => exact ⟨_, rfl⟩
  | some app =>
    have hp := List.find?_some hf
    simp only [Bool.and_eq_true, Option.isNone_iff_eq_none, beq_iff_eq] at hp
    have := hw app (List.mem_of_find?_eq_some hf) hp.1 hp.2
    simp only
    rw [if_pos this]
    exact ⟨_, rfl⟩

/-- Claim C27. When every unused, undeleted code row with the requested value
fails a check (it is expired, belongs to another client, has another redirect
URI, carries a challenge for which the verifier is missing or wrong, or the
client secret sent is not that of the client), which includes the case that
there is no such row, `ExchangeCodeForToken` returns an error and the store is
exactly the one before the call: codes, access tokens and refresh tokens are
unchanged, and every later call behaves as if the failed one had not been
made. -/
theorem exchange_failed_check_keeps_store (s : Store) (env : ExchangeEnv) (req : TokenRequest)
    (hbad : ∀ a ∈ s.codes, a.DeletedAt = none → a.Code = req.Code → a.Used = false →
      a.ExpiresAt < env.now ∨ a.ClientID ≠ req.ClientID ∨ a.RedirectURI ≠ req.RedirectURI
        ∨ (a.CodeChallenge ≠ "" ∧ (req.CodeVerifier = ""
            ∨ validatePKCE a.CodeChallenge a.CodeChallengeMethod req.CodeVerifier = false))
        ∨ (req.ClientSecret ≠ "" ∧ ∀ app ∈ s.apps, app.DeletedAt = none →
            app.ClientID = req.ClientID → app.ClientSecret ≠ req.ClientSecret)) :
    (∃ e, ExchangeCodeForToken s env req = (.error e, s))
      ∧ (ExchangeCodeForToken s env req).2.codes = s.codes
      ∧ (ExchangeCodeForToken s env req).2.accessTokens = s.accessTokens
      ∧ (ExchangeCodeForToken s env req).2.refreshTokens = s.refreshTokens
      ∧ ∀ env2 req2, ExchangeCodeForToken (ExchangeCodeForToken s env req).2 env2 req2
          = ExchangeCodeForToken s env2 req2 := by
  have key : ∃ e, ExchangeCodeForToken s env req = (.error e, s) := by
    unfold ExchangeCodeForToken
    by_cases hg : req.GrantType = "authorization_code"
    · cases hf : findAuthorizationCode s req.Code with
      | none => exact ⟨_, exchange_of_find_none hg hf⟩
      | some a =>
        obtain ⟨ham, hlive, hcode, hunused⟩ := findAuthorizationCode_some hf
        cases hc : checkAuthorizationCode validatePKCE env.now req a with
        | error e => exact ⟨e, exchange_of_check_error hg hf hc⟩
        | ok u =>
          obtain ⟨h1, h2, h3⟩ := check_ok_inv hc
          rcases hbad a ham hlive hcode hunused with h | h | h | h | h
          · exact absurd h h1
          · exact absurd h2 h
          · exact absurd h3 h
          · obtain ⟨h4, h5⟩ := check_ok_pkce hc h.1
            rcases h.2 with h6 | h6
            · exact absurd h6 h4
            · rw [h5] at h6
              exact absurd h6 (by decide)
          · obtain ⟨e, he⟩ := secret_error_of_wrong h.1 h.2
            exact ⟨e, exchange_of_secret_error hg hf hc he⟩
    · exact ⟨_, exchange_of_grant_ne hg⟩
  obtain ⟨e, he⟩ := key
  refine ⟨⟨e, he⟩, ?_, ?_, ?_, ?_⟩ <;> rw [he]
  intro env2 req2
  rfl

/-! ## The frame of `DeleteApplication` -/

/-- A filter that an update neither moves rows across nor changes rows
inside keeps its result. -/
theorem filter_map_frame {α : Type} (rows : List α) (f : α → α) (p : α → Bool)
    (h1 : ∀ x, p (f x) = p x) (h2 : ∀ x, p x = true → f x = x) :
    (rows.map f).filter p = rows.filter p := by
  induction rows with
  | nil => rfl
  | cons x rest ih =>
    rw [List.map_cons, List.filter_cons, List.filter_cons, h1 x, ih]
    by_cases hp : p x = true
    · rw [if_pos hp, if_pos hp, h2 x hp]
    · rw [if_neg hp, if_neg hp]

/-- Claim C28. The store `DeleteApplication` leaves has the users,
organizations and memberships of the store before the call and the same client
rows with a key other than `appID`. Either it is the store before the call, or,
with `app` the client found, the four tables are the old ones with a deletion
stamp on the undeleted rows of key `appID` (clients) or of client id
`app.ClientID` (codes, access tokens, refresh tokens); the rows with another
client id are kept as they were. -/
theorem deleteApplication_frame (s : Store) (env : DeleteEnv) (appID : Nat) :
    (DeleteApplication s env appID).2.users = s.users
      ∧ (DeleteApplication s env appID).2.orgs = s.orgs
      ∧ (DeleteApplication s env appID).2.orgMembers = s.orgMembers
      ∧ (DeleteApplication s env appID).2.apps.filter (fun a => a.ID != appID)
          = s.apps.filter (fun a => a.ID != appID)
      ∧ ((DeleteApplication s env appID).2 = s
          ∨ ∃ app ∈ s.apps, app.ID = appID ∧ app.DeletedAt = none
              ∧ (DeleteApplication s env appID).2.apps = s.apps.map (fun a =>
                  if a.ID = appID ∧ a.DeletedAt.isNone then { a with DeletedAt := some env.nowApp }
                  else a)
              ∧ (DeleteApplication s env appID).2.codes = s.codes.map (fun c =>
                  if c.ClientID = app.ClientID ∧ c.DeletedAt.isNone then
                    { c with DeletedAt := some env.nowCodes }
                  else c)
              ∧ (DeleteApplication s env appID).2.accessTokens = s.accessTokens.map (fun t =>
                  if t.ClientID = app.ClientID ∧ t.DeletedAt.isNone then
                    { t with DeletedAt := some env.nowAccess }
                  else t)
              ∧ (DeleteApplication s env appID).2.refreshTokens = s.refreshTokens.map (fun t =>
                  if t.ClientID = app.ClientID ∧ t.DeletedAt.isNone then
                    { t with DeletedAt := some env.nowRefresh }
                  else t)
              ∧ (DeleteApplication s env appID).2.codes.filter
                    (fun c => c.ClientID != app.ClientID)
                  = s.codes.filter (fun c => c.ClientID != app.ClientID)
              ∧ (DeleteApplication s env appID).2.accessTokens.filter
                    (fun t => t.ClientID != app.ClientID)
                  = s.accessTokens.filter (fun t => t.ClientID != app.ClientID)
              ∧ (DeleteApplication s env appID).2.refreshTokens.filter
                    (fun t => t.ClientID != app.ClientID)
                  = s.refreshTokens.filter (fun t => t.ClientID != app.ClientID)) := by
  unfold DeleteApplication
  cases hf : s.apps.find? (fun a => a.DeletedAt.isNone && a.ID == appID) with
  | none => exact ⟨rfl, rfl, rfl, rfl, Or.inl rfl⟩
  | some app =>
    have hp := List.find?_some hf
    simp only [Bool.and_eq_true, Option.isNone_iff_eq_none, beq_iff_eq] at hp
    have hm := List.mem_of_find?_eq_some hf
    cases hfault : env.fault with
    | some f =>
      simp only
      rw [deleteCascade_fault env app s f hfault]
      exact ⟨rfl, rfl, rfl, rfl, Or.inl rfl⟩
    | none =>
      simp only
      rw [deleteCascade_no_fault env app s hfault]
      have hid := hp.2
      subst hid
      refine ⟨rfl, rfl, rfl, ?_, Or.inr ⟨app, hm, rfl, hp.1, rfl, rfl, rfl, rfl, ?_, ?_, ?_⟩⟩
      · simp only [deleteApp, deleteRefreshTokensOf, deleteAccessTokensOf, deleteCodesOf]
        apply filter_map_frame
        · intro x
          split_ifs <;> rfl
        · intro x hx
          have hne : x.ID ≠ app.ID := by simpa using hx
          rw [if_neg (fun h => hne h.1)]
      · simp only [deleteApp, deleteRefreshTokensOf, deleteAccessTokensOf, deleteCodesOf]
        apply filter_map_frame
        · intro x
          split_ifs <;> rfl
        · intro x hx
          have hne : x.ClientID ≠ app.ClientID := by simpa using hx
          rw [if_neg (fun h => hne h.1)]
      · simp only [deleteApp, deleteRefreshTokensOf, deleteAccessTokensOf, deleteCodesOf]
        apply filter_map_frame
        · intro x
          split_ifs <;> rfl
        · intro x hx
          have hne : x.ClientID ≠ app.ClientID := by simpa using hx
          rw [if_neg (fun h => hne h.1)]
      · simp only [deleteApp, deleteRefreshTokensOf, deleteAccessTokensOf, deleteCodesOf]
        apply filter_map_frame
        · intro x
          split_ifs <;> rfl
        · intro x hx
          have hne : x.ClientID ≠ app.ClientID := by simpa using hx
          rw [if_neg (fun h => hne h.1)]

/-! ## Registering then listing -/

theorem splitChars_no_sep (w : List Char) (h : ' ' ∉ w) : splitChars ' ' w = [w] := by
  induction w with
  | nil => rfl
  | cons c w ih =>
    have hc : c ≠ ' ' := fun he => h (by simp [he])
    have hw : ' ' ∉ w := fun hm => h (List.mem_cons_of_mem _ hm)
    rw [splitChars, if_neg hc, ih hw]

theorem splitChars_append_sep (w rest : List Char) (h : ' ' ∉ w) :
    splitChars ' ' (w ++ ' ' :: rest) = w :: splitChars ' ' rest := by
  induction w with
  | nil => simp [splitChars]
  | cons c w ih =>
    have hc : c ≠ ' ' := fun he => h (by simp [he])
    have hw : ' ' ∉ w := fun hm => h (List.mem_cons_of_mem _ hm)
    rw [List.cons_append, splitChars, if_neg hc, ih hw]

/-- Splitting at spaces undoes joining with spaces, for a list that is not
empty and whose names hold no space. -/
theorem stringsSplit_stringsJoin (xs : List String) (hne : xs ≠ [])
    (h : ∀ x ∈ xs, ' ' ∉ x.toList) : stringsSplit (stringsJoin xs) = xs := by
  induction xs with
  | nil => exact absurd rfl hne
  | cons a rest ih =>
    cases rest with
    | nil =>
      unfold stringsSplit
      rw [stringsJoin, splitChars_no_sep _ (h a (by simp))]
      rfl
    | cons b rest =>
      have hrest := ih (by simp) (fun x hx => h x (List.mem_cons_of_mem _ hx))
      unfold stringsSplit at hrest ⊢
      have hd : (stringsJoin (a :: b :: rest)).toList
          = a.toList ++ ' ' :: (stringsJoin (b :: rest)).toList := by
        rw [stringsJoin]
        simp [String.toList, String.data_append]
      rw [hd, splitChars_append_sep _ _ (h a (by simp)), List.map_cons, hrest]
      rfl

/-- The scopes an application row stores are read back as they were given. -/
theorem scopes_round_trip (scopes : List String) (h : ∀ x ∈ scopes, x ≠ "" ∧ ' ' ∉ x.toList) :
    (let split := stringsSplit (stringsJoin (if scopes.length = 0 then ["read"] else scopes))
     if split.length = 1 ∧ split.head? = some "" then [] else split)
      = if scopes.length = 0 then ["read"] else scopes := by
  by_cases hl : scopes.length = 0
  · simp only [hl, if_true]
    decide
  · simp only [hl, if_false]
    have hne : scopes ≠ [] := fun he => hl (by rw [he]; rfl)
    rw [stringsSplit_stringsJoin scopes hne (fun x hx => (h x hx).2)]
    have hcond : ¬ (scopes.length = 1 ∧ scopes.head? = some "") := by
      rintro ⟨-, h2⟩
      cases scopes with
      | nil => exact hne rfl
      | cons a rest =>
        simp only [List.head?_cons, Option.some.injEq] at h2
        exact (h a (by simp)).1 h2
    rw [if_neg hcond]

/-! ## `encoding/json`: decoding what was encoded -/

theorem json_run_append (st : json.State) (a b : List Char) :
    json.run st (a ++ b) = json.run (json.run st a) b := by
  unfold json.run
  rw [List.foldl_append]

theorem json_run_cons (st : json.State) (c : Char) (cs : List Char) :
    json.run st (c :: cs) = json.run (json.step st c) cs := rfl

theorem json_run_nil (st : json.State) : json.run st [] = st := rfl

/-- The value of the digit the encoder writes. -/
theorem json_hexValue_hexDigit (d : Nat) (h : d < 16) :
    json.hexValue (json.hexDigit d) = some d := by
  interval_cases d <;> decide

theorem json_step_backslash (done : List String) (acc : List Char) (p : Option Nat) :
    json.step (.inString done acc p) json.backslash = .escape done acc p := rfl

theorem json_step_u (done : List String) (acc : List Char) (p : Option Nat) :
    json.step (.escape done acc p) 'u' = .unicode done acc p 0 0 := rfl

theorem json_step_hex (done : List String) (acc : List Char) (p : Option Nat) (k v d : Nat)
    (c : Char) (h : json.hexValue c = some d) :
    json.step (.unicode done acc p k v) c
      = if k < 3 then .unicode done acc p (k + 1) (v * 16 + d)
        else json.unicodeDone done acc p (v * 16 + d) := by
  simp only [json.step, h]

theorem json_step_plain (done : List String) (acc : List Char) (c : Char)
    (h1 : c ≠ json.quote) (h2 : c ≠ json.backslash) (h3 : ¬ c.toNat < 32) :
    json.step (.inString done acc none) c = .inString done (acc ++ [c]) none := by
  simp only [json.step, if_neg h1, if_neg h2, if_neg h3, json.flush]

/-- Inside a string the decoder reads the escape of a character as that
character. -/
theorem json_run_encodeChar (done : List String) (acc : List Char) (c : Char) :
    json.run (.inString done acc none) (json.encodeChar c) = .inString done (acc ++ [c]) none := by
  unfold json.encodeChar
  by_cases h1 : c = json.quote ∨ c = json.backslash
  · rw [if_pos h1]
    rcases h1 with h | h <;> subst h <;> rfl
  · rw [if_neg h1]
    push_neg at h1
    by_cases h2 : c = Char.ofNat 8
    · rw [if_pos h2, h2]
      rfl
    · rw [if_neg h2]
      by_cases h3 : c = Char.ofNat 12
      · rw [if_pos h3, h3]
        rfl
      · rw [if_neg h3]
        by_cases h4 : c = Char.ofNat 10
        · rw [if_pos h4, h4]
          rfl
        · rw [if_neg h4]
          by_cases h5 : c = Char.ofNat 13
          · rw [if_pos h5, h5]
            rfl
          · rw [if_neg h5]
            by_cases h6 : c = Char.ofNat 9
            · rw [if_pos h6, h6]
              rfl
            · rw [if_neg h6]
              by_cases h7 : c.toNat < 32 ∨ c = '<' ∨ c = '>' ∨ c = '&'
              · rw [if_pos h7]
                have hlt : c.toNat < 64 := by
                  rcases h7 with h | h | h | h
                  · omega
                  · rw [h]; decide
                  · rw [h]; decide
                  · rw [h]; decide
                have hd1 := json_hexValue_hexDigit (c.toNat / 16) (by omega)
                have hd2 := json_hexValue_hexDigit (c.toNat % 16) (by omega)
                have h0 : json.hexValue '0' = some 0 := by decide
                rw [json_run_cons, json_step_backslash, json_run_cons, json_step_u,
                  json_run_cons, json_step_hex _ _ _ _ _ _ _ h0, if_pos (by decide),
                  json_run_cons, json_step_hex _ _ _ _ _ _ _ h0, if_pos (by decide),
                  json_run_cons, json_step_hex _ _ _ _ _ _ _ hd1, if_pos (by decide),
                  json_run_cons, json_step_hex _ _ _ _ _ _ _ hd2, if_neg (by decide),
                  json_run_nil]
                unfold json.unicodeDone
                simp only
                have hval : ((0 * 16 + 0) * 16 + c.toNat / 16) * 16 + c.toNat % 16 = c.toNat := by
                  omega
                rw [hval]
                have hs1 : ¬ (55296 ≤ c.toNat ∧ c.toNat < 56320) := by omega
                have hs2 : ¬ (56320 ≤ c.toNat ∧ c.toNat < 57344) := by omega
                rw [if_neg hs1, if_neg hs2, Char.ofNat_toNat]
              · rw [if_neg h7]
                push_neg at h7
                by_cases h8 : c = Char.ofNat 8232
                · rw [if_pos h8, h8]
                  rfl
                · rw [if_neg h8]
                  by_cases h9 : c = Char.ofNat 8233
                  · rw [if_pos h9, h9]
                    rfl
                  · rw [if_neg h9]
                    rw [json_run_cons, json_run_nil,
                      json_step_plain done acc c h1.1 h1.2 (Nat.not_lt.mpr h7.1)]

/-- Inside a string the decoder reads the escaped text as the text. -/
theorem json_run_body (done : List String) (cs acc : List Char) :
    json.run (.inString done acc none) (cs.flatMap json.encodeChar)
      = .inString done (acc ++ cs) none := by
  induction cs generalizing acc with
  | nil => simp [json_run_nil]
  | cons c cs ih =>
    rw [List.flatMap_cons, json_run_append, json_run_encodeChar, ih, List.append_assoc]
    rfl

/-- After a comma the decoder reads the literal of a string as that string. -/
theorem json_run_string_next (done : List String) (s : String) :
    json.run (.next done) (json.encodeString s) = .afterElem (done ++ [s]) := by
  unfold json.encodeString
  rw [List.cons_append, json_run_cons]
  have h1 : json.step (.next done) json.quote = .inString done [] none := by
    simp only [json.step]
    rfl
  rw [h1, json_run_append, json_run_body, json_run_cons, json_run_nil]
  simp only [json.step, if_true, json.flush, List.nil_append]
  rfl

/-- After the opening bracket as well. -/
theorem json_run_string_first (s : String) :
    json.run .first (json.encodeString s) = .afterElem [s] := by
  have h := json_run_string_next [] s
  unfold json.encodeString at h ⊢
  rw [List.cons_append, json_run_cons] at h ⊢
  have h1 : json.step .first json.quote = json.step (.next []) json.quote := by
    simp only [json.step]
    rfl
  rw [h1]
  exact h

theorem json_run_strings_next (xs : List String) (hne : xs ≠ []) (done : List String) :
    json.run (.next done) (json.encodeStrings xs) = .afterElem (done ++ xs) := by
  induction xs generalizing done with
  | nil => exact absurd rfl hne
  | cons a rest ih =>
    cases rest with
    | nil => exact json_run_string_next done a
    | cons b rest =>
      rw [json.encodeStrings, json_run_append, json_run_string_next, json_run_cons]
      have h1 : json.step (.afterElem (done ++ [a])) ',' = .next (done ++ [a]) := by
        simp only [json.step]
        rfl
      rw [h1, ih (by simp), List.append_assoc]
      rfl

theorem json_run_strings_first (xs : List String) (hne : xs ≠ []) :
    json.run .first (json.encodeStrings xs) = .afterElem xs := by
  cases xs with
  | nil => exact absurd rfl hne
  | cons a rest =>
    cases rest with
    | nil => exact json_run_string_first a
    | cons b rest =>
      rw [json.encodeStrings, json_run_append, json_run_string_first, json_run_cons]
      have h1 : json.step (.afterElem [a]) ',' = .next [a] := by
        simp only [json.step]
        rfl
      rw [h1, json_run_strings_next _ (by simp)]
      rfl

/-- Decoding undoes encoding, for every list of strings. -/
theorem json_round_trip (xs : List String) :
    ∃ text, json.Marshal xs = .ok text ∧ json.Unmarshal text = .ok xs := by
  refine ⟨_, rfl, ?_⟩
  unfold json.Unmarshal
  have hrun : json.run .start ('[' :: json.encodeStrings xs ++ [']']) = .finished xs := by
    rw [List.cons_append, json_run_cons]
    have h1 : json.step .start '[' = .first := by decide
    rw [h1]
    by_cases hne : xs = []
    · subst hne
      decide
    · rw [json_run_append, json_run_strings_first xs hne, json_run_cons, json_run_nil]
      simp only [json.step]
      rfl
  show (match json.run .start ('[' :: json.encodeStrings xs ++ [']']) with
    | .finished result => Except.ok result
    | .failed message => .error message
    | _ => .error "unexpected end of JSON input") = .ok xs
  rw [hrun]

/-- Claim C29. When `CreateApplication` succeeds with the response `resp` and
the scope names of the request are not empty and hold no space (an empty scopes
list is allowed), `GetAllApplications` on the new store returns a list with a
row for the new client: it has the key of `resp` and the generated client id
and secret, its redirect URIs are the list of the request, read back by
`json.Unmarshal` from the text `json.Marshal` stored, and its scopes are the
scopes of the request, or `read` alone for an empty scopes list. The creation
response carries the same two lists, and no other row of the list has its key.
The redirect URI list is any list of strings. -/
theorem register_then_list_round_trip (s s1 : Store) (adminUserID : Nat)
    (clientID clientSecret : String) (req : ApplicationCreateRequest)
    (resp : ApplicationResponse)
    (hcreate : CreateApplication json.Marshal s adminUserID clientID clientSecret req
      = (.ok resp, s1))
    (hscopes : ∀ x ∈ req.Scopes, x ≠ "" ∧ ' ' ∉ x.toList) :
    ∃ list, GetAllApplications json.Unmarshal s1 = (.ok list, s1)
      ∧ ∃ r ∈ list, r.ID = resp.ID ∧ r.ClientID = clientID ∧ r.ClientSecret = clientSecret
          ∧ r.RedirectURIs = req.RedirectURIs
          ∧ r.Scopes = (if req.Scopes = [] then ["read"] else req.Scopes)
          ∧ resp.RedirectURIs = req.RedirectURIs
          ∧ resp.Scopes = (if req.Scopes = [] then ["read"] else req.Scopes)
          ∧ ∀ r2 ∈ list, r2.ID = resp.ID → r2 = r := by
  obtain ⟨text, hm, hun⟩ := json_round_trip req.RedirectURIs
  unfold CreateApplication at hcreate
  rw [hm] at hcreate
  simp only at hcreate
  by_cases hany : (s.apps.any fun a => a.ClientID == clientID) = true
  · rw [if_pos hany] at hcreate
    simp at hcreate
  · rw [if_neg hany] at hcreate
    simp only [Prod.mk.injEq, Except.ok.injEq] at hcreate
    obtain ⟨hresp, hs1⟩ := hcreate
    subst hs1
    have hlen : (if req.Scopes.length = 0 then ["read"] else req.Scopes)
        = (if req.Scopes = [] then ["read"] else req.Scopes) := by
      cases req.Scopes <;> simp
    have happ : ∀ st : Store, applicationResponse json.Unmarshal st
        { ID := nextID (s.apps.map (·.ID)), Name := req.Name, Description := req.Description,
          Website := req.Website, ClientID := clientID, ClientSecret := clientSecret,
          RedirectURIs := text,
          Scopes := stringsJoin (if req.Scopes.length = 0 then ["read"] else req.Scopes),
          CreatedByID := adminUserID, Trusted := req.Trusted, Active := true }
        = { ID := nextID (s.apps.map (·.ID)), Name := req.Name, Description := req.Description,
            Website := req.Website, ClientID := clientID, ClientSecret := clientSecret,
            RedirectURIs := req.RedirectURIs,
            Scopes := if req.Scopes = [] then ["read"] else req.Scopes,
            Trusted := req.Trusted, Active := true,
            CreatedBy := (preloadUser st adminUserID).Username } := by
      intro st
      unfold applicationResponse
      simp only [hun]
      rw [scopes_round_trip req.Scopes hscopes, hlen]
    refine ⟨_, rfl, _, List.mem_map.mpr ⟨_, List.mem_filter.mpr
      ⟨List.mem_append_right _ (List.mem_singleton.mpr rfl), rfl⟩, happ _⟩, ?_, rfl, rfl, rfl, rfl,
      ?_, ?_, ?_⟩
    · rw [← hresp]
    · rw [← hresp]
    · rw [← hresp, hlen]
    · intro r2 hr hid
      obtain ⟨a, ha, har⟩ := List.mem_map.mp hr
      rw [List.mem_filter] at ha
      rcases List.mem_append.mp ha.1 with hold | hnew
      · exfalso
        have h1 : r2.ID = a.ID := by rw [← har]; rfl
        have h2 : resp.ID = nextID (s.apps.map (·.ID)) := by rw [← hresp]
        have h3 : a.ID ∈ s.apps.map (·.ID) := List.mem_map_of_mem _ hold
        rw [← h1, hid, h2] at h3
        exact nextID_not_mem _ h3
      · rw [List.mem_singleton] at hnew
        rw [← har, hnew, happ]


/-! ## The pagination of `AdminListUsers` -/

/-- The page and the size the handler uses are in range for every query
string, and the offset is the product reduced to the range of `int`. -/
theorem paging_bounds (p sz : String) :
    1 ≤ (AdminListUsers.paging p sz).page
      ∧ (AdminListUsers.paging p sz).page ≤ 9223372036854775807
      ∧ 1 ≤ (AdminListUsers.paging p sz).size
      ∧ (AdminListUsers.paging p sz).size ≤ 100
      ∧ (AdminListUsers.paging p sz).offset
          = wrapInt (((AdminListUsers.paging p sz).page - 1) * (AdminListUsers.paging p sz).size)
      ∧ (((AdminListUsers.paging p sz).page - 1) * (AdminListUsers.paging p sz).size
            ≤ 9223372036854775807 →
          (AdminListUsers.paging p sz).offset
              = ((AdminListUsers.paging p sz).page - 1) * (AdminListUsers.paging p sz).size
            ∧ 0 ≤ (AdminListUsers.paging p sz).offset) := by
  have hpage : ∀ p : String, 1 ≤ (if p ≠ "" then
        match strconvAtoi p with
        | some parsed => if parsed > 0 then parsed else 1
        | none => 1
      else (1 : Int)) ∧ (if p ≠ "" then
        match strconvAtoi p with
        | some parsed => if parsed > 0 then parsed else 1
        | none => 1
      else (1 : Int)) ≤ 9223372036854775807 := by
    intro p
    split_ifs with h1
    · cases hp : strconvAtoi p with
      | none => simp
      | some n =>
        simp only
        have hr : n ≤ 9223372036854775807 := by
          unfold strconvAtoi at hp
          simp only at hp
          split at hp
          · split_ifs at hp with hrange
            cases hp
            exact hrange.2
          · simp at hp
        split_ifs with h2
        · exact ⟨by omega, hr⟩
        · simp
    · simp
  have hsize : ∀ sz : String, 1 ≤ (if sz ≠ "" then
        match strconvAtoi sz with
        | some parsed => if parsed > 0 ∧ parsed ≤ 100 then parsed else 10
        | none => 10
      else (10 : Int)) ∧ (if sz ≠ "" then
        match strconvAtoi sz with
        | some parsed => if parsed > 0 ∧ parsed ≤ 100 then parsed else 10
        | none => 10
      else (10 : Int)) ≤ 100 := by
    intro sz
    split_ifs with h1
    · cases hp : strconvAtoi sz with
      | none => simp
      | some n =>
        simp only
        split_ifs with h2
        · exact ⟨by omega, h2.2⟩
        · simp
    · simp
  have hex : ∃ page size : Int, 1 ≤ page ∧ page ≤ 9223372036854775807 ∧ 1 ≤ size ∧ size ≤ 100
      ∧ AdminListUsers.paging p sz
          = { page := page, size := size, offset := wrapInt (wrapInt (page - 1) * size) } :=
    ⟨_, _, (hpage p).1, (hpage p).2, (hsize sz).1, (hsize sz).2, rfl⟩
  obtain ⟨page, size, hp1, hp2, hs1, hs2, heq⟩ := hex
  rw [heq]
  simp only
  have hw : wrapInt (page - 1) = page - 1 := by
    unfold wrapInt
    omega
  rw [hw]
  refine ⟨hp1, hp2, hs1, hs2, rfl, ?_⟩
  intro hle
  have hnn : 0 ≤ (page - 1) * size := mul_nonneg (by omega) (by omega)
  have hw2 : wrapInt ((page - 1) * size) = (page - 1) * size := by
    unfold wrapInt
    generalize (page - 1) * size = x at hle hnn
    omega
  rw [hw2]
  exact ⟨rfl, hnn⟩

/-! ## Witnesses and evaluations on the sample data -/

/-- Claim C21 on the sample store: an update keeps the credentials of client
`X`, and the sample run ends with the two clients `X` (renamed, deleted) and
`Y`, the second request for the id `X` having stored nothing. -/
theorem client_id_immutable_and_unique_witness :
    sampleStore.appIDsUnique ∧ sampleStore.clientIDsUnique
      ∧ (UpdateApplication sampleMarshal sampleStore 1 sampleCreateRequest).2.credentials
          = [(1, "X", "s3cr3t")]
      ∧ (RegistryOp.run sampleMarshal sampleStore sampleRegistryOps).apps.map
            (fun a => (a.ID, a.ClientID, a.Name, a.DeletedAt))
          = [(1, "X", "renamed", some 43), (2, "Y", "second", none)]
      ∧ ∀ a ∈ (RegistryOp.run sampleMarshal sampleStore sampleRegistryOps).apps,
          ∀ b ∈ (RegistryOp.run sampleMarshal sampleStore sampleRegistryOps).apps,
          a.ClientID = b.ClientID → a = b := by
  have hid : sampleStore.appIDsUnique := by decide
  have hu : sampleStore.clientIDsUnique := by decide
  have h := client_id_immutable_and_unique sampleMarshal sampleStore hid hu
  exact ⟨hid, hu, by decide, by decide, h.2.2.2 sampleRegistryOps⟩

/-- Claim C22 on the sample data: the trusted client gets the redirect
`https://app/cb?code=c5&state=xyz` and the code `c5` is stored; the untrusted
sample client gets a consent payload and the store is unchanged. -/
theorem authorize_trusted_skips_consent_witness :
    OAuthAuthorize sampleValidateAuthorize sampleUnmarshal trustedStore (some sampleUser) "c5" 5
        sampleAuthorizeState
      = (.redirect 302 "https://app/cb?code=c5&state=xyz",
          { trustedStore with codes :=
              [{ ID := 1, Code := "c5", ClientID := "X", UserID := 7,
                 RedirectURI := "https://app/cb", Scopes := "read", ExpiresAt := 600000000005 }] })
      ∧ ∃ payload, OAuthAuthorize sampleValidateAuthorize sampleUnmarshal sampleStore
            (some sampleUser) "c5" 5 sampleAuthorizeState
          = (.json 200 (.fields payload), sampleStore) := by
  have hv : sampleValidateAuthorize sampleAuthorizeState = .ok () := by decide
  have h1 : (ValidateAuthorizationRequest sampleUnmarshal trustedStore sampleAuthorizeState).1
      = .ok { sampleApp with Trusted := true } := by decide
  have h2 : (ValidateAuthorizationRequest sampleUnmarshal sampleStore sampleAuthorizeState).1
      = .ok sampleApp := by decide
  have t1 := (authorize_trusted_skips_consent sampleValidateAuthorize sampleUnmarshal trustedStore
    sampleUser "c5" 5 sampleAuthorizeState _ hv h1).1 rfl (by decide)
  obtain ⟨payload, t2, -⟩ := (authorize_trusted_skips_consent sampleValidateAuthorize
    sampleUnmarshal sampleStore sampleUser "c5" 5 sampleAuthorizeState _ hv h2).2 rfl
  refine ⟨?_, payload, t2⟩
  rw [t1]
  decide

/-- Claim C23 fails as stated: on the sample store a wrong client secret is
answered with the error code `invalid_request`, not `invalid_client`, and a code
that was used and a refresh token that does not exist are answered with
`invalid_request`, not `invalid_grant`. -/
theorem token_endpoint_bad_secret_not_invalid_client :
    (OAuthToken sampleValidateToken sampleStore sampleTokenEnv
        { sampleRequest with ClientSecret := "wrong" }).1
      = .json 400 (errorBody "invalid_request" "invalid client_secret")
    ∧ (OAuthToken sampleValidateToken sampleStore sampleTokenEnv
        { sampleRequest with ClientSecret := "wrong" }).1
      ≠ .json 400 (errorBody "invalid_client" "invalid client_secret")
    ∧ (OAuthToken sampleValidateToken exchangedStore sampleTokenEnv sampleRequest).1
      = .json 400 (errorBody "invalid_request" "invalid or expired authorization code")
    ∧ (OAuthToken sampleValidateToken sampleStore sampleTokenEnv sampleRefreshRequest).1
      = .json 400 (errorBody "invalid_request" "invalid refresh token") := by
  decide

/-- Claim C23, as amended, on the sample store: a wrong client secret and the
grant type `password`. -/
theorem token_endpoint_reports_invalid_request_witness :
    sampleValidateToken { sampleRequest with ClientSecret := "wrong" } = .ok ()
      ∧ (OAuthToken sampleValidateToken sampleStore sampleTokenEnv
          { sampleRequest with ClientSecret := "wrong" }).1
        = .json StatusBadRequest (errorBody "invalid_request" "invalid client_secret")
      ∧ OAuthToken sampleValidateToken sampleStore sampleTokenEnv
          { sampleRequest with GrantType := "password" }
        = (.json StatusBadRequest
            (.fields [("error", .scalar (.str "unsupported_grant_type"))]), sampleStore) := by
  have hv : sampleValidateToken { sampleRequest with ClientSecret := "wrong" } = .ok () := by
    decide
  have hv2 : sampleValidateToken { sampleRequest with GrantType := "password" } = .ok () := by
    decide
  exact ⟨hv,
    (token_endpoint_reports_invalid_request sampleValidateToken sampleStore sampleTokenEnv
      { sampleRequest with ClientSecret := "wrong" } hv).1 rfl "invalid client_secret"
      (by decide),
    (token_endpoint_reports_invalid_request sampleValidateToken sampleStore sampleTokenEnv
      { sampleRequest with GrantType := "password" } hv2).2.2.1 (by decide) (by decide)⟩

/-- Claim C24 on the sample data: the token granted `profile` unlocks `sub`,
`username` and `email`; the token granted `read` unlocks `sub`, `id`, `role`
and the one organization of the user. -/
theorem userinfo_field_set_witness :
    (ValidateAccessToken userinfoStore 50 "P1").1 = .ok (sampleUser, ["profile"])
      ∧ OAuthUserInfo userinfoStore 50 "Bearer P1"
        = (.json 200 (.fields [("sub", .scalar (.num 7)), ("username", .scalar (.str "alice")),
            ("email", .scalar (.str "alice@example.com"))]), userinfoStore)
      ∧ OAuthUserInfo userinfoStore 50 "Bearer Q1"
        = (.json 200 (.fields [("sub", .scalar (.num 7)), ("id", .scalar (.num 7)),
            ("role", .scalar (.str "user")),
            ("organizations", .array [[("id", .num 1), ("name", .str "Acme"),
              ("slug", .str "acme"), ("role", .str "owner")]])]), userinfoStore)
      ∧ ∃ info, OAuthUserInfo userinfoStore 50 ("Bearer " ++ "P1")
          = (.json StatusOK (.fields info), userinfoStore)
        ∧ mapGet info "sub" = some (.scalar (.num 7))
        ∧ (mapGet info "username").isSome ∧ ¬ (mapGet info "id").isSome := by
  have hv : (ValidateAccessToken userinfoStore 50 "P1").1 = .ok (sampleUser, ["profile"]) := by
    decide
  obtain ⟨info, h1, -, h3, h4, -, h6, -, -⟩ :=
    userinfo_field_set userinfoStore 50 "P1" sampleUser ["profile"] hv
  refine ⟨hv, by decide, by decide, info, h1, h3, h4.mpr (by decide), ?_⟩
  intro hid
  exact absurd (h6.mp hid) (by decide)

/-- Claim C25 on the sample run: the request naming `md5` is turned down, the
one stored code names `S256`, and a verifier that accepts every unknown method
changes no exchange. -/
theorem pkce_fallthrough_unreachable_witness :
    trustedStore.codes = []
      ∧ (FlowOp.run sampleUnmarshal trustedStore sampleFlowOps).codes.map
            (fun c => (c.Code, c.CodeChallengeMethod, c.Used))
          = [("c1", "S256", true)]
      ∧ (∃ e, ValidateAuthorizationRequest sampleUnmarshal trustedStore
            { samplePkceAuthorize with CodeChallengeMethod := "md5" } = (.error e, trustedStore))
      ∧ ∀ env req,
          ExchangeCodeForTokenWith
              (fun ch m v => if m = "" ∨ m = "plain" ∨ m = "S256" then validatePKCE ch m v
                else true)
              (FlowOp.run sampleUnmarshal trustedStore sampleFlowOps) env req
            = ExchangeCodeForToken (FlowOp.run sampleUnmarshal trustedStore sampleFlowOps)
                env req := by
  have h0 : trustedStore.codes = [] := rfl
  have h := pkce_fallthrough_unreachable sampleUnmarshal trustedStore sampleFlowOps h0
  refine ⟨h0, by decide, ?_, ?_⟩
  · exact h.1 trustedStore _ (by decide) (by decide) (by decide) (by decide)
  · intro env req
    exact h.2.2 (fun ch m v => if m = "" ∨ m = "plain" ∨ m = "S256" then
      validatePKCE ch m v else true) (fun ch m v hm => by simp [hm]) env req

/-- Claim C27 on the sample store: a request with another redirect URI fails
and the sample code can still be redeemed afterwards. -/
theorem exchange_failed_check_keeps_store_witness :
    ExchangeCodeForToken sampleStore sampleEnv
        { sampleRequest with RedirectURI := "https://evil/cb" }
      = (.error "redirect_uri mismatch", sampleStore)
      ∧ (ExchangeCodeForToken
          (ExchangeCodeForToken sampleStore sampleEnv
            { sampleRequest with RedirectURI := "https://evil/cb" }).2 sampleEnv2 sampleRequest).1
        = .ok { AccessToken := "A2", TokenType := "Bearer", ExpiresIn := 3600,
                RefreshToken := "R2", Scope := "read" } := by
  have hbad : ∀ a ∈ sampleStore.codes, a.DeletedAt = none → a.Code = "c0" → a.Used = false →
      a.ExpiresAt < 10 ∨ a.ClientID ≠ "X" ∨ a.RedirectURI ≠ "https://evil/cb"
        ∨ (a.CodeChallenge ≠ "" ∧ (("" : String) = ""
            ∨ validatePKCE a.CodeChallenge a.CodeChallengeMethod "" = false))
        ∨ (("" : String) ≠ "" ∧ ∀ app ∈ sampleStore.apps, app.DeletedAt = none →
            app.ClientID = "X" → app.ClientSecret ≠ "") := by
    intro a ha _ _ _
    have hr : a.RedirectURI = "https://app/cb" := by
      have hall : ∀ c ∈ sampleStore.codes, c.RedirectURI = "https://app/cb" := by decide
      exact hall a ha
    right
    right
    left
    rw [hr]
    decide
  have h := exchange_failed_check_keeps_store sampleStore sampleEnv
    { sampleRequest with RedirectURI := "https://evil/cb" } hbad
  obtain ⟨e, he⟩ := h.1
  refine ⟨?_, ?_⟩
  · rw [he]
    have h1 : (ExchangeCodeForToken sampleStore sampleEnv
        { sampleRequest with RedirectURI := "https://evil/cb" }).1
        = .error "redirect_uri mismatch" := by decide
    rw [he] at h1
    rw [Except.error.inj h1]
  · rw [h.2.2.2.2 sampleEnv2 sampleRequest]
    decide

/-- Claim C29 on the sample store with its administrator: the client `Y` is
registered with two redirect URIs, one of which holds characters the encoder
escapes, and with the scopes `read` and `profile`; the stored text is the
escaped JSON array, and the listing returns both clients, `Y` with the two
redirect URIs and the two scopes of the request. The listing names the creator
of `Y`, which the creation response leaves empty. -/
theorem register_then_list_round_trip_witness :
    ∃ resp s1, CreateApplication json.Marshal adminStore 1 "Y" "s2" sampleEscapedRequest
        = (.ok resp, s1)
      ∧ s1.apps.map (·.RedirectURIs)
          = [sampleRedirectURIs,
             "[\"https://app/cb?a=1\\u0026b=\\u003c2\\u003e\",\"app://cb\"]"]
      ∧ ∃ list, GetAllApplications json.Unmarshal s1 = (.ok list, s1)
          ∧ list.map (fun r => (r.ClientID, r.RedirectURIs, r.Scopes, r.CreatedBy))
            = [("X", ["https://app/cb"], ["read", "profile"], ""),
               ("Y", ["https://app/cb?a=1&b=<2>", "app://cb"], ["read", "profile"], "root")]
          ∧ resp.CreatedBy = "" := by
  have hc : CreateApplication json.Marshal adminStore 1 "Y" "s2" sampleEscapedRequest
      = (.ok { ID := 2, Name := "second", Description := "", Website := "", ClientID := "Y",
               ClientSecret := "s2", RedirectURIs := ["https://app/cb?a=1&b=<2>", "app://cb"],
               Scopes := ["read", "profile"], Trusted := false, Active := true },
          (CreateApplication json.Marshal adminStore 1 "Y" "s2" sampleEscapedRequest).2) := by
    decide
  have hscopes : ∀ x ∈ sampleEscapedRequest.Scopes, x ≠ "" ∧ ' ' ∉ x.toList := by decide
  obtain ⟨list, h1, -⟩ :=
    register_then_list_round_trip _ _ 1 "Y" "s2" sampleEscapedRequest _ hc hscopes
  refine ⟨_, _, hc, by decide, list, h1, ?_, rfl⟩
  have h2 := congrArg (fun p => p.1) h1
  simp only at h2
  have h3 : (GetAllApplications json.Unmarshal
      (CreateApplication json.Marshal adminStore 1 "Y" "s2" sampleEscapedRequest).2).1
      = .ok [{ ID := 1, Name := "", Description := "", Website := "", ClientID := "X",
               ClientSecret := "s3cr3t", RedirectURIs := ["https://app/cb"],
               Scopes := ["read", "profile"], Trusted := false, Active := true },
             { ID := 2, Name := "second", Description := "", Website := "", ClientID := "Y",
               ClientSecret := "s2", RedirectURIs := ["https://app/cb?a=1&b=<2>", "app://cb"],
               Scopes := ["read", "profile"], Trusted := false, Active := true,
               CreatedBy := "root" }] := by
    decide
  rw [h2] at h3
  rw [Except.ok.inj h3]
  decide


/-- Claim C30, the failing input. For the query `page=9223372036854775807` the
handler computes the offset -20 (default size 10) or -200 (size 100): the
product (page - 1) * size leaves the range of a Go `int` and wraps. `ListUsers`
skips no row for an offset that is not positive, so the first rows of the table
are returned. For `page=3&size=25` the offset is 50. -/
theorem paging_offset_overflows :
    AdminListUsers.paging "9223372036854775807" ""
        = { page := 9223372036854775807, size := 10, offset := -20 }
      ∧ AdminListUsers.paging "9223372036854775807" "100"
        = { page := 9223372036854775807, size := 100, offset := -200 }
      ∧ AdminListUsers.paging "3" "25" = { page := 3, size := 25, offset := 50 }
      ∧ (ListUsers { users := [sampleUser] } (-20) 10).1 = .ok [sampleUser]
      ∧ (ListUsers { users := [sampleUser] } 50 25).1 = .ok [] := by
  decide

end MiniAuth
